/-
Verification of the AILL v1.1 reference implementation (wire-format codec,
epoch framer, and session negotiation) against its specification.

The definitions below are a shallow embedding of the Python sources
`aill/encoder.py`, `aill/decoder.py`, `aill/codebook.py`, `aill/channel.py`.
Conventions used throughout:
  * A byte string is a `List Nat` whose members are < 256 where produced by
    the code (Python `bytes` guarantees this for inputs).
  * Python bitwise operations are written as the arithmetic they perform on
    the in-range values handled here, with a comment giving the original
    expression (e.g. `0x80 ||| (v >>> 8)` is `0x80 + v / 256` when
    `v >>> 8 < 0x80`; `x &&& 0x3F` is `x % 64`).
  * IEEE 754 half/single/double values are carried as their big-endian bit
    patterns (`Nat`), since the codec only moves bit patterns; packing and
    unpacking are mutually inverse bijections on non-NaN patterns.
  * Fallible Python code (raising) is modelled with `Option` / `Except`.
-/
import Mathlib

namespace AILL

/-! ## Big-endian primitive codec (encoder.py ByteStream / struct '>H','>I','>q') -/

/-- struct.pack('>H', v): two big-endian bytes.  pack raises for v ≥ 2^16;
all uses below are in range, where the `% 256` projections are exact. -/
def be16 (v : Nat) : List Nat := [v / 256 % 256, v % 256]

/-- struct.pack('>I', v): four big-endian bytes (v < 2^32 in all uses). -/
def be32 (v : Nat) : List Nat :=
  [v / 16777216 % 256, v / 65536 % 256, v / 256 % 256, v % 256]

/-- struct.pack('>Q', v): eight big-endian bytes. -/
def be64 (v : Nat) : List Nat :=
  [v / 2 ^ 56 % 256, v / 2 ^ 48 % 256, v / 2 ^ 40 % 256, v / 2 ^ 32 % 256,
   v / 16777216 % 256, v / 65536 % 256, v / 256 % 256, v % 256]

/-- struct.unpack of big-endian bytes into an unsigned integer. -/
def beToNat (bs : List Nat) : Nat := bs.foldl (fun a b => a * 256 + b) 0

/-- struct.pack('>q', v): eight big-endian bytes of the two's complement
of a signed 64-bit value (pack raises outside [-2^63, 2^63)). -/
def int64be (v : Int) : List Nat := be64 (v % (2 ^ 64 : Int)).toNat

/-- struct.pack('>i', v): two's complement big-endian i32. -/
def int32be (v : Int) : List Nat := be32 (v % (2 ^ 32 : Int)).toNat

/-- struct.pack('>h', v). -/
def int16be (v : Int) : List Nat := be16 (v % (2 ^ 16 : Int)).toNat

/-- struct.pack('>b', v). -/
def int8be (v : Int) : List Nat := [(v % (2 ^ 8 : Int)).toNat]

/-- struct.unpack of a big-endian two's complement value of `w` bits. -/
def toSigned (w : Nat) (n : Nat) : Int :=
  if n < 2 ^ (w - 1) then (n : Int) else (n : Int) - (2 ^ w : Nat)

/-! ## VarInt (encoder.py encode_varint / decode_varint) -/

/-- encoder.py `encode_varint`.  The Python guard `value < 0` (ValueError)
cannot arise for a `Nat` input; the final branch's struct.pack('>I') raises
for `value ≥ 2^32`, outside the range of every claim, where this model wraps.
Bit expressions are written arithmetically: `0x80 ||| (v >>> 8)` is
`0x80 + v / 256` (disjoint bits since `v / 256 < 0x40`), and similarly for
the 3- and 4-byte headers. -/
def encode_varint (value : Nat) : List Nat :=
  if value < 128 then [value]
  else if value < 16384 then [0x80 + value / 256, value % 256]
  else if value < 2097152 then
    [0xC0 + value / 65536, value / 256 % 256, value % 256]
  else if value < 268435456 then
    [0xE0 + value / 16777216, value / 65536 % 256, value / 256 % 256, value % 256]
  else [0xF0] ++ be32 (value % 2 ^ 32)

/-- encoder.py `decode_varint`, returning (value, bytes_consumed).
Python raises IndexError / struct.error on truncated input, modelled as
`none`.  Masks are arithmetic on byte data: `first &&& 0x3F` is
`first % 64`, `(x <<< 8) ||| b` is `x * 256 + b` for a byte `b`. -/
def decode_varint (data : List Nat) (offset : Nat) : Option (Nat × Nat) := do
  let first ← data[offset]?
  if first < 0x80 then
    some (first, 1)
  else if first < 0xC0 then do
    let b1 ← data[offset + 1]?
    some (first % 64 * 256 + b1, 2)
  else if first < 0xE0 then do
    let b1 ← data[offset + 1]?
    let b2 ← data[offset + 2]?
    some (first % 32 * 65536 + b1 * 256 + b2, 3)
  else if first < 0xF0 then do
    let b1 ← data[offset + 1]?
    let b2 ← data[offset + 2]?
    let b3 ← data[offset + 3]?
    some (first % 16 * 16777216 + b1 * 65536 + b2 * 256 + b3, 4)
  else do
    let b1 ← data[offset + 1]?
    let b2 ← data[offset + 2]?
    let b3 ← data[offset + 3]?
    let b4 ← data[offset + 4]?
    some (b1 * 16777216 + b2 * 65536 + b3 * 256 + b4, 5)

/-! ## CRC-8 (encoder.py _CRC8_TABLE / crc8) -/

/-- One table entry: eight iterations of the CRC-8 step
(poly 0x07, MSB-first), exactly the loop that builds `_CRC8_TABLE`. -/
def crc8TableEntry (i : Nat) : Nat :=
  (List.range 8).foldl
    (fun crc _ =>
      (if crc &&& 0x80 ≠ 0 then (crc <<< 1) ^^^ 0x07 else crc <<< 1) &&& 0xFF)
    i

/-- encoder.py `_CRC8_TABLE`. -/
def CRC8_TABLE : List Nat := (List.range 256).map crc8TableEntry

/-- encoder.py `crc8`: table-driven CRC-8/CCITT, init 0x00, no xor-out. -/
def crc8 (data : List Nat) : Nat :=
  data.foldl (fun crc b => CRC8_TABLE.getD (crc ^^^ b) 0) 0x00

/-! ## Epoch framer (encoder.py EpochBuilder, decoder.py decode_epoch) -/

def MAX_EPOCH_PAYLOAD : Nat := 8192

/-- The wire bytes `flush` emits for one epoch:
`[u16 seq][u16 len][payload][u8 crc]`, CRC over the first `4 + len` bytes. -/
def epochFrame (seq : Nat) (payload : List Nat) : List Nat :=
  let epoch_bytes := be16 seq ++ be16 payload.length ++ payload
  epoch_bytes ++ [crc8 epoch_bytes]

/-- State of encoder.py `EpochBuilder` (fields `_seq`, `_epochs`,
`_current_payload`). -/
structure EpochBuilderState where
  seq : Nat
  epochs : List (List Nat)
  current_payload : List Nat

/-- `EpochBuilder.__init__`. -/
def EpochBuilderState.init : EpochBuilderState := ⟨0, [], []⟩

/-- `EpochBuilder.flush`: skip when the current payload is empty, otherwise
append the framed epoch, bump the sequence number, reset the payload. -/
def EpochBuilderState.flush (st : EpochBuilderState) : EpochBuilderState :=
  if st.current_payload.length = 0 then st
  else
    { seq := st.seq + 1,
      epochs := st.epochs ++ [epochFrame st.seq st.current_payload],
      current_payload := [] }

/-- `EpochBuilder.write`: flush first if appending would exceed
`MAX_EPOCH_PAYLOAD`, then append. -/
def EpochBuilderState.write (st : EpochBuilderState) (data : List Nat) :
    EpochBuilderState :=
  let st' :=
    if st.current_payload.length + data.length > MAX_EPOCH_PAYLOAD
    then st.flush else st
  { st' with current_payload := st'.current_payload ++ data }

/-- `EpochBuilder.get_epochs`: flush, then return all epochs. -/
def EpochBuilderState.getEpochs (st : EpochBuilderState) : List (List Nat) :=
  st.flush.epochs

/-- decoder.py `DecodedEpoch`. -/
structure DecodedEpoch where
  seq_num : Nat
  payload : List Nat
  crc_ok : Bool
deriving DecidableEq

/-- decoder.py `AILLDecodeError`, carrying the offset (the message text of
the Python exception is dropped; no claim reads it).  `indexError` stands
for the raw Python IndexError escaping `decode_varint`. -/
inductive DecErr where
  | aill (offset : Nat)
  | indexError
  | encoding
  | fuelOut
deriving DecidableEq

/-- decoder.py `decode_epoch`: returns (DecodedEpoch, bytes_consumed) or
fails when fewer than 5 bytes remain or the declared length overruns the
buffer.  `len(data) - offset` comparisons use truncated `Nat` subtraction,
which agrees with the Python integers on the error side. -/
def decode_epoch (data : List Nat) (offset : Nat) :
    Except DecErr (DecodedEpoch × Nat) :=
  if data.length - offset < 5 then .error (.aill offset)
  else
    let seq_num := beToNat ((data.drop offset).take 2)
    let payload_len := beToNat ((data.drop (offset + 2)).take 2)
    if data.length - offset < 4 + payload_len + 1 then .error (.aill offset)
    else
      let payload := (data.drop (offset + 4)).take payload_len
      let received_crc := data.getD (offset + 4 + payload_len) 0
      let computed_crc := crc8 ((data.drop offset).take (4 + payload_len))
      .ok (⟨seq_num, payload, received_crc == computed_crc⟩, 4 + payload_len + 1)

/-! ## Session negotiation (channel.py) -/

/-- channel.py `select_modulation`. -/
def select_modulation (snr_db : ℚ) : String :=
  if 30 ≤ snr_db then "64-QAM"
  else if 20 ≤ snr_db then "16-QAM"
  else if 10 ≤ snr_db then "QPSK"
  else "BPSK"

/-- channel.py `AgentCapabilities`, with the dataclass defaults (the Python
default uuid is freshly random; any fixed value stands in for it, and no
negotiation rule reads it). -/
structure AgentCapabilities where
  uuid : List Nat := List.replicate 16 0
  protocol_version : Nat := 0x0100
  conformance_level : Nat := 0x02
  capabilities_bitmap : Nat := 0x007F
  max_sample_rate_khz : Nat := 48
  preferred_frame_duration_us : Nat := 2500
  noise_floor_db_spl : ℚ := 35
  codebook_sets : List Nat := [0x01, 0x02, 0x05]

/-- channel.py `SessionParams`. -/
structure SessionParams where
  conformance_level : Nat := 0x01
  modulation : String := "QPSK"
  active_bands : List String := ["B0", "B1"]
  frame_duration_us : Nat := 2500
  sample_rate_khz : Nat := 44
  error_correction : String := "rate-1/2 conv"
  codebook_sets : List Nat := []
  sct_max_size : Nat := 1024
deriving DecidableEq

/-- The two fields of the dict returned by `AcousticChannel.characterize()`
that `negotiate_session` reads. -/
structure ChannelInfo where
  effective_snr_db : ℚ
  recommended_modulation : String

/-- `AcousticChannel.characterize()` for a channel whose effective SNR
(`_effective_snr_db`) is `eff_snr`: the dict carries
`effective_snr_db = round(eff_snr, 1)` — the identity on the integral
values used in the claims — and
`recommended_modulation = select_modulation(eff_snr)`. -/
def characterizeInfo (eff_snr : ℚ) : ChannelInfo :=
  ⟨eff_snr, select_modulation eff_snr⟩

/-- channel.py `negotiate_session`.  The Python function receives the
channel object and calls `characterize()` on it; this embedding receives
the two fields of that measurement it reads.  Truth tests
`common_caps & k` are `common_caps &&& k ≠ 0`;
`sorted(list(set(a) & set(b)))` is the ascending sort of the distinct
common members, realized by filter + dedup + sort. -/
def negotiate_session (agent_a agent_b : AgentCapabilities)
    (ch_info : ChannelInfo) : SessionParams :=
  let conf_level := min agent_a.conformance_level agent_b.conformance_level
  let common_caps := agent_a.capabilities_bitmap &&& agent_b.capabilities_bitmap
  let sample_rate := min agent_a.max_sample_rate_khz agent_b.max_sample_rate_khz
  let frame_dur :=
    max agent_a.preferred_frame_duration_us agent_b.preferred_frame_duration_us
  let modulation := ch_info.recommended_modulation
  let bands0 := ["B0", "B1"]
  let bands1 :=
    if common_caps &&& 0x01 ≠ 0 ∧ 20 ≤ ch_info.effective_snr_db
    then bands0 ++ ["B2", "B3"] else bands0
  let bands :=
    if common_caps &&& 0x02 ≠ 0 ∧ 25 ≤ ch_info.effective_snr_db
    then bands1 ++ ["B4"] else bands1
  let error_corr0 := "rate-1/2 conv"
  let error_corr1 :=
    if common_caps &&& 0x20 ≠ 0 then error_corr0 ++ " + RS(255,223)"
    else error_corr0
  let error_corr :=
    if common_caps &&& 0x10 ≠ 0 then error_corr1 ++ " + fountain"
    else error_corr1
  let common_cbs :=
    (agent_a.codebook_sets.filter (· ∈ agent_b.codebook_sets)).dedup
  let sct_size := if 2 ≤ conf_level then 1024 else 64
  { conformance_level := conf_level
    modulation := modulation
    active_bands := bands
    frame_duration_us := frame_dur
    sample_rate_khz := sample_rate
    error_correction := error_corr
    codebook_sets := List.insertionSort (· ≤ ·) common_cbs
    sct_max_size := sct_size }

/-! ## Structural encoder state (encoder.py AILLEncoder) -/

/-- encoder.py `AILLEncoder` state: the output byte stream and the
`_in_utterance` flag (the stored agent uuid is omitted: no method reads
it). -/
structure EncoderState where
  stream : List Nat
  in_utterance : Bool

/-- `AILLEncoder.__init__`. -/
def EncoderState.init : EncoderState := ⟨[], false⟩

/-- `ByteStream.write_raw`. -/
def EncoderState.raw (st : EncoderState) (bs : List Nat) : EncoderState :=
  { st with stream := st.stream ++ bs }

/-- `AILLEncoder._code` (via `write_byte`, which masks with 0xFF). -/
def EncoderState.wcode (st : EncoderState) (c : Nat) : EncoderState :=
  { st with stream := st.stream ++ [c % 256] }

/-- `AILLEncoder.start_utterance` with an explicit `timestamp_us` (when the
caller omits it the source substitutes current wall-clock microseconds) and
the confidence given by its IEEE binary16 bit pattern (`write_float16`
packs the Python float; 1.0 packs to 0x3C00). -/
def EncoderState.start_utterance (st : EncoderState) (confidence_bits : Nat)
    (priority : Nat) (timestamp_us : Int)
    (dest_agent : Option (List Nat) := none) (seqnum : Option Nat := none) :
    EncoderState :=
  let st := st.wcode 0x00                                 -- START_UTTERANCE
  let st := (st.wcode 0x90).raw (be16 confidence_bits)    -- CONFIDENCE f16
  let st := (st.wcode 0x91).raw [priority % 256]          -- PRIORITY u8
  let st := (st.wcode 0x94).raw (int64be timestamp_us)    -- TIMESTAMP_META i64
  let st := match dest_agent with
            | some d => (st.wcode 0x93).raw d             -- DEST_AGENT uuid16
            | none => st
  let st := match seqnum with
            | some n => (st.wcode 0x95).raw (be32 n)      -- SEQNUM u32
            | none => st
  { st with in_utterance := true }

/-- `AILLEncoder.end_utterance`: append END_UTTERANCE and return the wire
bytes (the flag is cleared; nothing checks it was set). -/
def EncoderState.end_utterance (st : EncoderState) : List Nat × EncoderState :=
  let st := st.wcode 0x01
  (st.stream, { st with in_utterance := false })

/-- `AILLEncoder.pragma` and the other bare-code emitters. -/
def EncoderState.pragma (st : EncoderState) (act : Nat) : EncoderState :=
  st.wcode act

/-- `AILLEncoder.int32`. -/
def EncoderState.int32 (st : EncoderState) (v : Int) : EncoderState :=
  (st.wcode 0x12).raw (int32be v)

/-! ## Theorems: VarInt (C4) -/

/-- C4: for every v < 2^32, `decode_varint (encode_varint v)` returns
`(v, byte count)`, and the encoding is minimal: 1 byte below 128, 2 bytes
up to 16383, 3 up to 2097151, 4 up to 268435455, and 5 otherwise. -/
theorem c4_varint_roundtrip (v : Nat) (h : v < 2 ^ 32) :
    decode_varint (encode_varint v) 0 = some (v, (encode_varint v).length) ∧
    (encode_varint v).length =
      (if v < 128 then 1 else if v < 16384 then 2 else if v < 2097152 then 3
       else if v < 268435456 then 4 else 5) := by
  by_cases h1 : v < 128
  · simp [encode_varint, decode_varint, h1]
  · by_cases h2 : v < 16384
    · have e1 : ¬ (0x80 + v / 256 < 0x80) := by omega
      have e2 : 0x80 + v / 256 < 0xC0 := by omega
      simp [encode_varint, decode_varint, h1, h2, e1, e2]
      omega
    · by_cases h3 : v < 2097152
      · have e1 : ¬ (0xC0 + v / 65536 < 0x80) := by omega
        have e2 : ¬ (0xC0 + v / 65536 < 0xC0) := by omega
        have e3 : 0xC0 + v / 65536 < 0xE0 := by omega
        simp [encode_varint, decode_varint, h1, h2, h3, e1, e2, e3]
        omega
      · by_cases h4 : v < 268435456
        · have e1 : ¬ (0xE0 + v / 16777216 < 0x80) := by omega
          have e2 : ¬ (0xE0 + v / 16777216 < 0xC0) := by omega
          have e3 : ¬ (0xE0 + v / 16777216 < 0xE0) := by omega
          have e4 : 0xE0 + v / 16777216 < 0xF0 := by omega
          simp [encode_varint, decode_varint, h1, h2, h3, h4, e1, e2, e3, e4]
          omega
        · have hm : v % 2 ^ 32 = v := Nat.mod_eq_of_lt h
          simp [encode_varint, decode_varint, be32, h1, h2, h3, h4, hm]
          omega

/-- Witness for C4 at v = 300 (a 2-byte value). -/
theorem c4_varint_roundtrip_witness :
    (300 : Nat) < 2 ^ 32 ∧
    decode_varint (encode_varint 300) 0 = some (300, (encode_varint 300).length) :=
  ⟨by decide, (c4_varint_roundtrip 300 (by decide)).1⟩

/-! ## Theorems: CRC-8 (C7) -/

/-- C7: crc8 of the ASCII bytes of "123456789" is 0xF4 and crc8 of the
empty byte string is 0x00. -/
theorem c7_crc8_vectors :
    crc8 [0x31, 0x32, 0x33, 0x34, 0x35, 0x36, 0x37, 0x38, 0x39] = 0xF4 ∧
    crc8 [] = 0x00 := by
  decide

/-! ## Theorems: epoch framing (C5, C6) -/

/-- Decoding the frame `flush` builds recovers the payload with the CRC
verified.  (The proof never inspects `crc8`: the received byte and the
recomputed value are the same application.) -/
theorem decode_epochFrame (seq : Nat) (p : List Nat)
    (hs : seq < 65536) (hl : p.length < 65536) :
    decode_epoch (epochFrame seq p) 0 =
      .ok (⟨seq, p, true⟩, 4 + p.length + 1) := by
  set c := crc8 (be16 seq ++ be16 p.length ++ p) with hc
  have hcons : epochFrame seq p =
      seq / 256 % 256 :: seq % 256 :: p.length / 256 % 256 :: p.length % 256 ::
      (p ++ [c]) := by
    simp [epochFrame, be16, hc]
  have hlen : (epochFrame seq p).length = 5 + p.length := by
    rw [hcons]; simp; omega
  rw [decode_epoch, hlen]
  have h5 : ¬ (5 + p.length - 0 < 5) := by omega
  rw [if_neg h5]
  simp only [hcons, List.drop_zero, List.drop_succ_cons, List.take_succ_cons,
    List.take_zero, List.drop_zero, beToNat, List.foldl, Nat.zero_mul, Nat.zero_add]
  have hseq : seq / 256 % 256 * 256 + seq % 256 = seq := by omega
  have hplen : p.length / 256 % 256 * 256 + p.length % 256 = p.length := by omega
  rw [hseq, hplen]
  have h4 : ¬ (5 + p.length - 0 < 4 + p.length + 1) := by omega
  rw [if_neg h4]
  have hpay : (p ++ [c]).take p.length = p := List.take_left' rfl
  have hgd : (seq / 256 % 256 :: seq % 256 :: p.length / 256 % 256 :: p.length % 256 ::
      (p ++ [c])).getD (0 + 4 + p.length) 0 = c := by
    have h1 : 0 + 4 + p.length = (((p.length + 1) + 1) + 1) + 1 := by omega
    rw [h1]
    simp only [List.getD_cons_succ]
    have h2 : (p ++ [c]).getD p.length 0 = [c].getD (p.length - p.length) 0 :=
      List.getD_append_right _ _ _ _ (le_refl _)
    rw [h2, Nat.sub_self]
    rfl
  have htake : (seq / 256 % 256 :: seq % 256 :: p.length / 256 % 256 :: p.length % 256 ::
      (p ++ [c])).take (4 + p.length) = be16 seq ++ be16 p.length ++ p := by
    have h1 : 4 + p.length = (((p.length + 1) + 1) + 1) + 1 := by omega
    rw [h1]
    simp only [List.take_succ_cons]
    rw [List.take_left' rfl]
    simp [be16]
  rw [hpay, hgd, htake]
  simp [hc, List.append_assoc]

/-- C5 (amended): for every payload of 1 to 8192 bytes, writing it into a
fresh `EpochBuilder` and taking `get_epochs` yields exactly one epoch,
whose decode recovers the payload with `crc_ok = true`.  (For the empty
payload `flush` emits nothing; see the counterexample.) -/
theorem c5_epoch_roundtrip (p : List Nat)
    (h1 : 1 ≤ p.length) (h2 : p.length ≤ 8192) :
    (EpochBuilderState.init.write p).getEpochs = [epochFrame 0 p] ∧
    decode_epoch (epochFrame 0 p) 0 = .ok (⟨0, p, true⟩, 4 + p.length + 1) := by
  constructor
  · have hno : ¬ (EpochBuilderState.init.current_payload.length + p.length
        > MAX_EPOCH_PAYLOAD) := by
      simp [EpochBuilderState.init, MAX_EPOCH_PAYLOAD]; omega
    simp only [EpochBuilderState.write, EpochBuilderState.getEpochs, if_neg hno]
    simp only [EpochBuilderState.init]
    rw [EpochBuilderState.flush]
    simp only [List.nil_append]
    rw [if_neg (by omega)]
  · exact decode_epochFrame 0 p (by omega) (by omega)

/-- Witness for C5 at the one-byte payload [0x41]. -/
theorem c5_epoch_roundtrip_witness :
    (EpochBuilderState.init.write [0x41]).getEpochs = [epochFrame 0 [0x41]] ∧
    decode_epoch (epochFrame 0 [0x41]) 0 = .ok (⟨0, [0x41], true⟩, 6) :=
  c5_epoch_roundtrip [0x41] (by decide) (by decide)

/-- C5 counterexample: at the claimed boundary size 0 the builder emits no
epoch at all (`flush` returns without appending when the current payload is
empty), so there are no "resulting epoch bytes" whose decode could return
the empty payload. -/
theorem c5_empty_payload_no_epoch :
    (EpochBuilderState.init.write []).getEpochs = [] := by
  decide

/-- The invariant preserved by the epoch builder when every single write is
at most `MAX_EPOCH_PAYLOAD` bytes. -/
def EpochInv (st : EpochBuilderState) : Prop :=
  st.current_payload.length ≤ MAX_EPOCH_PAYLOAD ∧
  ∀ f ∈ st.epochs, ∃ s q, f = epochFrame s q ∧ q.length ≤ MAX_EPOCH_PAYLOAD

theorem epochInv_init : EpochInv EpochBuilderState.init := by
  constructor
  · simp [EpochBuilderState.init, MAX_EPOCH_PAYLOAD]
  · intro f hf; simp [EpochBuilderState.init] at hf

theorem epochInv_flush (st : EpochBuilderState) (h : EpochInv st) :
    EpochInv st.flush := by
  unfold EpochBuilderState.flush
  split
  · exact h
  · refine ⟨by simp, ?_⟩
    intro f hf
    simp only [List.mem_append, List.mem_singleton] at hf
    rcases hf with hf | hf
    · exact h.2 f hf
    · exact ⟨st.seq, st.current_payload, hf, h.1⟩

theorem epochInv_flush_empties (st : EpochBuilderState) :
    st.flush.current_payload = [] := by
  unfold EpochBuilderState.flush
  split
  case isTrue hz => exact List.length_eq_zero.mp hz
  case isFalse => rfl

theorem epochInv_write (st : EpochBuilderState) (d : List Nat)
    (hd : d.length ≤ MAX_EPOCH_PAYLOAD) (h : EpochInv st) :
    EpochInv (st.write d) := by
  unfold EpochBuilderState.write
  split
  case isTrue hgt =>
    have hf := epochInv_flush st h
    refine ⟨?_, hf.2⟩
    show (st.flush.current_payload ++ d).length ≤ MAX_EPOCH_PAYLOAD
    rw [epochInv_flush_empties st, List.nil_append]
    exact hd
  case isFalse hle =>
    refine ⟨?_, h.2⟩
    show (st.current_payload ++ d).length ≤ MAX_EPOCH_PAYLOAD
    rw [List.length_append]
    omega

/-- C6 (amended): if every individual `write` carries at most 8192 bytes,
then every epoch produced by `get_epochs` is an `epochFrame` whose payload
is at most 8192 bytes.  (A single oversized write is appended unsplit; see
the counterexample.) -/
theorem c6_epoch_payload_bound (writes : List (List Nat))
    (hw : ∀ d ∈ writes, d.length ≤ 8192) :
    ∀ f ∈ (writes.foldl EpochBuilderState.write EpochBuilderState.init).getEpochs,
      ∃ s q, f = epochFrame s q ∧ q.length ≤ 8192 := by
  have main : ∀ (ws : List (List Nat)) (st : EpochBuilderState),
      (∀ d ∈ ws, d.length ≤ 8192) → EpochInv st →
      EpochInv (ws.foldl EpochBuilderState.write st) := by
    intro ws
    induction ws with
    | nil => intro st _ hst; exact hst
    | cons d ws ih =>
      intro st hws hst
      exact ih _ (fun x hx => hws x (List.mem_cons_of_mem d hx))
        (epochInv_write st d (hws d (List.mem_cons_self d ws)) hst)
  have hinv := main writes EpochBuilderState.init hw epochInv_init
  have hfl := epochInv_flush _ hinv
  intro f hf
  exact hfl.2 f hf

/-- Witness for C6 with the single write [1, 2, 3]. -/
theorem c6_epoch_payload_bound_witness :
    ∃ s q, epochFrame 0 [1, 2, 3] = epochFrame s q ∧ q.length ≤ 8192 := by
  have hmem : epochFrame 0 [1, 2, 3] ∈
      ([[1, 2, 3]].foldl EpochBuilderState.write EpochBuilderState.init).getEpochs := by
    have : ([[1, 2, 3]].foldl EpochBuilderState.write
        EpochBuilderState.init).getEpochs = [epochFrame 0 [1, 2, 3]] := by
      rfl
    rw [this]
    exact List.mem_singleton.mpr rfl
  exact c6_epoch_payload_bound [[1, 2, 3]] (by decide) (epochFrame 0 [1, 2, 3]) hmem

/-- C6 counterexample: a single write of 8193 bytes is flushed into a
single epoch whose payload is 8193 > 8192 bytes — the builder never splits
an oversized write. -/
theorem c6_oversized_write :
    (EpochBuilderState.init.write (List.replicate 8193 0)).getEpochs
      = [epochFrame 0 (List.replicate 8193 0)] ∧
    decode_epoch (epochFrame 0 (List.replicate 8193 0)) 0 =
      .ok (⟨0, List.replicate 8193 0, true⟩,
           4 + (List.replicate (8193 : Nat) (0 : Nat)).length + 1) ∧
    (List.replicate (8193 : Nat) (0 : Nat)).length = 8193 := by
  have hlen : (List.replicate (8193 : Nat) (0 : Nat)).length = 8193 :=
    List.length_replicate 8193 0
  refine ⟨?_, ?_, hlen⟩
  · have hgt : EpochBuilderState.init.current_payload.length
        + (List.replicate (8193 : Nat) (0 : Nat)).length > MAX_EPOCH_PAYLOAD := by
      rw [hlen]
      simp [EpochBuilderState.init, MAX_EPOCH_PAYLOAD]
    rw [EpochBuilderState.write, if_pos hgt]
    have hif : EpochBuilderState.init.flush = EpochBuilderState.init := rfl
    rw [hif]
    show EpochBuilderState.getEpochs
      ⟨0, [], [] ++ List.replicate 8193 0⟩ = _
    rw [List.nil_append, EpochBuilderState.getEpochs, EpochBuilderState.flush]
    rw [if_neg (by rw [hlen]; omega)]
    rw [List.nil_append]
  · exact decode_epochFrame 0 (List.replicate 8193 0) (by omega) (by rw [hlen]; omega)

/-! ## Theorems: session negotiation (C3) -/

/-- Agent A of the C3 scenario (unlisted fields keep the dataclass
defaults). -/
def scenarioAgentA : AgentCapabilities :=
  { conformance_level := 2, capabilities_bitmap := 0x007F,
    codebook_sets := [1, 2, 5, 6] }

/-- Agent B of the C3 scenario. -/
def scenarioAgentB : AgentCapabilities :=
  { conformance_level := 3, capabilities_bitmap := 0x03FF,
    codebook_sets := [1, 2, 5, 6] }

/-- C3 counterexample: over the 28 dB channel the negotiated bands are not
the claimed [B0, B1, B2, B3] — common_caps = 0x7F has bit 0x02 set and
28 ≥ 25, so the source appends B4 as well. -/
theorem c3_bands_counterexample :
    (negotiate_session scenarioAgentA scenarioAgentB
      (characterizeInfo 28)).active_bands ≠ ["B0", "B1", "B2", "B3"] := by
  decide

/-- C3 (amended): the negotiated session for the scenario has conformance
level 2, 16-QAM modulation, bands [B0, B1, B2, B3, B4], FEC
"rate-1/2 conv + RS(255,223) + fountain", codebook sets [1, 2, 5, 6], and
SCT size 1024. -/
theorem c3_negotiation_scenario :
    (negotiate_session scenarioAgentA scenarioAgentB
        (characterizeInfo 28)).conformance_level = 2 ∧
    (negotiate_session scenarioAgentA scenarioAgentB
        (characterizeInfo 28)).modulation = "16-QAM" ∧
    (negotiate_session scenarioAgentA scenarioAgentB
        (characterizeInfo 28)).active_bands = ["B0", "B1", "B2", "B3", "B4"] ∧
    (negotiate_session scenarioAgentA scenarioAgentB
        (characterizeInfo 28)).error_correction
      = "rate-1/2 conv + RS(255,223) + fountain" ∧
    (negotiate_session scenarioAgentA scenarioAgentB
        (characterizeInfo 28)).codebook_sets = [1, 2, 5, 6] ∧
    (negotiate_session scenarioAgentA scenarioAgentB
        (characterizeInfo 28)).sct_max_size = 1024 := by
  decide

/-! ## Theorems: builder lifecycle (C9) -/

/-- C9 (code evaluated at the failing input): the source encoder sets
`_in_utterance` but never consults it.  Emitting an int32 literal on a
fresh encoder — before any `start_utterance` — silently appends the five
literal bytes and leaves the flag false, and `end_utterance` without a
matching start succeeds, returning just the END_UTTERANCE byte.  No
operation has a failure path (`BuilderStateError` does not exist in the
source). -/
theorem c9_no_lifecycle_check :
    (EncoderState.init.int32 42).stream = [0x12, 0x00, 0x00, 0x00, 0x2A] ∧
    (EncoderState.init.int32 42).in_utterance = false ∧
    (EncoderState.init.end_utterance).1 = [0x01] := by
  decide

/-! ## Base codebook (codebook.py BASE_CODEBOOK) -/

/-- Uppercase hex digit, for the synthesized RESERVED_xx mnemonics. -/
def hexDigit (n : Nat) : String :=
  match n with
  | 0 => "0" | 1 => "1" | 2 => "2" | 3 => "3" | 4 => "4" | 5 => "5"
  | 6 => "6" | 7 => "7" | 8 => "8" | 9 => "9" | 10 => "A" | 11 => "B"
  | 12 => "C" | 13 => "D" | 14 => "E" | _ => "F"

/-- Python f"{code:02X}" for a byte. -/
def hexByte (n : Nat) : String := hexDigit (n / 16 % 16) ++ hexDigit (n % 16)

/-- `BASE_CODEBOOK[code].mnemonic`: the enum member names registered by
codebook.py, with the 0xC0–0xEF range synthesized as RESERVED_xx.  For a
value ≥ 256 (unreachable from byte data) the Python lookup misses and the
decoder formats an UNKNOWN placeholder. -/
def baseMnemonic (code : Nat) : String :=
  match code with
  | 0x00 => "START_UTTERANCE" | 0x01 => "END_UTTERANCE" | 0x02 => "ABORT"
  | 0x03 => "PAUSE" | 0x04 => "RESUME" | 0x05 => "RETRANSMIT"
  | 0x06 => "ACK_EPOCH" | 0x07 => "NACK_EPOCH" | 0x08 => "SYNC_MARK"
  | 0x09 => "FRAGMENT_START" | 0x0A => "FRAGMENT_CONT" | 0x0B => "FRAGMENT_END"
  | 0x0C => "ECHO_REQUEST" | 0x0D => "ECHO_REPLY" | 0x0E => "RESERVED_0E"
  | 0x0F => "RESERVED_0F"
  | 0x10 => "TYPE_INT8" | 0x11 => "TYPE_INT16" | 0x12 => "TYPE_INT32"
  | 0x13 => "TYPE_INT64" | 0x14 => "TYPE_UINT8" | 0x15 => "TYPE_UINT16"
  | 0x16 => "TYPE_UINT32" | 0x17 => "TYPE_UINT64" | 0x18 => "TYPE_FLOAT16"
  | 0x19 => "TYPE_FLOAT32" | 0x1A => "TYPE_FLOAT64" | 0x1B => "TYPE_BOOL"
  | 0x1C => "TYPE_STRING" | 0x1D => "TYPE_BYTES" | 0x1E => "TYPE_TIMESTAMP"
  | 0x1F => "TYPE_NULL"
  | 0x20 => "BEGIN_STRUCT" | 0x21 => "END_STRUCT" | 0x22 => "FIELD_SEP"
  | 0x23 => "BEGIN_LIST" | 0x24 => "END_LIST" | 0x25 => "BEGIN_MAP"
  | 0x26 => "END_MAP" | 0x27 => "BEGIN_TUPLE" | 0x28 => "END_TUPLE"
  | 0x29 => "FIELD_ID" | 0x2A => "BEGIN_UNION" | 0x2B => "END_UNION"
  | 0x2C => "BEGIN_OPTION" | 0x2D => "END_OPTION" | 0x2E => "SCHEMA_REF"
  | 0x2F => "RESERVED_2F"
  | 0x30 => "FORALL" | 0x31 => "EXISTS" | 0x32 => "EXISTS_UNIQUE"
  | 0x33 => "EXACTLY_N" | 0x34 => "AT_LEAST_N" | 0x35 => "AT_MOST_N"
  | 0x36 => "COUNT" | 0x37 => "ZERO" | 0x38 => "ONE" | 0x39 => "FEW"
  | 0x3A => "MANY" | 0x3B => "ALL" | 0x3C => "NONE_Q" | 0x3D => "MOST"
  | 0x3E => "PROPORTION" | 0x3F => "RESERVED_3F"
  | 0x40 => "AND" | 0x41 => "OR" | 0x42 => "NOT" | 0x43 => "XOR"
  | 0x44 => "IMPLIES" | 0x45 => "IFF" | 0x46 => "NAND" | 0x47 => "NOR"
  | 0x48 => "IF_THEN_ELSE" | 0x49 => "COALESCE" | 0x4A => "IS_NULL"
  | 0x4B => "IS_TYPE" | 0x4C => "RESERVED_4C" | 0x4D => "RESERVED_4D"
  | 0x4E => "RESERVED_4E" | 0x4F => "RESERVED_4F"
  | 0x50 => "EQ" | 0x51 => "NEQ" | 0x52 => "LT" | 0x53 => "GT"
  | 0x54 => "LTE" | 0x55 => "GTE" | 0x56 => "APPROX" | 0x57 => "CONTAINS"
  | 0x58 => "SUBSET" | 0x59 => "SUPERSET" | 0x5A => "IN_RANGE"
  | 0x5B => "MATCHES" | 0x5C => "STARTS_WITH" | 0x5D => "ENDS_WITH"
  | 0x5E => "BETWEEN" | 0x5F => "RESERVED_5F"
  | 0x60 => "PAST" | 0x61 => "PRESENT" | 0x62 => "FUTURE" | 0x63 => "DURATION"
  | 0x64 => "T_BEFORE" | 0x65 => "T_AFTER" | 0x66 => "T_DURING"
  | 0x67 => "T_SIMULTANEOUS" | 0x68 => "T_STARTS" | 0x69 => "T_FINISHES"
  | 0x6A => "T_OVERLAPS" | 0x6B => "T_MEETS" | 0x6C => "T_ELAPSED"
  | 0x6D => "T_NOW" | 0x6E => "T_DEADLINE" | 0x6F => "RESERVED_6F"
  | 0x70 => "CERTAIN" | 0x71 => "PROBABLE" | 0x72 => "POSSIBLE"
  | 0x73 => "UNLIKELY" | 0x74 => "UNCERTAIN" | 0x75 => "HYPOTHETICAL"
  | 0x76 => "COUNTERFACTUAL" | 0x77 => "OBLIGATORY" | 0x78 => "PERMITTED"
  | 0x79 => "FORBIDDEN" | 0x7A => "INFERRED" | 0x7B => "OBSERVED"
  | 0x7C => "REPORTED" | 0x7D => "PREDICTED" | 0x7E => "DESIRED"
  | 0x7F => "UNDESIRED"
  | 0x80 => "QUERY" | 0x81 => "ASSERT" | 0x82 => "REQUEST" | 0x83 => "COMMAND"
  | 0x84 => "ACKNOWLEDGE" | 0x85 => "REJECT" | 0x86 => "CLARIFY"
  | 0x87 => "CORRECT" | 0x88 => "PROPOSE" | 0x89 => "ACCEPT" | 0x8A => "WARN"
  | 0x8B => "PROMISE" | 0x8C => "INFORM" | 0x8D => "SUGGEST" | 0x8E => "GREET"
  | 0x8F => "FAREWELL"
  | 0x90 => "CONFIDENCE" | 0x91 => "PRIORITY" | 0x92 => "SOURCE_AGENT"
  | 0x93 => "DEST_AGENT" | 0x94 => "TIMESTAMP_META" | 0x95 => "SEQNUM"
  | 0x96 => "HASH_REF" | 0x97 => "TOPIC" | 0x98 => "CONTEXT_REF"
  | 0x99 => "EPOCH_BOUNDARY" | 0x9A => "LABEL" | 0x9B => "VERSION_TAG"
  | 0x9C => "TRACE_ID" | 0x9D => "COST" | 0x9E => "TTL" | 0x9F => "RESERVED_9F"
  | 0xA0 => "ADD" | 0xA1 => "SUB" | 0xA2 => "MUL" | 0xA3 => "DIV"
  | 0xA4 => "MOD" | 0xA5 => "POW" | 0xA6 => "SQRT" | 0xA7 => "LOG"
  | 0xA8 => "LOG10" | 0xA9 => "LOG2" | 0xAA => "ABS" | 0xAB => "NEG"
  | 0xAC => "ROUND" | 0xAD => "FLOOR" | 0xAE => "CEIL" | 0xAF => "TRUNC"
  | 0xB0 => "MIN" | 0xB1 => "MAX" | 0xB2 => "SUM" | 0xB3 => "MEAN"
  | 0xB4 => "MEDIAN" | 0xB5 => "STDDEV" | 0xB6 => "VARIANCE"
  | 0xB7 => "DOT_PRODUCT" | 0xB8 => "CROSS_PRODUCT" | 0xB9 => "NORM"
  | 0xBA => "CLAMP" | 0xBB => "LERP" | 0xBC => "SIN" | 0xBD => "COS"
  | 0xBE => "ATAN2" | 0xBF => "DISTANCE"
  | 0xF0 => "ESCAPE_L1" | 0xF1 => "ESCAPE_L2" | 0xF2 => "ESCAPE_L3"
  | 0xF3 => "LITERAL_BYTES" | 0xF4 => "CODEBOOK_REF" | 0xF5 => "EXTENSION"
  | 0xF6 => "EXT_ACK" | 0xF7 => "EXT_NACK" | 0xF8 => "CODEBOOK_DEF"
  | 0xF9 => "CODEBOOK_ACK" | 0xFA => "CODEBOOK_NACK" | 0xFB => "STREAM_ID"
  | 0xFC => "XREF" | 0xFD => "COMMENT" | 0xFE => "NOP" | 0xFF => "RESERVED_FF"
  | c => if 0xC0 ≤ c ∧ c ≤ 0xEF then "RESERVED_" ++ hexByte c else "UNKNOWN"

/-- Inverse of the Pragmatic enum (encoder side: `pragma(Pragmatic.X)`
emits the member's value).  Returns 256 for a string that is not a
pragmatic act name. -/
def pragmaticCodeOf (act : String) : Nat :=
  if act = "QUERY" then 0x80 else if act = "ASSERT" then 0x81
  else if act = "REQUEST" then 0x82 else if act = "COMMAND" then 0x83
  else if act = "ACKNOWLEDGE" then 0x84 else if act = "REJECT" then 0x85
  else if act = "CLARIFY" then 0x86 else if act = "CORRECT" then 0x87
  else if act = "PROPOSE" then 0x88 else if act = "ACCEPT" then 0x89
  else if act = "WARN" then 0x8A else if act = "PROMISE" then 0x8B
  else if act = "INFORM" then 0x8C else if act = "SUGGEST" then 0x8D
  else if act = "GREET" then 0x8E else if act = "FAREWELL" then 0x8F
  else 256

/-- Inverse of the Modality enum. -/
def modalityCodeOf (m : String) : Nat :=
  if m = "CERTAIN" then 0x70 else if m = "PROBABLE" then 0x71
  else if m = "POSSIBLE" then 0x72 else if m = "UNLIKELY" then 0x73
  else if m = "UNCERTAIN" then 0x74 else if m = "HYPOTHETICAL" then 0x75
  else if m = "COUNTERFACTUAL" then 0x76 else if m = "OBLIGATORY" then 0x77
  else if m = "PERMITTED" then 0x78 else if m = "FORBIDDEN" then 0x79
  else if m = "INFERRED" then 0x7A else if m = "OBSERVED" then 0x7B
  else if m = "REPORTED" then 0x7C else if m = "PREDICTED" then 0x7D
  else if m = "DESIRED" then 0x7E else if m = "UNDESIRED" then 0x7F
  else 256

/-- Inverse of the Temporal enum. -/
def temporalCodeOf (m : String) : Nat :=
  if m = "PAST" then 0x60 else if m = "PRESENT" then 0x61
  else if m = "FUTURE" then 0x62 else if m = "DURATION" then 0x63
  else if m = "T_BEFORE" then 0x64 else if m = "T_AFTER" then 0x65
  else if m = "T_DURING" then 0x66 else if m = "T_SIMULTANEOUS" then 0x67
  else if m = "T_STARTS" then 0x68 else if m = "T_FINISHES" then 0x69
  else if m = "T_OVERLAPS" then 0x6A else if m = "T_MEETS" then 0x6B
  else if m = "T_ELAPSED" then 0x6C else if m = "T_NOW" then 0x6D
  else if m = "T_DEADLINE" then 0x6E else 256

/-! ## Decoder AST (decoder.py dataclasses)

The Python nodes are dataclasses over a common `ASTNode` base whose
`node_type`/`code`/`mnemonic` fields are constants per use site; each
variant below carries exactly the distinguishing data of the corresponding
dataclass.  Python floats are carried as IEEE bit patterns; Python strings
as their UTF-8 bytes (`str` and valid UTF-8 byte strings are in bijection,
and the codec only moves the bytes). -/

/-- The `value` of a `LiteralNode`, tagged by the Python runtime type
(int for the signed types and timestamps, non-negative int for the
unsigned ones, float bit patterns, bool, str as UTF-8 bytes, bytes,
None). -/
inductive LitValue where
  | intV (v : Int)
  | natV (v : Nat)
  | f16V (bits : Nat)
  | f32V (bits : Nat)
  | f64V (bits : Nat)
  | boolV (b : Bool)
  | strV (utf8 : List Nat)
  | bytesV (bs : List Nat)
  | nullV

/-- `ModalNode.extra`: the PREDICTED horizon (an f16 the decoder reads) or
the REPORTED 16-byte reporter uuid. -/
inductive ModalExtra where
  | horizonBits (bits : Nat)
  | reporter (uuid : List Nat)

/-- The payload of the "annotated" ASTNode `_decode_annotation` returns:
the Python node stores `mnemonic = f"CONFIDENCE({conf:.2f})"` resp.
`f"LABEL({label})"`, a pure function of the code and this argument; the
decoded inner expression is not stored. -/
inductive AnnPayload where
  | confBits (bits : Nat)
  | labelStr (utf8 : List Nat)

/-- decoder.py expression nodes (`LiteralNode`, `StructNode`, `ListNode`,
`MapNode`, `PragmaticNode`, `ModalNode`, `TemporalNode`, `DomainRefNode`,
`ContextRefNode`, and the generic `ASTNode` with node_type "annotated" /
"annotation" / "code").  `ListNode` and `MapNode` carry only the declared
count and the decoded elements — the dataclasses define no further field
(in particular no `incomplete` flag).  `Option Node` appears where
`_decode_expression` may return `None` (NOP/COMMENT or exhausted data). -/
inductive Node where
  | literal (code : Nat) (value_type : String) (value : LitValue)
  | structN (fields : List (Nat × Option Node))
  | listN (count : Nat) (elements : List (Option Node))
  | mapN (count : Nat) (pairs : List (Option Node × Option Node))
  | pragmatic (act : String) (expression : Option Node)
  | modal (modality : String) (expression : Option Node) (extra : Option ModalExtra)
  | temporal (modifier : String) (expression : Option Node)
  | domainRef (level : Nat) (domain_code : Nat)
  | contextRef (sct_index : Nat)
  | annotated (code : Nat) (payload : AnnPayload)
  | annotationNode (code : Nat)
  | codeN (code : Nat) (mnemonic : String)

/-- decoder.py `MetaHeaderNode`.  The Python `annotations` dict holds the
keys 'trace_id' / 'ttl' / 'topic' / 'version' at most once each, and dict
equality ignores insertion order, so four optional fields are a faithful
image. -/
structure MetaHeaderNode where
  confidence : Nat
  priority : Nat
  timestamp_us : Int
  source_agent : Option (List Nat)
  dest_agent : Option (List Nat)
  seqnum : Option Nat
  trace_id : Option Nat
  ttl : Option Nat
  topic : Option Nat
  version : Option (Nat × Nat)

/-- decoder.py `UtteranceNode`. -/
structure UtteranceNode where
  meta : MetaHeaderNode
  body : List Node

/-! ## Primitive readers (decoder.py `_read_*`) -/

/-- `_read_byte` / `_read_uint8`. -/
def readByte (data : List Nat) (pos : Nat) : Except DecErr (Nat × Nat) :=
  match data[pos]? with
  | some b => .ok (b, pos + 1)
  | none => .error (.aill pos)

/-- `_read_bytes`: guard `pos + n > len` then slice. -/
def readBytesN (data : List Nat) (pos n : Nat) : Except DecErr (List Nat × Nat) :=
  if pos + n ≤ data.length then .ok ((data.drop pos).take n, pos + n)
  else .error (.aill pos)

/-- `_read_uint16` (struct.unpack '>H'). -/
def readUint16 (data : List Nat) (pos : Nat) : Except DecErr (Nat × Nat) := do
  let (bs, p) ← readBytesN data pos 2
  .ok (beToNat bs, p)

/-- `_read_uint32`. -/
def readUint32 (data : List Nat) (pos : Nat) : Except DecErr (Nat × Nat) := do
  let (bs, p) ← readBytesN data pos 4
  .ok (beToNat bs, p)

/-- `_read_uint64`. -/
def readUint64 (data : List Nat) (pos : Nat) : Except DecErr (Nat × Nat) := do
  let (bs, p) ← readBytesN data pos 8
  .ok (beToNat bs, p)

/-- `_read_int8` (struct.unpack '>b'). -/
def readInt8 (data : List Nat) (pos : Nat) : Except DecErr (Int × Nat) := do
  let (bs, p) ← readBytesN data pos 1
  .ok (toSigned 8 (beToNat bs), p)

/-- `_read_int16`. -/
def readInt16 (data : List Nat) (pos : Nat) : Except DecErr (Int × Nat) := do
  let (bs, p) ← readBytesN data pos 2
  .ok (toSigned 16 (beToNat bs), p)

/-- `_read_int32`. -/
def readInt32 (data : List Nat) (pos : Nat) : Except DecErr (Int × Nat) := do
  let (bs, p) ← readBytesN data pos 4
  .ok (toSigned 32 (beToNat bs), p)

/-- `_read_int64`. -/
def readInt64 (data : List Nat) (pos : Nat) : Except DecErr (Int × Nat) := do
  let (bs, p) ← readBytesN data pos 8
  .ok (toSigned 64 (beToNat bs), p)

/-- `_read_float16`: two bytes; the bit pattern determines the float. -/
def readF16 (data : List Nat) (pos : Nat) : Except DecErr (Nat × Nat) := do
  let (bs, p) ← readBytesN data pos 2
  .ok (beToNat bs, p)

/-- `_read_float32`. -/
def readF32 (data : List Nat) (pos : Nat) : Except DecErr (Nat × Nat) := do
  let (bs, p) ← readBytesN data pos 4
  .ok (beToNat bs, p)

/-- `_read_float64`. -/
def readF64 (data : List Nat) (pos : Nat) : Except DecErr (Nat × Nat) := do
  let (bs, p) ← readBytesN data pos 8
  .ok (beToNat bs, p)

/-- RFC 3629 / CPython strict UTF-8 validity of a byte sequence
(`bytes.decode('utf-8')` succeeds exactly on these). -/
def utf8Valid : List Nat → Bool
  | [] => true
  | b :: rest =>
    if b < 0x80 then utf8Valid rest
    else if 0xC2 ≤ b ∧ b ≤ 0xDF then
      match rest with
      | c1 :: rest1 =>
        if 0x80 ≤ c1 ∧ c1 ≤ 0xBF then utf8Valid rest1 else false
      | _ => false
    else if b = 0xE0 then
      match rest with
      | c1 :: c2 :: rest1 =>
        if (0xA0 ≤ c1 ∧ c1 ≤ 0xBF) ∧ (0x80 ≤ c2 ∧ c2 ≤ 0xBF)
        then utf8Valid rest1 else false
      | _ => false
    else if (0xE1 ≤ b ∧ b ≤ 0xEC) ∨ b = 0xEE ∨ b = 0xEF then
      match rest with
      | c1 :: c2 :: rest1 =>
        if (0x80 ≤ c1 ∧ c1 ≤ 0xBF) ∧ (0x80 ≤ c2 ∧ c2 ≤ 0xBF)
        then utf8Valid rest1 else false
      | _ => false
    else if b = 0xED then
      match rest with
      | c1 :: c2 :: rest1 =>
        if (0x80 ≤ c1 ∧ c1 ≤ 0x9F) ∧ (0x80 ≤ c2 ∧ c2 ≤ 0xBF)
        then utf8Valid rest1 else false
      | _ => false
    else if b = 0xF0 then
      match rest with
      | c1 :: c2 :: c3 :: rest1 =>
        if (0x90 ≤ c1 ∧ c1 ≤ 0xBF) ∧ (0x80 ≤ c2 ∧ c2 ≤ 0xBF) ∧
           (0x80 ≤ c3 ∧ c3 ≤ 0xBF)
        then utf8Valid rest1 else false
      | _ => false
    else if 0xF1 ≤ b ∧ b ≤ 0xF3 then
      match rest with
      | c1 :: c2 :: c3 :: rest1 =>
        if (0x80 ≤ c1 ∧ c1 ≤ 0xBF) ∧ (0x80 ≤ c2 ∧ c2 ≤ 0xBF) ∧
           (0x80 ≤ c3 ∧ c3 ≤ 0xBF)
        then utf8Valid rest1 else false
      | _ => false
    else if b = 0xF4 then
      match rest with
      | c1 :: c2 :: c3 :: rest1 =>
        if (0x80 ≤ c1 ∧ c1 ≤ 0x8F) ∧ (0x80 ≤ c2 ∧ c2 ≤ 0xBF) ∧
           (0x80 ≤ c3 ∧ c3 ≤ 0xBF)
        then utf8Valid rest1 else false
      | _ => false
    else false

/-- `_read_string`: u16 length prefix, then that many UTF-8 bytes;
invalid UTF-8 raises (UnicodeDecodeError), modelled as `.encoding`.  The
value is carried as its UTF-8 bytes. -/
def readString (data : List Nat) (pos : Nat) : Except DecErr (List Nat × Nat) := do
  let (len, p) ← readUint16 data pos
  let (bs, p1) ← readBytesN data p len
  if utf8Valid bs then .ok (bs, p1) else .error .encoding

/-- `_read_varint` (IndexError from raw indexing is `.indexError`). -/
def readVarint (data : List Nat) (pos : Nat) : Except DecErr (Nat × Nat) :=
  match decode_varint data pos with
  | some (v, c) => .ok (v, pos + c)
  | none => .error .indexError

/-- Python dict assignment `fields[k] = v` on an insertion-ordered
association list: an existing key keeps its position and gets the new
value, a fresh key is appended. -/
def dictInsert (fields : List (Nat × Option Node)) (k : Nat) (v : Option Node) :
    List (Nat × Option Node) :=
  if fields.any (fun kv => kv.1 == k) then
    fields.map (fun kv => if kv.1 == k then (k, v) else kv)
  else fields ++ [(k, v)]

/-! ## Streaming decoder (decoder.py AILLDecoder)

The Python recursion has no explicit bound; every call and every loop
iteration consumes at least one byte, so a fuel of `3 * |data| + 16`
(supplied by `decode_utterance`) can never run out on the paths the
theorems traverse — `.fuelOut` is an artifact of the embedding, not a
behavior of the source. -/

/-- `_decode_literal`: dispatch on the type marker and read the payload. -/
def decodeLiteral (data : List Nat) (pos : Nat) : Except DecErr (Node × Nat) := do
  let (code, p) ← readByte data pos
  match code with
  | 0x10 => do let (v, p1) ← readInt8 data p
               .ok (.literal code "int8" (.intV v), p1)
  | 0x11 => do let (v, p1) ← readInt16 data p
               .ok (.literal code "int16" (.intV v), p1)
  | 0x12 => do let (v, p1) ← readInt32 data p
               .ok (.literal code "int32" (.intV v), p1)
  | 0x13 => do let (v, p1) ← readInt64 data p
               .ok (.literal code "int64" (.intV v), p1)
  | 0x14 => do let (v, p1) ← readByte data p
               .ok (.literal code "uint8" (.natV v), p1)
  | 0x15 => do let (v, p1) ← readUint16 data p
               .ok (.literal code "uint16" (.natV v), p1)
  | 0x16 => do let (v, p1) ← readUint32 data p
               .ok (.literal code "uint32" (.natV v), p1)
  | 0x17 => do let (v, p1) ← readUint64 data p
               .ok (.literal code "uint64" (.natV v), p1)
  | 0x18 => do let (v, p1) ← readF16 data p
               .ok (.literal code "float16" (.f16V v), p1)
  | 0x19 => do let (v, p1) ← readF32 data p
               .ok (.literal code "float32" (.f32V v), p1)
  | 0x1A => do let (v, p1) ← readF64 data p
               .ok (.literal code "float64" (.f64V v), p1)
  | 0x1B => do let (v, p1) ← readByte data p
               .ok (.literal code "bool" (.boolV (v != 0)), p1)
  | 0x1C => do let (s, p1) ← readString data p
               .ok (.literal code "string" (.strV s), p1)
  | 0x1D => do let (len, p1) ← readUint16 data p
               let (bs, p2) ← readBytesN data p1 len
               .ok (.literal code "bytes" (.bytesV bs), p2)
  | 0x1E => do let (v, p1) ← readInt64 data p
               .ok (.literal code "timestamp" (.intV v), p1)
  | 0x1F => .ok (.literal code "null" .nullV, p)
  | _ => .error (.aill (p - 1))

/-- `_decode_domain_ref`.  The Python level table
`{ESCAPE_L1: 1, ESCAPE_L2: 2, ESCAPE_L3: 3}[code]` cannot miss: the only
caller guards `code ∈ {0xF0, 0xF1, 0xF2}`. -/
def decodeDomainRef (data : List Nat) (pos : Nat) : Except DecErr (Node × Nat) := do
  let (code, p) ← readByte data pos
  let level := if code = 0xF0 then 1 else if code = 0xF1 then 2 else 3
  let (dc, p1) ← readUint16 data p
  .ok (.domainRef level dc, p1)

mutual

/-- `_decode_expression`: peek and dispatch on the byte range; returns
`none` (without consuming) at the end of data and for NOP/COMMENT. -/
def decodeExpression : Nat → List Nat → Nat → Except DecErr (Option Node × Nat)
  | 0, _, _ => .error .fuelOut
  | fuel + 1, data, pos =>
    if pos < data.length then
      let code := data.getD pos 0
      if 0x80 ≤ code ∧ code ≤ 0x8F then decodePragmatic fuel data pos
      else if 0x70 ≤ code ∧ code ≤ 0x7F then decodeModal fuel data pos
      else if 0x60 ≤ code ∧ code ≤ 0x6F then decodeTemporal fuel data pos
      else if code = 0x90 ∨ code = 0x9A then decodeAnnotation fuel data pos
      else if 0x10 ≤ code ∧ code ≤ 0x1F then do
        let (n, p) ← decodeLiteral data pos
        .ok (some n, p)
      else if code = 0x20 then decodeStruct fuel data pos
      else if code = 0x23 then decodeList fuel data pos
      else if code = 0x25 then decodeMap fuel data pos
      else if code = 0xF0 ∨ code = 0xF1 ∨ code = 0xF2 then do
        let (n, p) ← decodeDomainRef data pos
        .ok (some n, p)
      else if code = 0x98 then do
        let (_, p) ← readByte data pos
        let (idx, p1) ← readVarint data p
        .ok (some (.contextRef idx), p1)
      else if code = 0xFE then do
        let (_, p) ← readByte data pos
        .ok (none, p)
      else if code = 0xFD then do
        let (_, p) ← readByte data pos
        let (_, p1) ← readString data p
        .ok (none, p1)
      else do
        let (c, p) ← readByte data pos
        .ok (some (.codeN c (baseMnemonic c)), p)
    else .ok (none, pos)
  termination_by structural fuel _ _ => fuel

/-- `_decode_pragmatic`. -/
def decodePragmatic : Nat → List Nat → Nat → Except DecErr (Option Node × Nat)
  | 0, _, _ => .error .fuelOut
  | fuel + 1, data, pos => do
    let (code, p) ← readByte data pos
    let (expr, p1) ← decodeExpression fuel data p
    .ok (some (.pragmatic (baseMnemonic code) expr), p1)
  termination_by structural fuel _ _ => fuel

/-- `_decode_modal` (PREDICTED reads an f16 horizon, REPORTED a 16-byte
uuid, before the inner expression). -/
def decodeModal : Nat → List Nat → Nat → Except DecErr (Option Node × Nat)
  | 0, _, _ => .error .fuelOut
  | fuel + 1, data, pos => do
    let (code, p) ← readByte data pos
    if code = 0x7D then do
      let (bits, p1) ← readF16 data p
      let (expr, p2) ← decodeExpression fuel data p1
      .ok (some (.modal (baseMnemonic code) expr (some (.horizonBits bits))), p2)
    else if code = 0x7C then do
      let (u, p1) ← readBytesN data p 16
      let (expr, p2) ← decodeExpression fuel data p1
      .ok (some (.modal (baseMnemonic code) expr (some (.reporter u))), p2)
    else do
      let (expr, p1) ← decodeExpression fuel data p
      .ok (some (.modal (baseMnemonic code) expr none), p1)
  termination_by structural fuel _ _ => fuel

/-- `_decode_temporal`. -/
def decodeTemporal : Nat → List Nat → Nat → Except DecErr (Option Node × Nat)
  | 0, _, _ => .error .fuelOut
  | fuel + 1, data, pos => do
    let (code, p) ← readByte data pos
    let (expr, p1) ← decodeExpression fuel data p
    .ok (some (.temporal (baseMnemonic code) expr), p1)
  termination_by structural fuel _ _ => fuel

/-- `_decode_annotation`: reads the argument, decodes the following
expression, and returns a node that records only the annotation — the
inner expression is discarded by the source. -/
def decodeAnnotation : Nat → List Nat → Nat → Except DecErr (Option Node × Nat)
  | 0, _, _ => .error .fuelOut
  | fuel + 1, data, pos => do
    let (code, p) ← readByte data pos
    if code = 0x90 then do
      let (bits, p1) ← readF16 data p
      let (_, p2) ← decodeExpression fuel data p1
      .ok (some (.annotated code (.confBits bits)), p2)
    else if code = 0x9A then do
      let (s, p1) ← readString data p
      let (_, p2) ← decodeExpression fuel data p1
      .ok (some (.annotated code (.labelStr s)), p2)
    else
      .ok (some (.annotationNode code), p)
  termination_by structural fuel _ _ => fuel

/-- `_decode_struct`: consume BEGIN_STRUCT, run the field loop, then (as in
the source) consume one byte whenever data remains — the loop only stops
inside the stream when it peeks END_STRUCT. -/
def decodeStruct : Nat → List Nat → Nat → Except DecErr (Option Node × Nat)
  | 0, _, _ => .error .fuelOut
  | fuel + 1, data, pos => do
    let (_, p) ← readByte data pos
    let (fields, p1) ← decodeStructLoop fuel data p []
    let p2 := if p1 < data.length then p1 + 1 else p1
    .ok (some (.structN fields), p2)
  termination_by structural fuel _ _ => fuel

/-- The `while` loop of `_decode_struct`. -/
def decodeStructLoop : Nat → List Nat → Nat → List (Nat × Option Node) →
    Except DecErr (List (Nat × Option Node) × Nat)
  | 0, _, _, _ => .error .fuelOut
  | fuel + 1, data, pos, fields =>
    match data[pos]? with
    | none => .ok (fields, pos)
    | some b =>
      if b = 0x21 then .ok (fields, pos)                   -- peek END_STRUCT
      else if b = 0x22 then                                -- FIELD_SEP: skip
        decodeStructLoop fuel data (pos + 1) fields
      else if b = 0x29 then do                             -- FIELD_ID
        let (_, p0) ← readByte data pos
        let (fc, p1) ← readUint16 data p0
        let (v, p2) ← decodeExpression fuel data p1
        decodeStructLoop fuel data p2 (dictInsert fields fc v)
      else do                                              -- positional field
        let (v, p1) ← decodeExpression fuel data pos
        decodeStructLoop fuel data p1 (dictInsert fields fields.length v)
  termination_by structural fuel _ _ _ => fuel

/-- `_decode_list`: consume BEGIN_LIST and the u16 count, read up to
`count` elements (stopping early at end-of-data or a peeked END_LIST),
then consume the END_LIST if it is next. -/
def decodeList : Nat → List Nat → Nat → Except DecErr (Option Node × Nat)
  | 0, _, _ => .error .fuelOut
  | fuel + 1, data, pos => do
    let (_, p) ← readByte data pos
    let (count, p1) ← readUint16 data p
    let (elements, p2) ← decodeListLoop fuel data count p1 []
    let p3 := if p2 < data.length ∧ data.getD p2 0 = 0x24 then p2 + 1 else p2
    .ok (some (.listN count elements), p3)
  termination_by structural fuel _ _ => fuel

/-- The bounded `for` loop of `_decode_list`. -/
def decodeListLoop : Nat → List Nat → Nat → Nat → List (Option Node) →
    Except DecErr (List (Option Node) × Nat)
  | 0, _, _, _, _ => .error .fuelOut
  | fuel + 1, data, remaining, pos, acc =>
    match remaining with
    | 0 => .ok (acc, pos)
    | r + 1 =>
      if pos ≥ data.length then .ok (acc, pos)
      else if data.getD pos 0 = 0x24 then .ok (acc, pos)
      else do
        let (e, p1) ← decodeExpression fuel data pos
        decodeListLoop fuel data r p1 (acc ++ [e])
  termination_by structural fuel _ _ _ _ => fuel

/-- `_decode_map`. -/
def decodeMap : Nat → List Nat → Nat → Except DecErr (Option Node × Nat)
  | 0, _, _ => .error .fuelOut
  | fuel + 1, data, pos => do
    let (_, p) ← readByte data pos
    let (count, p1) ← readUint16 data p
    let (pairs, p2) ← decodeMapLoop fuel data count p1 []
    let p3 := if p2 < data.length ∧ data.getD p2 0 = 0x26 then p2 + 1 else p2
    .ok (some (.mapN count pairs), p3)
  termination_by structural fuel _ _ => fuel

/-- The bounded `for` loop of `_decode_map`. -/
def decodeMapLoop : Nat → List Nat → Nat → Nat →
    List (Option Node × Option Node) →
    Except DecErr (List (Option Node × Option Node) × Nat)
  | 0, _, _, _, _ => .error .fuelOut
  | fuel + 1, data, remaining, pos, acc =>
    match remaining with
    | 0 => .ok (acc, pos)
    | r + 1 =>
      if pos ≥ data.length then .ok (acc, pos)
      else if data.getD pos 0 = 0x26 then .ok (acc, pos)
      else do
        let (k, p1) ← decodeExpression fuel data pos
        let (v, p2) ← decodeExpression fuel data p1
        decodeMapLoop fuel data r p2 (acc ++ [(k, v)])
  termination_by structural fuel _ _ _ _ => fuel

end

/-- The optional-annotation `while` loop of `_decode_meta_header`: bytes in
0x92–0x9F are consumed; the recognized ones store their payload, an
unrecognized one (already consumed) ends the header. -/
def decodeMetaLoop : Nat → List Nat → Nat → MetaHeaderNode →
    Except DecErr (MetaHeaderNode × Nat)
  | 0, _, _, _ => .error .fuelOut
  | fuel + 1, data, pos, meta =>
    match data[pos]? with
    | none => .ok (meta, pos)
    | some b =>
      if 0x92 ≤ b ∧ b ≤ 0x9F then
        let p := pos + 1
        if b = 0x92 then do
          let (u, p1) ← readBytesN data p 16
          decodeMetaLoop fuel data p1 { meta with source_agent := some u }
        else if b = 0x93 then do
          let (u, p1) ← readBytesN data p 16
          decodeMetaLoop fuel data p1 { meta with dest_agent := some u }
        else if b = 0x95 then do
          let (n, p1) ← readUint32 data p
          decodeMetaLoop fuel data p1 { meta with seqnum := some n }
        else if b = 0x9C then do
          let (n, p1) ← readUint64 data p
          decodeMetaLoop fuel data p1 { meta with trace_id := some n }
        else if b = 0x9E then do
          let (n, p1) ← readUint16 data p
          decodeMetaLoop fuel data p1 { meta with ttl := some n }
        else if b = 0x97 then do
          let (n, p1) ← readUint16 data p
          decodeMetaLoop fuel data p1 { meta with topic := some n }
        else if b = 0x9B then do
          let (x, p1) ← readUint16 data p
          let (y, p2) ← readUint16 data p1
          decodeMetaLoop fuel data p2 { meta with version := some (x, y) }
        else .ok (meta, p)
      else .ok (meta, pos)

/-- `_decode_meta_header`: CONFIDENCE, PRIORITY, TIMESTAMP_META in that
fixed order (wrong marker fails), then the optional-annotation loop. -/
def decodeMetaHeader (fuel : Nat) (data : List Nat) (pos : Nat) :
    Except DecErr (MetaHeaderNode × Nat) := do
  let (c1, p1) ← readByte data pos
  if c1 ≠ 0x90 then .error (.aill (p1 - 1))
  else do
    let (conf, p2) ← readF16 data p1
    let (c2, p3) ← readByte data p2
    if c2 ≠ 0x91 then .error (.aill (p3 - 1))
    else do
      let (pri, p4) ← readByte data p3
      let (c3, p5) ← readByte data p4
      if c3 ≠ 0x94 then .error (.aill (p5 - 1))
      else do
        let (ts, p6) ← readInt64 data p5
        decodeMetaLoop fuel data p6
          { confidence := conf, priority := pri, timestamp_us := ts,
            source_agent := none, dest_agent := none, seqnum := none,
            trace_id := none, ttl := none, topic := none, version := none }

/-- The body `while` loop of `decode_utterance`: stop at end-of-data or on
a consumed END_UTTERANCE; `None` expressions are not appended. -/
def decodeBodyLoop : Nat → List Nat → Nat → List Node →
    Except DecErr (List Node × Nat)
  | 0, _, _, _ => .error .fuelOut
  | fuel + 1, data, pos, acc =>
    match data[pos]? with
    | none => .ok (acc, pos)
    | some b =>
      if b = 0x01 then .ok (acc, pos + 1)
      else do
        let (e, p1) ← decodeExpression fuel data pos
        match e with
        | some n => decodeBodyLoop fuel data p1 (acc ++ [n])
        | none => decodeBodyLoop fuel data p1 acc

/-- decoder.py `AILLDecoder.decode_utterance`. -/
def decode_utterance (data : List Nat) : Except DecErr UtteranceNode :=
  let fuel := 3 * data.length + 16
  do
    let (c, _) ← readByte data 0
    if c ≠ 0x00 then .error (.aill 0)
    else do
      let (meta, p1) ← decodeMetaHeader fuel data 1
      let (body, _) ← decodeBodyLoop fuel data p1 []
      .ok { meta := meta, body := body }

/-! ## Theorems: scenario 1 wire bytes (C2) -/

/-- `AILLEncoder.confidence`: the inline CONFIDENCE annotation emitter. -/
def EncoderState.confidence (st : EncoderState) (bits : Nat) : EncoderState :=
  (st.wcode 0x90).raw (be16 bits)

/-- The scenario-1 utterance built with the encoder:
`start_utterance(confidence=1.0, priority=3, timestamp_us=0)` (f16 of 1.0
is 0x3C00), `pragma(ASSERT)`, `int32(42)`, `end_utterance()`. -/
def scenario1Wire : List Nat :=
  (EncoderState.end_utterance
    (((EncoderState.init.start_utterance 0x3C00 3 0).pragma 0x81).int32 42)).1

/-- C2: the encoder emits exactly
`00 90 3C00 91 03 94 0000000000000000 81 12 0000002A 01`, and decoding
those bytes yields a Pragmatic("ASSERT") node wrapping Literal(int32, 42)
under the meta header (confidence bits 0x3C00 = 1.0, priority 3,
timestamp 0). -/
theorem c2_simple_assertion :
    scenario1Wire =
      [0x00, 0x90, 0x3C, 0x00, 0x91, 0x03,
       0x94, 0x00, 0x00, 0x00, 0x00, 0x00, 0x00, 0x00, 0x00,
       0x81, 0x12, 0x00, 0x00, 0x00, 0x2A, 0x01] ∧
    decode_utterance
      [0x00, 0x90, 0x3C, 0x00, 0x91, 0x03,
       0x94, 0x00, 0x00, 0x00, 0x00, 0x00, 0x00, 0x00, 0x00,
       0x81, 0x12, 0x00, 0x00, 0x00, 0x2A, 0x01] =
      .ok ⟨⟨0x3C00, 3, 0, none, none, none, none, none, none, none⟩,
           [.pragmatic "ASSERT" (some (.literal 0x12 "int32" (.intV 42)))]⟩ :=
  ⟨rfl, rfl⟩

/-! ## Theorems: inline annotations break the round trip (C1 counterexample) -/

/-- An utterance built with the encoder whose body is the inline
annotation CONFIDENCE(0.5) (f16 bits 0x3800) applied to `int32(v)`. -/
def annotatedWire (v : Int) : List Nat :=
  (EncoderState.end_utterance
    (((EncoderState.init.start_utterance 0x3C00 3 0).confidence 0x3800).int32 v)).1

set_option maxRecDepth 10000 in
set_option maxHeartbeats 2000000 in
/-- C1 counterexample: two different encoder-built utterances — the inline
CONFIDENCE annotation wrapping `int32 42` versus `int32 43` — produce
different wire bytes but decode to the *same* tree: `_decode_annotation`
consumes the inner expression and throws it away, returning a node that
records only the annotation code and argument.  Hence
`decode (encode U) = U` is false for utterances containing inline
annotations: decoding cannot equal both distinct originals. -/
theorem c1_annotation_drops_inner :
    annotatedWire 42 ≠ annotatedWire 43 ∧
    decode_utterance (annotatedWire 42) = decode_utterance (annotatedWire 43) ∧
    decode_utterance (annotatedWire 42) =
      .ok ⟨⟨0x3C00, 3, 0, none, none, none, none, none, none, none⟩,
           [.annotated 0x90 (.confBits 0x3800)]⟩ := by
  have h42 : annotatedWire 42 =
      [0x00, 0x90, 0x3C, 0x00, 0x91, 0x03,
       0x94, 0x00, 0x00, 0x00, 0x00, 0x00, 0x00, 0x00, 0x00,
       0x90, 0x38, 0x00, 0x12, 0x00, 0x00, 0x00, 0x2A, 0x01] := rfl
  have h43 : annotatedWire 43 =
      [0x00, 0x90, 0x3C, 0x00, 0x91, 0x03,
       0x94, 0x00, 0x00, 0x00, 0x00, 0x00, 0x00, 0x00, 0x00,
       0x90, 0x38, 0x00, 0x12, 0x00, 0x00, 0x00, 0x2B, 0x01] := rfl
  have hA : decode_utterance
      [0x00, 0x90, 0x3C, 0x00, 0x91, 0x03,
       0x94, 0x00, 0x00, 0x00, 0x00, 0x00, 0x00, 0x00, 0x00,
       0x90, 0x38, 0x00, 0x12, 0x00, 0x00, 0x00, 0x2A, 0x01] =
      .ok ⟨⟨0x3C00, 3, 0, none, none, none, none, none, none, none⟩,
           [.annotated 0x90 (.confBits 0x3800)]⟩ := rfl
  have hB : decode_utterance
      [0x00, 0x90, 0x3C, 0x00, 0x91, 0x03,
       0x94, 0x00, 0x00, 0x00, 0x00, 0x00, 0x00, 0x00, 0x00,
       0x90, 0x38, 0x00, 0x12, 0x00, 0x00, 0x00, 0x2B, 0x01] =
      .ok ⟨⟨0x3C00, 3, 0, none, none, none, none, none, none, none⟩,
           [.annotated 0x90 (.confBits 0x3800)]⟩ := rfl
  refine ⟨?_, ?_, ?_⟩
  · rw [h42, h43]
    decide
  · rw [h42, h43, hA, hB]
  · rw [h42, hA]

/-! ## Theorems: truncated lists decode leniently, with no flag (C8) -/

/-- C8 counterexample: the stream `23 0002 14 05` declares a list of two
elements but ends after the first.  The decoder returns — without any
error — exactly `ListNode(count = 2, elements = [uint8 5])`, and the
well-terminated stream `23 0002 14 05 24` decodes to the *identical* node.
The `ListNode` dataclass (see `Node`) carries only `count` and `elements`:
there is no `incomplete` flag, and no field of the result distinguishes
the truncated stream from the terminated one. -/
theorem c8_truncated_list_no_flag :
    decodeExpression (3 * 5 + 16) [0x23, 0x00, 0x02, 0x14, 0x05] 0 =
      .ok (some (.listN 2 [some (.literal 0x14 "uint8" (.natV 5))]), 5) ∧
    decodeExpression (3 * 6 + 16) [0x23, 0x00, 0x02, 0x14, 0x05, 0x24] 0 =
      .ok (some (.listN 2 [some (.literal 0x14 "uint8" (.natV 5))]), 6) :=
  ⟨rfl, rfl⟩

/-! ## Tree encoder

`encodeExpr e` is the byte sequence the `AILLEncoder` builder methods emit
for the tree `e`: one method call per node (`pragma`, `modality`,
`temporal`, the typed-literal emitters, `begin_struct`/`field`/
`end_struct`, `begin_list`/`end_list`, `begin_map`/`end_map`, `l1_ref`…,
`context_ref`, `confidence`/`label`, `op`).  Struct fields are emitted
with explicit `field(code)` calls. -/

/-- The leading wire byte of a node's encoding. -/
def headByte : Node → Nat
  | .literal c _ _ => c
  | .structN _ => 0x20
  | .listN _ _ => 0x23
  | .mapN _ _ => 0x25
  | .pragmatic act _ => pragmaticCodeOf act
  | .modal m _ _ => modalityCodeOf m
  | .temporal m _ => temporalCodeOf m
  | .domainRef lvl _ => 0xEF + lvl
  | .contextRef _ => 0x98
  | .annotated c _ => c
  | .annotationNode c => c
  | .codeN c _ => c

mutual

/-- Wire bytes for one expression tree. -/
def encodeExpr : Node → List Nat
  | .literal c _ v =>
    [c] ++
    (match c, v with
     | 0x10, .intV n => int8be n
     | 0x11, .intV n => int16be n
     | 0x12, .intV n => int32be n
     | 0x13, .intV n => int64be n
     | 0x14, .natV n => [n % 256]
     | 0x15, .natV n => be16 n
     | 0x16, .natV n => be32 n
     | 0x17, .natV n => be64 n
     | 0x18, .f16V b => be16 b
     | 0x19, .f32V b => be32 b
     | 0x1A, .f64V b => be64 b
     | 0x1B, .boolV b => [if b then 1 else 0]
     | 0x1C, .strV s => be16 s.length ++ s
     | 0x1D, .bytesV bs => be16 bs.length ++ bs
     | 0x1E, .intV n => int64be n
     | _, _ => [])
  | .structN fields => [0x20] ++ encodeFields fields ++ [0x21]
  | .listN count elements => [0x23] ++ be16 count ++ encodeElems elements ++ [0x24]
  | .mapN count pairs => [0x25] ++ be16 count ++ encodePairs pairs ++ [0x26]
  | .pragmatic act inner => [pragmaticCodeOf act] ++ encodeOpt inner
  | .modal m inner extra =>
    [modalityCodeOf m] ++
    (match extra with
     | some (.horizonBits b) => be16 b
     | some (.reporter u) => u
     | none => []) ++ encodeOpt inner
  | .temporal m inner => [temporalCodeOf m] ++ encodeOpt inner
  | .domainRef lvl dc => [0xEF + lvl] ++ be16 dc
  | .contextRef idx => [0x98] ++ encode_varint idx
  | .annotated c payload =>
    [c] ++
    (match payload with
     | .confBits b => be16 b
     | .labelStr s => be16 s.length ++ s)
  | .annotationNode c => [c]
  | .codeN c _ => [c]

def encodeOpt : Option Node → List Nat
  | some e => encodeExpr e
  | none => []

def encodeFields : List (Nat × Option Node) → List Nat
  | [] => []
  | (k, v) :: rest => [0x29] ++ be16 k ++ encodeOpt v ++ encodeFields rest

def encodeElems : List (Option Node) → List Nat
  | [] => []
  | v :: rest => encodeOpt v ++ encodeElems rest

def encodePairs : List (Option Node × Option Node) → List Nat
  | [] => []
  | (k, v) :: rest => encodeOpt k ++ encodeOpt v ++ encodePairs rest

end

/-- The meta-header bytes `start_utterance` emits (confidence as f16 bits,
priority masked by `write_uint8`, timestamp as i64, then the optional
DEST_AGENT and SEQNUM in the source's order). -/
def encodeMeta (m : MetaHeaderNode) : List Nat :=
  [0x90] ++ be16 m.confidence ++ [0x91, m.priority % 256] ++
  [0x94] ++ int64be m.timestamp_us ++
  (match m.dest_agent with | some d => [0x93] ++ d | none => []) ++
  (match m.seqnum with | some n => [0x95] ++ be32 n | none => [])

/-- Body bytes: the expressions in caller order. -/
def encodeBody : List Node → List Nat
  | [] => []
  | e :: rest => encodeExpr e ++ encodeBody rest

/-- A complete utterance: START_UTTERANCE, meta header, body,
END_UTTERANCE. -/
def encodeUtterance (u : UtteranceNode) : List Nat :=
  [0x00] ++ encodeMeta u.meta ++ encodeBody u.body ++ [0x01]

/-- A complete utterance whose final END_UTTERANCE byte was never
transmitted (C10). -/
def encodeUtteranceNoEnd (u : UtteranceNode) : List Nat :=
  [0x00] ++ encodeMeta u.meta ++ encodeBody u.body

/-! ## Well-formed trees

`wfExpr e` says the tree is one a caller can actually produce with the
builder and that survives the wire unchanged: codes and mnemonic strings
agree with the codebook, values fit their types, float patterns are not
NaN (Python's `nan != nan` breaks dataclass equality), declared counts
match element counts, struct keys are distinct, strings are valid UTF-8,
and bare codes fall in the decoder's pass-through set.  Inline annotations
are excluded: the decoder drops their inner expression
(see `c1_annotation_drops_inner`). -/

def isNaN16 (b : Nat) : Bool := decide (b / 1024 % 32 = 31 ∧ b % 1024 ≠ 0)
def isNaN32 (b : Nat) : Bool := decide (b / 2 ^ 23 % 256 = 255 ∧ b % 2 ^ 23 ≠ 0)
def isNaN64 (b : Nat) : Bool := decide (b / 2 ^ 52 % 2048 = 2047 ∧ b % 2 ^ 52 ≠ 0)

/-- Typed-literal consistency (code, Python value_type string, range). -/
def wfLit (c : Nat) (vt : String) (v : LitValue) : Bool :=
  if c = 0x10 then
    match v with
    | .intV n => vt == "int8" && decide (-128 ≤ n ∧ n < 128)
    | _ => false
  else if c = 0x11 then
    match v with
    | .intV n => vt == "int16" && decide (-(2 ^ 15 : Int) ≤ n ∧ n < 2 ^ 15)
    | _ => false
  else if c = 0x12 then
    match v with
    | .intV n => vt == "int32" && decide (-(2 ^ 31 : Int) ≤ n ∧ n < 2 ^ 31)
    | _ => false
  else if c = 0x13 then
    match v with
    | .intV n => vt == "int64" && decide (-(2 ^ 63 : Int) ≤ n ∧ n < 2 ^ 63)
    | _ => false
  else if c = 0x14 then
    match v with
    | .natV n => vt == "uint8" && decide (n < 256)
    | _ => false
  else if c = 0x15 then
    match v with
    | .natV n => vt == "uint16" && decide (n < 65536)
    | _ => false
  else if c = 0x16 then
    match v with
    | .natV n => vt == "uint32" && decide (n < 2 ^ 32)
    | _ => false
  else if c = 0x17 then
    match v with
    | .natV n => vt == "uint64" && decide (n < 2 ^ 64)
    | _ => false
  else if c = 0x18 then
    match v with
    | .f16V b => vt == "float16" && decide (b < 2 ^ 16) && !(isNaN16 b)
    | _ => false
  else if c = 0x19 then
    match v with
    | .f32V b => vt == "float32" && decide (b < 2 ^ 32) && !(isNaN32 b)
    | _ => false
  else if c = 0x1A then
    match v with
    | .f64V b => vt == "float64" && decide (b < 2 ^ 64) && !(isNaN64 b)
    | _ => false
  else if c = 0x1B then
    match v with
    | .boolV _ => vt == "bool"
    | _ => false
  else if c = 0x1C then
    match v with
    | .strV s => vt == "string" && decide (s.length < 65536) && utf8Valid s
    | _ => false
  else if c = 0x1D then
    match v with
    | .bytesV bs => vt == "bytes" && decide (bs.length < 65536)
    | _ => false
  else if c = 0x1E then
    match v with
    | .intV n => vt == "timestamp" && decide (-(2 ^ 63 : Int) ≤ n ∧ n < 2 ^ 63)
    | _ => false
  else if c = 0x1F then
    match v with
    | .nullV => vt == "null"
    | _ => false
  else false

/-- Bare codes that `_decode_expression` passes through as `ASTNode`
("code") nodes, excluding the codes a surrounding context consumes
(END_UTTERANCE and the structure closers / field markers). -/
def plainCodeOk (c : Nat) : Bool :=
  decide (c < 256) &&
  !(decide (0x80 ≤ c ∧ c ≤ 0x8F)) && !(decide (0x70 ≤ c ∧ c ≤ 0x7F)) &&
  !(decide (0x60 ≤ c ∧ c ≤ 0x6F)) && !(c == 0x90) && !(c == 0x9A) &&
  !(decide (0x10 ≤ c ∧ c ≤ 0x1F)) && !(c == 0x20) && !(c == 0x23) &&
  !(c == 0x25) && !(c == 0xF0) && !(c == 0xF1) && !(c == 0xF2) &&
  !(c == 0x98) && !(c == 0xFE) && !(c == 0xFD) &&
  !(c == 0x01) && !(c == 0x21) && !(c == 0x22) && !(c == 0x29) &&
  !(c == 0x24) && !(c == 0x26)

mutual

def wfExpr : Node → Bool
  | .literal c vt v => wfLit c vt v
  | .structN fields =>
    ((fields.map Prod.fst).dedup == fields.map Prod.fst) && wfFields fields
  | .listN count elements =>
    (count == elements.length) && decide (count < 65536) && wfElems elements
  | .mapN count pairs =>
    (count == pairs.length) && decide (count < 65536) && wfPairs pairs
  | .pragmatic act inner =>
    decide (pragmaticCodeOf act < 256) && wfInner inner
  | .modal m inner extra =>
    decide (modalityCodeOf m < 256) && wfInner inner &&
    (match extra with
     | some (.horizonBits b) =>
       (modalityCodeOf m == 0x7D) && decide (b < 2 ^ 16) && !(isNaN16 b)
     | some (.reporter u) =>
       (modalityCodeOf m == 0x7C) && (u.length == 16)
     | none => !(modalityCodeOf m == 0x7D) && !(modalityCodeOf m == 0x7C))
  | .temporal m inner => decide (temporalCodeOf m < 256) && wfInner inner
  | .domainRef lvl dc => decide (1 ≤ lvl ∧ lvl ≤ 3) && decide (dc < 65536)
  | .contextRef idx => decide (idx < 2 ^ 32)
  | .annotated _ _ => false
  | .annotationNode _ => false
  | .codeN c m => plainCodeOk c && (m == baseMnemonic c)

def wfInner : Option Node → Bool
  | some e => wfExpr e
  | none => false

def wfFields : List (Nat × Option Node) → Bool
  | [] => true
  | (k, v) :: rest => decide (k < 65536) && wfInner v && wfFields rest

def wfElems : List (Option Node) → Bool
  | [] => true
  | v :: rest => wfInner v && wfElems rest

def wfPairs : List (Option Node × Option Node) → Bool
  | [] => true
  | (k, v) :: rest => wfInner k && wfInner v && wfPairs rest

end

/-- Well-formed meta header: in-range mandatory fields, the two optional
fields the encoder can emit, nothing the encoder cannot produce. -/
def wfMeta (m : MetaHeaderNode) : Bool :=
  decide (m.confidence < 2 ^ 16) && !(isNaN16 m.confidence) &&
  decide (m.priority < 256) &&
  decide (-(2 ^ 63 : Int) ≤ m.timestamp_us ∧ m.timestamp_us < 2 ^ 63) &&
  m.source_agent.isNone &&
  (match m.dest_agent with | some u => u.length == 16 | none => true) &&
  (match m.seqnum with | some n => decide (n < 2 ^ 32) | none => true) &&
  m.trace_id.isNone && m.ttl.isNone && m.topic.isNone && m.version.isNone

def wfBody : List Node → Bool
  | [] => true
  | e :: rest => wfExpr e && wfBody rest

/-- Well-formed utterance: meta and body well-formed, and the first body
expression must not begin with a byte in 0x92–0x9F — the meta-annotation
loop would swallow it (the spec itself notes this forward-compatibility
hazard). -/
def wfUtterance (u : UtteranceNode) : Bool :=
  wfMeta u.meta && wfBody u.body &&
  (match u.body with
   | [] => true
   | e :: _ => !(decide (0x92 ≤ headByte e ∧ headByte e ≤ 0x9F)))

/-! ## Stream-splitting lemmas -/

theorem drop_split {data mid tail : List Nat} {pos : Nat}
    (hpos : pos ≤ data.length) (h : data.drop pos = mid ++ tail) :
    pos + mid.length ≤ data.length ∧ data.drop (pos + mid.length) = tail := by
  have hlen : data.length - pos = mid.length + tail.length := by
    have := congrArg List.length h
    simpa using this
  refine ⟨by omega, ?_⟩
  have h2 : data.drop (pos + mid.length) = (data.drop pos).drop mid.length := by
    rw [List.drop_drop]
  rw [h2, h, List.drop_left]

theorem pos_lt_of_drop_cons {data : List Nat} {pos : Nat} {b : Nat} {tl : List Nat}
    (h : data.drop pos = b :: tl) : pos < data.length := by
  by_contra hc
  rw [List.drop_eq_nil_of_le (by omega)] at h
  exact absurd h (by simp)

theorem getD_of_drop {data : List Nat} {pos : Nat} {b : Nat} {tl : List Nat}
    (h : data.drop pos = b :: tl) : data.getD pos 0 = b := by
  have h0 : data[pos]? = some b := by
    have := List.getElem?_drop data pos 0
    rw [h] at this
    simpa using this.symm
  simp [List.getD, h0]

theorem readByte_spec {data : List Nat} {pos : Nat} {b : Nat} {tl : List Nat}
    (h : data.drop pos = b :: tl) :
    readByte data pos = .ok (b, pos + 1) ∧ data.drop (pos + 1) = tl := by
  have hpos := pos_lt_of_drop_cons h
  have hsplit := @drop_split data [b] tl pos
    (Nat.le_of_lt hpos) (by simpa using h)
  have h0 : data[pos]? = some b := by
    have := List.getElem?_drop data pos 0
    rw [h] at this
    simpa using this.symm
  constructor
  · rw [readByte, h0]
  · simpa using hsplit.2

theorem readBytesN_spec {data mid tail : List Nat} {pos : Nat}
    (hpos : pos ≤ data.length) (h : data.drop pos = mid ++ tail) :
    readBytesN data pos mid.length = .ok (mid, pos + mid.length) ∧
    data.drop (pos + mid.length) = tail := by
  have hsplit := drop_split hpos h
  refine ⟨?_, hsplit.2⟩
  rw [readBytesN, if_pos hsplit.1, h, List.take_left]

theorem beToNat_be16 {v : Nat} (h : v < 65536) : beToNat (be16 v) = v := by
  simp [beToNat, be16]
  omega

theorem beToNat_be32 {v : Nat} (h : v < 2 ^ 32) : beToNat (be32 v) = v := by
  simp [beToNat, be32]
  omega

theorem beToNat_be64 {v : Nat} (h : v < 2 ^ 64) : beToNat (be64 v) = v := by
  simp [beToNat, be64]
  omega

theorem be16_length (v : Nat) : (be16 v).length = 2 := rfl
theorem be32_length (v : Nat) : (be32 v).length = 4 := rfl
theorem be64_length (v : Nat) : (be64 v).length = 8 := rfl
theorem int8be_length (v : Int) : (int8be v).length = 1 := rfl
theorem int16be_length (v : Int) : (int16be v).length = 2 := rfl
theorem int32be_length (v : Int) : (int32be v).length = 4 := rfl
theorem int64be_length (v : Int) : (int64be v).length = 8 := rfl

theorem bind_ok_ex {ε α β : Type} (a : α) (f : α → Except ε β) :
    (Except.ok (ε := ε) a >>= f) = f a := rfl

theorem readUint16_spec {data tail : List Nat} {pos v : Nat}
    (hv : v < 65536) (hpos : pos ≤ data.length)
    (h : data.drop pos = be16 v ++ tail) :
    readUint16 data pos = .ok (v, pos + 2) ∧ data.drop (pos + 2) = tail := by
  have hr := readBytesN_spec hpos h
  rw [be16_length] at hr
  refine ⟨?_, hr.2⟩
  rw [readUint16, hr.1, bind_ok_ex]
  show Except.ok (beToNat (be16 v), pos + 2) = _
  rw [beToNat_be16 hv]

theorem readUint32_spec {data tail : List Nat} {pos v : Nat}
    (hv : v < 2 ^ 32) (hpos : pos ≤ data.length)
    (h : data.drop pos = be32 v ++ tail) :
    readUint32 data pos = .ok (v, pos + 4) ∧ data.drop (pos + 4) = tail := by
  have hr := readBytesN_spec hpos h
  rw [be32_length] at hr
  refine ⟨?_, hr.2⟩
  rw [readUint32, hr.1, bind_ok_ex]
  show Except.ok (beToNat (be32 v), pos + 4) = _
  rw [beToNat_be32 hv]

theorem readUint64_spec {data tail : List Nat} {pos v : Nat}
    (hv : v < 2 ^ 64) (hpos : pos ≤ data.length)
    (h : data.drop pos = be64 v ++ tail) :
    readUint64 data pos = .ok (v, pos + 8) ∧ data.drop (pos + 8) = tail := by
  have hr := readBytesN_spec hpos h
  rw [be64_length] at hr
  refine ⟨?_, hr.2⟩
  rw [readUint64, hr.1, bind_ok_ex]
  show Except.ok (beToNat (be64 v), pos + 8) = _
  rw [beToNat_be64 hv]

theorem toSigned_int64be {v : Int} (hlo : -(2 ^ 63) ≤ v) (hhi : v < 2 ^ 63) :
    toSigned 64 (beToNat (int64be v)) = v := by
  have hmod : (0 : Int) ≤ v % 2 ^ 64 := Int.emod_nonneg v (by norm_num)
  have hmod2 : v % 2 ^ 64 < 2 ^ 64 := Int.emod_lt_of_pos v (by norm_num)
  have hn : ((v % (2 ^ 64 : Int)).toNat : Int) = v % 2 ^ 64 :=
    Int.toNat_of_nonneg hmod
  have hlt : (v % (2 ^ 64 : Int)).toNat < 2 ^ 64 := by omega
  rw [int64be, beToNat_be64 hlt, toSigned]
  split
  case isTrue hsm => omega
  case isFalse hsm => push_cast; omega

theorem toSigned_int32be {v : Int} (hlo : -(2 ^ 31) ≤ v) (hhi : v < 2 ^ 31) :
    toSigned 32 (beToNat (int32be v)) = v := by
  have hmod : (0 : Int) ≤ v % 2 ^ 32 := Int.emod_nonneg v (by norm_num)
  have hmod2 : v % 2 ^ 32 < 2 ^ 32 := Int.emod_lt_of_pos v (by norm_num)
  have hn : ((v % (2 ^ 32 : Int)).toNat : Int) = v % 2 ^ 32 :=
    Int.toNat_of_nonneg hmod
  have hlt : (v % (2 ^ 32 : Int)).toNat < 2 ^ 32 := by omega
  rw [int32be, beToNat_be32 hlt, toSigned]
  split
  case isTrue hsm => omega
  case isFalse hsm => push_cast; omega

theorem toSigned_int16be {v : Int} (hlo : -(2 ^ 15) ≤ v) (hhi : v < 2 ^ 15) :
    toSigned 16 (beToNat (int16be v)) = v := by
  have hmod : (0 : Int) ≤ v % 2 ^ 16 := Int.emod_nonneg v (by norm_num)
  have hmod2 : v % 2 ^ 16 < 2 ^ 16 := Int.emod_lt_of_pos v (by norm_num)
  have hn : ((v % (2 ^ 16 : Int)).toNat : Int) = v % 2 ^ 16 :=
    Int.toNat_of_nonneg hmod
  have hlt : (v % (2 ^ 16 : Int)).toNat < 2 ^ 16 := by omega
  rw [int16be, beToNat_be16 hlt, toSigned]
  split
  case isTrue hsm => omega
  case isFalse hsm => push_cast; omega

theorem toSigned_int8be {v : Int} (hlo : -(2 ^ 7) ≤ v) (hhi : v < 2 ^ 7) :
    toSigned 8 (beToNat (int8be v)) = v := by
  have hmod : (0 : Int) ≤ v % 2 ^ 8 := Int.emod_nonneg v (by norm_num)
  have hmod2 : v % 2 ^ 8 < 2 ^ 8 := Int.emod_lt_of_pos v (by norm_num)
  have hn : ((v % (2 ^ 8 : Int)).toNat : Int) = v % 2 ^ 8 :=
    Int.toNat_of_nonneg hmod
  have hlt : (v % (2 ^ 8 : Int)).toNat < 2 ^ 8 := by omega
  have : beToNat (int8be v) = (v % (2 ^ 8 : Int)).toNat := by
    simp [int8be, beToNat]
  rw [this, toSigned]
  split
  case isTrue hsm => omega
  case isFalse hsm => push_cast; omega

theorem readInt64_spec {data tail : List Nat} {pos : Nat} {v : Int}
    (hlo : -(2 ^ 63) ≤ v) (hhi : v < 2 ^ 63) (hpos : pos ≤ data.length)
    (h : data.drop pos = int64be v ++ tail) :
    readInt64 data pos = .ok (v, pos + 8) ∧ data.drop (pos + 8) = tail := by
  have hr := readBytesN_spec hpos h
  rw [int64be_length] at hr
  refine ⟨?_, hr.2⟩
  rw [readInt64, hr.1, bind_ok_ex]
  show Except.ok (toSigned 64 (beToNat (int64be v)), pos + 8) = _
  rw [toSigned_int64be hlo hhi]

theorem readInt32_spec {data tail : List Nat} {pos : Nat} {v : Int}
    (hlo : -(2 ^ 31) ≤ v) (hhi : v < 2 ^ 31) (hpos : pos ≤ data.length)
    (h : data.drop pos = int32be v ++ tail) :
    readInt32 data pos = .ok (v, pos + 4) ∧ data.drop (pos + 4) = tail := by
  have hr := readBytesN_spec hpos h
  rw [int32be_length] at hr
  refine ⟨?_, hr.2⟩
  rw [readInt32, hr.1, bind_ok_ex]
  show Except.ok (toSigned 32 (beToNat (int32be v)), pos + 4) = _
  rw [toSigned_int32be hlo hhi]

theorem readInt16_spec {data tail : List Nat} {pos : Nat} {v : Int}
    (hlo : -(2 ^ 15) ≤ v) (hhi : v < 2 ^ 15) (hpos : pos ≤ data.length)
    (h : data.drop pos = int16be v ++ tail) :
    readInt16 data pos = .ok (v, pos + 2) ∧ data.drop (pos + 2) = tail := by
  have hr := readBytesN_spec hpos h
  rw [int16be_length] at hr
  refine ⟨?_, hr.2⟩
  rw [readInt16, hr.1, bind_ok_ex]
  show Except.ok (toSigned 16 (beToNat (int16be v)), pos + 2) = _
  rw [toSigned_int16be hlo hhi]

theorem readInt8_spec {data tail : List Nat} {pos : Nat} {v : Int}
    (hlo : -(2 ^ 7) ≤ v) (hhi : v < 2 ^ 7) (hpos : pos ≤ data.length)
    (h : data.drop pos = int8be v ++ tail) :
    readInt8 data pos = .ok (v, pos + 1) ∧ data.drop (pos + 1) = tail := by
  have hr := readBytesN_spec hpos h
  rw [int8be_length] at hr
  refine ⟨?_, hr.2⟩
  rw [readInt8, hr.1, bind_ok_ex]
  show Except.ok (toSigned 8 (beToNat (int8be v)), pos + 1) = _
  rw [toSigned_int8be hlo hhi]

theorem readF16_spec {data tail : List Nat} {pos v : Nat}
    (hv : v < 65536) (hpos : pos ≤ data.length)
    (h : data.drop pos = be16 v ++ tail) :
    readF16 data pos = .ok (v, pos + 2) ∧ data.drop (pos + 2) = tail := by
  have hr := readBytesN_spec hpos h
  rw [be16_length] at hr
  refine ⟨?_, hr.2⟩
  rw [readF16, hr.1, bind_ok_ex]
  show Except.ok (beToNat (be16 v), pos + 2) = _
  rw [beToNat_be16 hv]

theorem readF32_spec {data tail : List Nat} {pos v : Nat}
    (hv : v < 2 ^ 32) (hpos : pos ≤ data.length)
    (h : data.drop pos = be32 v ++ tail) :
    readF32 data pos = .ok (v, pos + 4) ∧ data.drop (pos + 4) = tail := by
  have hr := readBytesN_spec hpos h
  rw [be32_length] at hr
  refine ⟨?_, hr.2⟩
  rw [readF32, hr.1, bind_ok_ex]
  show Except.ok (beToNat (be32 v), pos + 4) = _
  rw [beToNat_be32 hv]

theorem readF64_spec {data tail : List Nat} {pos v : Nat}
    (hv : v < 2 ^ 64) (hpos : pos ≤ data.length)
    (h : data.drop pos = be64 v ++ tail) :
    readF64 data pos = .ok (v, pos + 8) ∧ data.drop (pos + 8) = tail := by
  have hr := readBytesN_spec hpos h
  rw [be64_length] at hr
  refine ⟨?_, hr.2⟩
  rw [readF64, hr.1, bind_ok_ex]
  show Except.ok (beToNat (be64 v), pos + 8) = _
  rw [beToNat_be64 hv]

theorem readString_spec {data tail s : List Nat} {pos : Nat}
    (hs : s.length < 65536) (hu : utf8Valid s = true) (hpos : pos ≤ data.length)
    (h : data.drop pos = be16 s.length ++ s ++ tail) :
    readString data pos = .ok (s, pos + 2 + s.length) ∧
    data.drop (pos + 2 + s.length) = tail := by
  rw [List.append_assoc] at h
  have h1 := readUint16_spec hs hpos h
  have hsp := @drop_split data (be16 s.length) (s ++ tail) pos hpos h
  have hpos2 : pos + 2 ≤ data.length := by
    have := hsp.1
    rw [be16_length] at this
    exact this
  have h2 := @readBytesN_spec data s tail (pos + 2) hpos2 h1.2
  refine ⟨?_, by have := h2.2; simpa [Nat.add_assoc] using this⟩
  simp only [readString, h1.1, bind_ok_ex, h2.1, hu, if_true, Nat.add_assoc]

theorem obind_some {α β : Type} (a : α) (f : α → Option β) :
    (some a >>= f) = f a := rfl

theorem getElem?_of_drop {data mid tail : List Nat} {pos i : Nat}
    (h : data.drop pos = mid ++ tail) (hi : i < mid.length) :
    data[pos + i]? = mid[i]? := by
  have h1 : (data.drop pos)[i]? = data[pos + i]? := List.getElem?_drop data pos i
  rw [← h1, h, List.getElem?_append_left hi]

theorem readVarint_spec {data tail : List Nat} {pos v : Nat}
    (hv : v < 2 ^ 32) (hpos : pos ≤ data.length)
    (h : data.drop pos = encode_varint v ++ tail) :
    readVarint data pos = .ok (v, pos + (encode_varint v).length) ∧
    data.drop (pos + (encode_varint v).length) = tail := by
  have hdec : decode_varint data pos = some (v, (encode_varint v).length) := by
    by_cases h1 : v < 128
    · have g0 : data[pos + 0]? = some v := by
        have := getElem?_of_drop (i := 0) h (by simp [encode_varint, h1])
        simpa [encode_varint, h1] using this
      rw [decode_varint]
      simp only [Nat.add_zero] at g0
      rw [g0, obind_some, if_pos (by omega)]
      simp [encode_varint, h1]
    · by_cases h2 : v < 16384
      · have hm : encode_varint v = [0x80 + v / 256, v % 256] := by
          simp [encode_varint, h1, h2]
        rw [hm] at h
        have g0 : data[pos + 0]? = some (0x80 + v / 256) :=
          getElem?_of_drop h (by simp)
        have g1 : data[pos + 1]? = some (v % 256) :=
          getElem?_of_drop h (by simp)
        simp only [Nat.add_zero] at g0
        rw [decode_varint, g0, obind_some, if_neg (by omega), if_pos (by omega),
          g1, obind_some]
        rw [hm]
        have : (0x80 + v / 256) % 64 * 256 + v % 256 = v := by omega
        simp [this]
      · by_cases h3 : v < 2097152
        · have hm : encode_varint v =
              [0xC0 + v / 65536, v / 256 % 256, v % 256] := by
            simp [encode_varint, h1, h2, h3]
          rw [hm] at h
          have g0 : data[pos + 0]? = some (0xC0 + v / 65536) :=
            getElem?_of_drop h (by simp)
          have g1 : data[pos + 1]? = some (v / 256 % 256) :=
            getElem?_of_drop h (by simp)
          have g2 : data[pos + 2]? = some (v % 256) :=
            getElem?_of_drop h (by simp)
          simp only [Nat.add_zero] at g0
          rw [decode_varint, g0, obind_some, if_neg (by omega),
            if_neg (by omega), if_pos (by omega), g1, obind_some, g2, obind_some]
          rw [hm]
          have : (0xC0 + v / 65536) % 32 * 65536 + v / 256 % 256 * 256 + v % 256
              = v := by omega
          simp [this]
        · by_cases h4 : v < 268435456
          · have hm : encode_varint v =
                [0xE0 + v / 16777216, v / 65536 % 256, v / 256 % 256, v % 256] := by
              simp [encode_varint, h1, h2, h3, h4]
            rw [hm] at h
            have g0 : data[pos + 0]? = some (0xE0 + v / 16777216) :=
              getElem?_of_drop h (by simp)
            have g1 : data[pos + 1]? = some (v / 65536 % 256) :=
              getElem?_of_drop h (by simp)
            have g2 : data[pos + 2]? = some (v / 256 % 256) :=
              getElem?_of_drop h (by simp)
            have g3 : data[pos + 3]? = some (v % 256) :=
              getElem?_of_drop h (by simp)
            simp only [Nat.add_zero] at g0
            rw [decode_varint, g0, obind_some, if_neg (by omega),
              if_neg (by omega), if_neg (by omega), if_pos (by omega),
              g1, obind_some, g2, obind_some, g3, obind_some]
            rw [hm]
            have : (0xE0 + v / 16777216) % 16 * 16777216 +
                v / 65536 % 256 * 65536 + v / 256 % 256 * 256 + v % 256 = v := by
              omega
            simp [this]
          · have hmod : v % 2 ^ 32 = v := Nat.mod_eq_of_lt hv
            have hm : encode_varint v =
                [0xF0, v / 16777216 % 256, v / 65536 % 256, v / 256 % 256,
                 v % 256] := by
              simp only [encode_varint, be32, h1, h2, h3, h4, if_false,
                ite_false, List.cons_append, List.nil_append]
              rw [hmod]
            rw [hm] at h
            have g0 : data[pos + 0]? = some 0xF0 :=
              getElem?_of_drop h (by simp)
            have g1 : data[pos + 1]? = some (v / 16777216 % 256) :=
              getElem?_of_drop h (by simp)
            have g2 : data[pos + 2]? = some (v / 65536 % 256) :=
              getElem?_of_drop h (by simp)
            have g3 : data[pos + 3]? = some (v / 256 % 256) :=
              getElem?_of_drop h (by simp)
            have g4 : data[pos + 4]? = some (v % 256) :=
              getElem?_of_drop h (by simp)
            simp only [Nat.add_zero] at g0
            rw [decode_varint, g0, obind_some, if_neg (by omega),
              if_neg (by omega), if_neg (by omega), if_neg (by omega),
              g1, obind_some, g2, obind_some, g3, obind_some, g4, obind_some]
            rw [hm]
            have : v / 16777216 % 256 * 16777216 + v / 65536 % 256 * 65536 +
                v / 256 % 256 * 256 + v % 256 = v := by omega
            simp [this]
  refine ⟨?_, (drop_split hpos h).2⟩
  rw [readVarint, hdec]

/-! ## Codebook table facts -/

theorem pragAct_facts {s : String} (h : pragmaticCodeOf s < 256) :
    0x80 ≤ pragmaticCodeOf s ∧ pragmaticCodeOf s ≤ 0x8F ∧
    baseMnemonic (pragmaticCodeOf s) = s := by
  by_cases h0 : s = "QUERY"
  · subst h0; exact ⟨by decide, by decide, by decide⟩
  · 
    by_cases h1 : s = "ASSERT"
    · subst h1; exact ⟨by decide, by decide, by decide⟩
    · 
      by_cases h2 : s = "REQUEST"
      · subst h2; exact ⟨by decide, by decide, by decide⟩
      · 
        by_cases h3 : s = "COMMAND"
        · subst h3; exact ⟨by decide, by decide, by decide⟩
        · 
          by_cases h4 : s = "ACKNOWLEDGE"
          · subst h4; exact ⟨by decide, by decide, by decide⟩
          · 
            by_cases h5 : s = "REJECT"
            · subst h5; exact ⟨by decide, by decide, by decide⟩
            · 
              by_cases h6 : s = "CLARIFY"
              · subst h6; exact ⟨by decide, by decide, by decide⟩
              · 
                by_cases h7 : s = "CORRECT"
                · subst h7; exact ⟨by decide, by decide, by decide⟩
                · 
                  by_cases h8 : s = "PROPOSE"
                  · subst h8; exact ⟨by decide, by decide, by decide⟩
                  · 
                    by_cases h9 : s = "ACCEPT"
                    · subst h9; exact ⟨by decide, by decide, by decide⟩
                    · 
                      by_cases h10 : s = "WARN"
                      · subst h10; exact ⟨by decide, by decide, by decide⟩
                      · 
                        by_cases h11 : s = "PROMISE"
                        · subst h11; exact ⟨by decide, by decide, by decide⟩
                        · 
                          by_cases h12 : s = "INFORM"
                          · subst h12; exact ⟨by decide, by decide, by decide⟩
                          · 
                            by_cases h13 : s = "SUGGEST"
                            · subst h13; exact ⟨by decide, by decide, by decide⟩
                            · 
                              by_cases h14 : s = "GREET"
                              · subst h14; exact ⟨by decide, by decide, by decide⟩
                              · 
                                by_cases h15 : s = "FAREWELL"
                                · subst h15; exact ⟨by decide, by decide, by decide⟩
                                · simp only [pragmaticCodeOf, if_neg h0, if_neg h1, if_neg h2, if_neg h3, if_neg h4, if_neg h5, if_neg h6, if_neg h7, if_neg h8, if_neg h9, if_neg h10, if_neg h11, if_neg h12, if_neg h13, if_neg h14, if_neg h15] at h <;> exact absurd h (by decide)

theorem modality_facts {s : String} (h : modalityCodeOf s < 256) :
    0x70 ≤ modalityCodeOf s ∧ modalityCodeOf s ≤ 0x7F ∧
    baseMnemonic (modalityCodeOf s) = s := by
  by_cases h0 : s = "CERTAIN"
  · subst h0; exact ⟨by decide, by decide, by decide⟩
  · 
    by_cases h1 : s = "PROBABLE"
    · subst h1; exact ⟨by decide, by decide, by decide⟩
    · 
      by_cases h2 : s = "POSSIBLE"
      · subst h2; exact ⟨by decide, by decide, by decide⟩
      · 
        by_cases h3 : s = "UNLIKELY"
        · subst h3; exact ⟨by decide, by decide, by decide⟩
        · 
          by_cases h4 : s = "UNCERTAIN"
          · subst h4; exact ⟨by decide, by decide, by decide⟩
          · 
            by_cases h5 : s = "HYPOTHETICAL"
            · subst h5; exact ⟨by decide, by decide, by decide⟩
            · 
              by_cases h6 : s = "COUNTERFACTUAL"
              · subst h6; exact ⟨by decide, by decide, by decide⟩
              · 
                by_cases h7 : s = "OBLIGATORY"
                · subst h7; exact ⟨by decide, by decide, by decide⟩
                · 
                  by_cases h8 : s = "PERMITTED"
                  · subst h8; exact ⟨by decide, by decide, by decide⟩
                  · 
                    by_cases h9 : s = "FORBIDDEN"
                    · subst h9; exact ⟨by decide, by decide, by decide⟩
                    · 
                      by_cases h10 : s = "INFERRED"
                      · subst h10; exact ⟨by decide, by decide, by decide⟩
                      · 
                        by_cases h11 : s = "OBSERVED"
                        · subst h11; exact ⟨by decide, by decide, by decide⟩
                        · 
                          by_cases h12 : s = "REPORTED"
                          · subst h12; exact ⟨by decide, by decide, by decide⟩
                          · 
                            by_cases h13 : s = "PREDICTED"
                            · subst h13; exact ⟨by decide, by decide, by decide⟩
                            · 
                              by_cases h14 : s = "DESIRED"
                              · subst h14; exact ⟨by decide, by decide, by decide⟩
                              · 
                                by_cases h15 : s = "UNDESIRED"
                                · subst h15; exact ⟨by decide, by decide, by decide⟩
                                · simp only [modalityCodeOf, if_neg h0, if_neg h1, if_neg h2, if_neg h3, if_neg h4, if_neg h5, if_neg h6, if_neg h7, if_neg h8, if_neg h9, if_neg h10, if_neg h11, if_neg h12, if_neg h13, if_neg h14, if_neg h15] at h <;> exact absurd h (by decide)

theorem temporal_facts {s : String} (h : temporalCodeOf s < 256) :
    0x60 ≤ temporalCodeOf s ∧ temporalCodeOf s ≤ 0x6E ∧
    baseMnemonic (temporalCodeOf s) = s := by
  by_cases h0 : s = "PAST"
  · subst h0; exact ⟨by decide, by decide, by decide⟩
  · 
    by_cases h1 : s = "PRESENT"
    · subst h1; exact ⟨by decide, by decide, by decide⟩
    · 
      by_cases h2 : s = "FUTURE"
      · subst h2; exact ⟨by decide, by decide, by decide⟩
      · 
        by_cases h3 : s = "DURATION"
        · subst h3; exact ⟨by decide, by decide, by decide⟩
        · 
          by_cases h4 : s = "T_BEFORE"
          · subst h4; exact ⟨by decide, by decide, by decide⟩
          · 
            by_cases h5 : s = "T_AFTER"
            · subst h5; exact ⟨by decide, by decide, by decide⟩
            · 
              by_cases h6 : s = "T_DURING"
              · subst h6; exact ⟨by decide, by decide, by decide⟩
              · 
                by_cases h7 : s = "T_SIMULTANEOUS"
                · subst h7; exact ⟨by decide, by decide, by decide⟩
                · 
                  by_cases h8 : s = "T_STARTS"
                  · subst h8; exact ⟨by decide, by decide, by decide⟩
                  · 
                    by_cases h9 : s = "T_FINISHES"
                    · subst h9; exact ⟨by decide, by decide, by decide⟩
                    · 
                      by_cases h10 : s = "T_OVERLAPS"
                      · subst h10; exact ⟨by decide, by decide, by decide⟩
                      · 
                        by_cases h11 : s = "T_MEETS"
                        · subst h11; exact ⟨by decide, by decide, by decide⟩
                        · 
                          by_cases h12 : s = "T_ELAPSED"
                          · subst h12; exact ⟨by decide, by decide, by decide⟩
                          · 
                            by_cases h13 : s = "T_NOW"
                            · subst h13; exact ⟨by decide, by decide, by decide⟩
                            · 
                              by_cases h14 : s = "T_DEADLINE"
                              · subst h14; exact ⟨by decide, by decide, by decide⟩
                              · simp only [temporalCodeOf, if_neg h0, if_neg h1, if_neg h2, if_neg h3, if_neg h4, if_neg h5, if_neg h6, if_neg h7, if_neg h8, if_neg h9, if_neg h10, if_neg h11, if_neg h12, if_neg h13, if_neg h14] at h <;> exact absurd h (by decide)

/-! ## Head-byte and well-formedness facts -/

theorem wfLit_code {c : Nat} {vt : String} {v : LitValue}
    (h : wfLit c vt v = true) : 0x10 ≤ c ∧ c ≤ 0x1F := by
  by_cases e0 : c = 16
  · omega
  · 
    by_cases e1 : c = 17
    · omega
    · 
      by_cases e2 : c = 18
      · omega
      · 
        by_cases e3 : c = 19
        · omega
        · 
          by_cases e4 : c = 20
          · omega
          · 
            by_cases e5 : c = 21
            · omega
            · 
              by_cases e6 : c = 22
              · omega
              · 
                by_cases e7 : c = 23
                · omega
                · 
                  by_cases e8 : c = 24
                  · omega
                  · 
                    by_cases e9 : c = 25
                    · omega
                    · 
                      by_cases e10 : c = 26
                      · omega
                      · 
                        by_cases e11 : c = 27
                        · omega
                        · 
                          by_cases e12 : c = 28
                          · omega
                          · 
                            by_cases e13 : c = 29
                            · omega
                            · 
                              by_cases e14 : c = 30
                              · omega
                              · 
                                by_cases e15 : c = 31
                                · omega
                                · unfold wfLit at h
                                  simp only [if_neg e0, if_neg e1, if_neg e2, if_neg e3, if_neg e4, if_neg e5, if_neg e6, if_neg e7, if_neg e8, if_neg e9, if_neg e10, if_neg e11, if_neg e12, if_neg e13, if_neg e14, if_neg e15] at h
                                  exact absurd h (by decide)

theorem encodeExpr_cons (e : Node) :
    encodeExpr e = headByte e :: (encodeExpr e).tail := by
  cases e <;> rfl

theorem encodeExpr_length_pos (e : Node) : 1 ≤ (encodeExpr e).length := by
  rw [encodeExpr_cons]
  simp

/-- Under wf, a node's leading byte is never one of the bytes a
surrounding context consumes (END_UTTERANCE, END_STRUCT, END_LIST,
END_MAP, FIELD_SEP, FIELD_ID). -/
theorem headByte_excludes {e : Node} (h : wfExpr e = true) :
    headByte e ∉ ([0x01, 0x21, 0x22, 0x24, 0x26, 0x29] : List Nat) := by
  cases e with
  | literal c vt v =>
    simp only [wfExpr] at h
    have := wfLit_code h
    simp [headByte]
    omega
  | structN fields => simp [headByte]
  | listN count elements => simp [headByte]
  | mapN count pairs => simp [headByte]
  | pragmatic act inner =>
    simp only [wfExpr, Bool.and_eq_true, decide_eq_true_eq] at h
    have := pragAct_facts h.1
    simp [headByte]
    omega
  | modal m inner extra =>
    simp only [wfExpr, Bool.and_eq_true, decide_eq_true_eq] at h
    have := modality_facts h.1.1
    simp [headByte]
    omega
  | temporal m inner =>
    simp only [wfExpr, Bool.and_eq_true, decide_eq_true_eq] at h
    have := temporal_facts h.1
    simp [headByte]
    omega
  | domainRef lvl dc =>
    simp only [wfExpr, Bool.and_eq_true, decide_eq_true_eq] at h
    simp [headByte]
    omega
  | contextRef idx => simp [headByte]
  | annotated c payload => simp [wfExpr] at h
  | annotationNode c => simp [wfExpr] at h
  | codeN c m =>
    simp only [wfExpr, Bool.and_eq_true] at h
    have hp := h.1
    unfold plainCodeOk at hp
    simp only [Bool.and_eq_true, Bool.not_eq_true', decide_eq_true_eq,
      beq_eq_false_iff_ne, ne_eq, decide_eq_false_iff_not] at hp
    simp [headByte]
    omega

/-! ## Round-trip: decoding an encoded expression -/

/-- Induction hypothesis shape for the expression round trip. -/
abbrev IHyp (data : List Nat) (N : Nat) : Prop :=
  ∀ (e : Node), sizeOf e ≤ N → wfExpr e = true →
  ∀ (fuel pos : Nat) (rest : List Nat),
    pos ≤ data.length →
    data.drop pos = encodeExpr e ++ rest →
    3 * (encodeExpr e).length ≤ fuel + 2 →
    decodeExpression fuel data pos = .ok (some e, pos + (encodeExpr e).length)

theorem listLoop_enc {data : List Nat} {N : Nat} (IH : IHyp data N) :
    ∀ (elems : List (Option Node)),
    (∀ x ∈ elems, ∃ ex, x = some ex ∧ sizeOf ex ≤ N ∧ wfExpr ex = true) →
    ∀ (fuel pos : Nat) (acc : List (Option Node)) (rest : List Nat),
      pos ≤ data.length →
      data.drop pos = encodeElems elems ++ rest →
      3 * (encodeElems elems).length + 1 ≤ fuel →
      decodeListLoop fuel data elems.length pos acc =
        .ok (acc ++ elems, pos + (encodeElems elems).length) := by
  intro elems
  induction elems with
  | nil =>
    intro _ fuel pos acc rest hpos hdrop hfuel
    obtain ⟨f, rfl⟩ : ∃ f, fuel = f + 1 := ⟨fuel - 1, by omega⟩
    simp only [List.length_nil]
    rw [decodeListLoop]
    simp [encodeElems]
  | cons x xs ihx =>
    intro hmem fuel pos acc rest hpos hdrop hfuel
    obtain ⟨ex, hx, hsz, hwf⟩ := hmem x (by simp)
    subst hx
    obtain ⟨f, rfl⟩ : ∃ f, fuel = f + 1 := ⟨fuel - 1, by omega⟩
    have hlen1 := encodeExpr_length_pos ex
    have hdrop1 : data.drop pos = encodeExpr ex ++ (encodeElems xs ++ rest) := by
      simpa [encodeElems, encodeOpt, List.append_assoc] using hdrop
    have hconsform : data.drop pos = headByte ex :: ((encodeExpr ex).tail ++ (encodeElems xs ++ rest)) := by
      rw [hdrop1, encodeExpr_cons ex]
      rfl
    have hposlt : pos < data.length := pos_lt_of_drop_cons hconsform
    have hhead : data.getD pos 0 = headByte ex := getD_of_drop hconsform
    have hne : headByte ex ≠ 0x24 := by
      have := headByte_excludes hwf
      simp at this
      omega
    have hexok := IH ex hsz hwf f pos (encodeElems xs ++ rest) hpos hdrop1
      (by simp [encodeElems, encodeOpt] at hfuel ⊢; omega)
    have hsplit := drop_split hpos hdrop1
    simp only [List.length_cons]
    rw [decodeListLoop]
    rw [if_neg (by omega)]
    rw [hhead, if_neg hne]
    rw [hexok, bind_ok_ex]
    have hrec := ihx (fun y hy => hmem y (by simp [hy])) f
      (pos + (encodeExpr ex).length) (acc ++ [some ex]) rest hsplit.1 hsplit.2
      (by simp [encodeElems, encodeOpt] at hfuel ⊢; omega)
    show decodeListLoop f data xs.length (pos + (encodeExpr ex).length)
      (acc ++ [some ex]) = _
    rw [hrec]
    simp [encodeElems, encodeOpt, List.append_assoc, Nat.add_assoc]

theorem listLoop_trunc {data : List Nat} {N : Nat} (IH : IHyp data N) :
    ∀ (elems : List (Option Node)),
    (∀ x ∈ elems, ∃ ex, x = some ex ∧ sizeOf ex ≤ N ∧ wfExpr ex = true) →
    ∀ (fuel pos : Nat) (acc : List (Option Node)) (r : Nat),
      pos ≤ data.length →
      data.drop pos = encodeElems elems →
      elems.length < r →
      3 * (encodeElems elems).length + 1 ≤ fuel →
      decodeListLoop fuel data r pos acc =
        .ok (acc ++ elems, pos + (encodeElems elems).length) := by
  intro elems
  induction elems with
  | nil =>
    intro _ fuel pos acc r hpos hdrop hr hfuel
    obtain ⟨f, rfl⟩ : ∃ f, fuel = f + 1 := ⟨fuel - 1, by omega⟩
    obtain ⟨r1, rfl⟩ : ∃ r1, r = r1 + 1 := ⟨r - 1, by omega⟩
    have hend : pos ≥ data.length := by
      have := congrArg List.length hdrop
      simp [encodeElems] at this
      omega
    rw [decodeListLoop]
    rw [if_pos hend]
    simp [encodeElems]
  | cons x xs ihx =>
    intro hmem fuel pos acc r hpos hdrop hr hfuel
    obtain ⟨ex, hx, hsz, hwf⟩ := hmem x (by simp)
    subst hx
    obtain ⟨f, rfl⟩ : ∃ f, fuel = f + 1 := ⟨fuel - 1, by omega⟩
    obtain ⟨r1, rfl⟩ : ∃ r1, r = r1 + 1 := ⟨r - 1, by omega⟩
    have hlen1 := encodeExpr_length_pos ex
    have hdrop1 : data.drop pos = encodeExpr ex ++ encodeElems xs := by
      simpa [encodeElems, encodeOpt, List.append_assoc] using hdrop
    have hconsform : data.drop pos = headByte ex :: ((encodeExpr ex).tail ++ encodeElems xs) := by
      rw [hdrop1, encodeExpr_cons ex]
      rfl
    have hposlt : pos < data.length := pos_lt_of_drop_cons hconsform
    have hhead : data.getD pos 0 = headByte ex := getD_of_drop hconsform
    have hne : headByte ex ≠ 0x24 := by
      have := headByte_excludes hwf
      simp at this
      omega
    have hexok := IH ex hsz hwf f pos (encodeElems xs) hpos hdrop1
      (by simp [encodeElems, encodeOpt] at hfuel ⊢; omega)
    have hsplit := drop_split hpos hdrop1
    rw [decodeListLoop]
    rw [if_neg (by omega)]
    rw [hhead, if_neg hne]
    rw [hexok, bind_ok_ex]
    have hrec := ihx (fun y hy => hmem y (by simp [hy])) f
      (pos + (encodeExpr ex).length) (acc ++ [some ex]) r1 hsplit.1 hsplit.2
      (by simp at hr; omega)
      (by simp [encodeElems, encodeOpt] at hfuel ⊢; omega)
    show decodeListLoop f data r1 (pos + (encodeExpr ex).length)
      (acc ++ [some ex]) = _
    rw [hrec]
    simp [encodeElems, encodeOpt, List.append_assoc, Nat.add_assoc]

theorem mapLoop_enc {data : List Nat} {N : Nat} (IH : IHyp data N) :
    ∀ (pairs : List (Option Node × Option Node)),
    (∀ x ∈ pairs, ∃ ek ev, x = (some ek, some ev) ∧
      sizeOf ek ≤ N ∧ wfExpr ek = true ∧ sizeOf ev ≤ N ∧ wfExpr ev = true) →
    ∀ (fuel pos : Nat) (acc : List (Option Node × Option Node)) (rest : List Nat),
      pos ≤ data.length →
      data.drop pos = encodePairs pairs ++ rest →
      3 * (encodePairs pairs).length + 1 ≤ fuel →
      decodeMapLoop fuel data pairs.length pos acc =
        .ok (acc ++ pairs, pos + (encodePairs pairs).length) := by
  intro pairs
  induction pairs with
  | nil =>
    intro _ fuel pos acc rest hpos hdrop hfuel
    obtain ⟨f, rfl⟩ : ∃ f, fuel = f + 1 := ⟨fuel - 1, by omega⟩
    simp only [List.length_nil]
    rw [decodeMapLoop]
    simp [encodePairs]
  | cons x xs ihx =>
    intro hmem fuel pos acc rest hpos hdrop hfuel
    obtain ⟨ek, ev, hx, hszk, hwfk, hszv, hwfv⟩ := hmem x (by simp)
    subst hx
    obtain ⟨f, rfl⟩ : ∃ f, fuel = f + 1 := ⟨fuel - 1, by omega⟩
    have hlenk := encodeExpr_length_pos ek
    have hlenv := encodeExpr_length_pos ev
    have hdrop1 : data.drop pos =
        encodeExpr ek ++ (encodeExpr ev ++ (encodePairs xs ++ rest)) := by
      simpa [encodePairs, encodeOpt, List.append_assoc] using hdrop
    have hconsform : data.drop pos =
        headByte ek :: ((encodeExpr ek).tail ++
          (encodeExpr ev ++ (encodePairs xs ++ rest))) := by
      rw [hdrop1, encodeExpr_cons ek]
      rfl
    have hposlt : pos < data.length := pos_lt_of_drop_cons hconsform
    have hhead : data.getD pos 0 = headByte ek := getD_of_drop hconsform
    have hne : headByte ek ≠ 0x26 := by
      have := headByte_excludes hwfk
      simp at this
      omega
    have hkok := IH ek hszk hwfk f pos _ hpos hdrop1
      (by simp [encodePairs, encodeOpt] at hfuel ⊢; omega)
    have hsplitk := drop_split hpos hdrop1
    have hvok := IH ev hszv hwfv f (pos + (encodeExpr ek).length) _
      hsplitk.1 hsplitk.2
      (by simp [encodePairs, encodeOpt] at hfuel ⊢; omega)
    have hsplitv := drop_split hsplitk.1 hsplitk.2
    simp only [List.length_cons]
    rw [decodeMapLoop]
    rw [if_neg (by omega)]
    rw [hhead, if_neg hne]
    rw [hkok, bind_ok_ex]
    show (decodeExpression f data (pos + (encodeExpr ek).length) >>= fun y => decodeMapLoop f data xs.length y.2 (acc ++ [(some ek, y.1)])) = _
    rw [hvok, bind_ok_ex]
    have hrec := ihx (fun y hy => hmem y (by simp [hy])) f
      (pos + (encodeExpr ek).length + (encodeExpr ev).length)
      (acc ++ [(some ek, some ev)]) rest hsplitv.1 hsplitv.2
      (by simp [encodePairs, encodeOpt] at hfuel ⊢; omega)
    show decodeMapLoop f data xs.length
      (pos + (encodeExpr ek).length + (encodeExpr ev).length)
      (acc ++ [(some ek, some ev)]) = _
    rw [hrec]
    simp [encodePairs, encodeOpt, List.append_assoc, Nat.add_assoc]

theorem structLoop_enc {data : List Nat} {N : Nat} (IH : IHyp data N) :
    ∀ (fields : List (Nat × Option Node)),
    (∀ kv ∈ fields, kv.1 < 65536 ∧
      ∃ ev, kv.2 = some ev ∧ sizeOf ev ≤ N ∧ wfExpr ev = true) →
    (fields.map Prod.fst).Nodup →
    ∀ (fuel pos : Nat) (acc : List (Nat × Option Node)) (rest : List Nat),
      (∀ kv ∈ fields, acc.any (fun x => x.1 == kv.1) = false) →
      pos ≤ data.length →
      data.drop pos = encodeFields fields ++ (0x21 :: rest) →
      3 * (encodeFields fields).length + 1 ≤ fuel →
      decodeStructLoop fuel data pos acc =
        .ok (acc ++ fields, pos + (encodeFields fields).length) := by
  intro fields
  induction fields with
  | nil =>
    intro _ _ fuel pos acc rest _ hpos hdrop hfuel
    obtain ⟨f, rfl⟩ : ∃ f, fuel = f + 1 := ⟨fuel - 1, by omega⟩
    simp only [encodeFields, List.nil_append] at hdrop
    have h21 : data[pos]? = some 0x21 := by
      have := List.getElem?_drop data pos 0
      rw [hdrop] at this
      simpa using this.symm
    rw [decodeStructLoop, h21]
    simp [encodeFields]
  | cons kv kvs ihx =>
    intro hmem hnodup fuel pos acc rest hdisj hpos hdrop hfuel
    obtain ⟨k, v⟩ := kv
    obtain ⟨hk, ev, hv, hsz, hwf⟩ := hmem (k, v) (by simp)
    simp only at hv
    subst hv
    obtain ⟨f, rfl⟩ : ∃ f, fuel = f + 1 := ⟨fuel - 1, by omega⟩
    have hlene := encodeExpr_length_pos ev
    have hdrop1 : data.drop pos =
        0x29 :: (be16 k ++ (encodeExpr ev ++ (encodeFields kvs ++ (0x21 :: rest)))) := by
      simpa [encodeFields, encodeOpt, List.append_assoc] using hdrop
    have h29 : data[pos]? = some 0x29 := by
      have := List.getElem?_drop data pos 0
      rw [hdrop1] at this
      simpa using this.symm
    have hposlt : pos < data.length := pos_lt_of_drop_cons hdrop1
    have hrb := readByte_spec hdrop1
    have h16 := readUint16_spec hk (by omega) hrb.2
    have hsplit16 :
        data.drop (pos + 1 + 2) = encodeExpr ev ++ (encodeFields kvs ++ (0x21 :: rest)) :=
      h16.2
    have hpos3 : pos + 1 + 2 ≤ data.length := by
      have hcf : data.drop (pos + 1 + 2) = headByte ev ::
          ((encodeExpr ev).tail ++ (encodeFields kvs ++ (0x21 :: rest))) := by
        rw [hsplit16, encodeExpr_cons ev]
        rfl
      have := pos_lt_of_drop_cons hcf
      omega
    have hvok := IH ev hsz hwf f (pos + 1 + 2) _ hpos3 hsplit16
      (by simp [encodeFields, encodeOpt] at hfuel ⊢; omega)
    have hsplitv := drop_split hpos3 hsplit16
    rw [decodeStructLoop]
    simp only [h29]
    rw [if_neg (by decide), if_neg (by decide)]
    simp only [if_true]
    rw [hrb.1, bind_ok_ex]
    show (readUint16 data (pos + 1) >>= fun x => decodeExpression f data x.2 >>= fun y => decodeStructLoop f data y.2 (dictInsert acc x.1 y.1)) = _
    rw [h16.1, bind_ok_ex]
    show (decodeExpression f data (pos + 1 + 2) >>= fun y => decodeStructLoop f data y.2 (dictInsert acc k y.1)) = _
    rw [hvok, bind_ok_ex]
    show decodeStructLoop f data (pos + 1 + 2 + (encodeExpr ev).length)
      (dictInsert acc k (some ev)) = _
    have hnotin : acc.any (fun x => x.1 == k) = false :=
      hdisj (k, some ev) (by simp)
    have hdins : dictInsert acc k (some ev) = acc ++ [(k, some ev)] := by
      rw [dictInsert, if_neg (by rw [hnotin]; simp)]
    rw [hdins]
    have hknotrest : ∀ kv2 ∈ kvs, ¬(k = kv2.1) := by
      intro kv2 hkv2 heq
      have : k ∈ kvs.map Prod.fst := by
        rw [heq]
        exact List.mem_map_of_mem Prod.fst hkv2
      simp only [List.map_cons, List.nodup_cons] at hnodup
      exact hnodup.1 this
    have hdisj2 : ∀ kv2 ∈ kvs, (acc ++ [(k, some ev)]).any (fun x => x.1 == kv2.1) = false := by
      intro kv2 hkv2
      rw [List.any_append]
      have h1 := hdisj kv2 (List.mem_cons_of_mem _ hkv2)
      rw [h1]
      simp
      exact fun heq => (hknotrest kv2 hkv2) heq
    have hrec := ihx (fun y hy => hmem y (List.mem_cons_of_mem _ hy))
      (by simp only [List.map_cons, List.nodup_cons] at hnodup; exact hnodup.2)
      f (pos + 1 + 2 + (encodeExpr ev).length) (acc ++ [(k, some ev)]) rest
      hdisj2 hsplitv.1 hsplitv.2
      (by simp [encodeFields, encodeOpt] at hfuel ⊢; omega)
    rw [hrec]
    simp [encodeFields, encodeOpt, be16_length, List.append_assoc, Nat.add_assoc]
    omega

theorem sizeOf_mem_elems {elems : List (Option Node)} {ex : Node}
    (h : some ex ∈ elems) : sizeOf ex < sizeOf elems := by
  have h1 := List.sizeOf_lt_of_mem h
  simp at h1
  omega

theorem sizeOf_mem_pairs {pairs : List (Option Node × Option Node)} {ek ev : Node}
    (h : (some ek, some ev) ∈ pairs) :
    sizeOf ek < sizeOf pairs ∧ sizeOf ev < sizeOf pairs := by
  have h1 := List.sizeOf_lt_of_mem h
  simp at h1
  omega

theorem sizeOf_mem_fields {fields : List (Nat × Option Node)} {k : Nat} {ev : Node}
    (h : (k, some ev) ∈ fields) : sizeOf ev < sizeOf fields := by
  have h1 := List.sizeOf_lt_of_mem h
  simp at h1
  omega

theorem wfElems_props : ∀ {elems : List (Option Node)}, wfElems elems = true →
    ∀ x ∈ elems, ∃ ex, x = some ex ∧ wfExpr ex = true := by
  intro elems
  induction elems with
  | nil => intro _ x hx; simp at hx
  | cons y ys ihy =>
    intro h x hx
    cases y with
    | none => simp [wfElems, wfInner] at h
    | some ey =>
      simp only [wfElems, wfInner, Bool.and_eq_true] at h
      rcases List.mem_cons.mp hx with rfl | hx1
      · exact ⟨ey, rfl, h.1⟩
      · exact ihy h.2 x hx1

theorem wfPairs_props : ∀ {pairs : List (Option Node × Option Node)},
    wfPairs pairs = true →
    ∀ x ∈ pairs, ∃ ek ev, x = (some ek, some ev) ∧
      wfExpr ek = true ∧ wfExpr ev = true := by
  intro pairs
  induction pairs with
  | nil => intro _ x hx; simp at hx
  | cons y ys ihy =>
    intro h x hx
    obtain ⟨yk, yv⟩ := y
    cases yk with
    | none => simp [wfPairs, wfInner] at h
    | some ek =>
      cases yv with
      | none => simp [wfPairs, wfInner] at h
      | some ev =>
        simp only [wfPairs, wfInner, Bool.and_eq_true] at h
        rcases List.mem_cons.mp hx with rfl | hx1
        · exact ⟨ek, ev, rfl, h.1.1, h.1.2⟩
        · exact ihy h.2 x hx1

theorem wfFields_props : ∀ {fields : List (Nat × Option Node)},
    wfFields fields = true →
    ∀ kv ∈ fields, kv.1 < 65536 ∧ ∃ ev, kv.2 = some ev ∧ wfExpr ev = true := by
  intro fields
  induction fields with
  | nil => intro _ kv hkv; simp at hkv
  | cons y ys ihy =>
    intro h kv hkv
    obtain ⟨k, v⟩ := y
    cases v with
    | none => simp [wfFields, wfInner] at h
    | some ev =>
      simp only [wfFields, wfInner, Bool.and_eq_true, decide_eq_true_eq] at h
      rcases List.mem_cons.mp hkv with rfl | hkv1
      · exact ⟨h.1.1, ev, rfl, h.1.2⟩
      · exact ihy h.2 kv hkv1

set_option maxHeartbeats 2000000 in
theorem decodeLiteral_spec {data tl : List Nat} {pos : Nat} {c : Nat}
    {vt : String} {v : LitValue}
    (hwf : wfLit c vt v = true) (hpos : pos ≤ data.length)
    (h : data.drop pos = encodeExpr (.literal c vt v) ++ tl) :
    decodeLiteral data pos =
      .ok (.literal c vt v, pos + (encodeExpr (.literal c vt v)).length) ∧
    data.drop (pos + (encodeExpr (.literal c vt v)).length) = tl := by
  obtain ⟨hc1, hc2⟩ := wfLit_code hwf
  have hposlt : pos < data.length := pos_lt_of_drop_cons
    (by rw [h, encodeExpr_cons]; rfl)
  interval_cases c
  -- 0x10 int8
  · cases v <;> simp [wfLit] at hwf
    case intV n =>
    obtain ⟨hvt, hlo, hhi⟩ := hwf
    subst hvt
    have henc : encodeExpr (.literal 0x10 "int8" (.intV n)) = 0x10 :: int8be n := rfl
    have hlen : (encodeExpr (.literal 0x10 "int8" (.intV n))).length = 2 := by
      rw [henc, List.length_cons, int8be_length]
    have h1 : data.drop pos = 0x10 :: (int8be n ++ tl) := by rw [h, henc, List.cons_append]
    have hrb := readByte_spec h1
    have hread := readInt8_spec (by omega) (by omega) (by omega) hrb.2
    refine ⟨?_, ?_⟩
    · rw [decodeLiteral, hrb.1]
      show (readInt8 data (pos + 1) >>= fun x =>
        Except.ok (Node.literal 0x10 "int8" (LitValue.intV x.1), x.2)) = _
      rw [hread.1, bind_ok_ex, hlen]
    · rw [hlen]
      exact hread.2
  -- 0x11 int16
  · cases v <;> simp [wfLit] at hwf
    case intV n =>
    obtain ⟨hvt, hlo, hhi⟩ := hwf
    subst hvt
    have henc : encodeExpr (.literal 0x11 "int16" (.intV n)) = 0x11 :: int16be n := rfl
    have hlen : (encodeExpr (.literal 0x11 "int16" (.intV n))).length = 3 := by
      rw [henc, List.length_cons, int16be_length]
    have h1 : data.drop pos = 0x11 :: (int16be n ++ tl) := by rw [h, henc, List.cons_append]
    have hrb := readByte_spec h1
    have hread := readInt16_spec (by omega) (by omega) (by omega) hrb.2
    refine ⟨?_, ?_⟩
    · rw [decodeLiteral, hrb.1]
      show (readInt16 data (pos + 1) >>= fun x =>
        Except.ok (Node.literal 0x11 "int16" (LitValue.intV x.1), x.2)) = _
      rw [hread.1, bind_ok_ex, hlen]
    · rw [hlen]
      exact hread.2
  -- 0x12 int32
  · cases v <;> simp [wfLit] at hwf
    case intV n =>
    obtain ⟨hvt, hlo, hhi⟩ := hwf
    subst hvt
    have henc : encodeExpr (.literal 0x12 "int32" (.intV n)) = 0x12 :: int32be n := rfl
    have hlen : (encodeExpr (.literal 0x12 "int32" (.intV n))).length = 5 := by
      rw [henc, List.length_cons, int32be_length]
    have h1 : data.drop pos = 0x12 :: (int32be n ++ tl) := by rw [h, henc, List.cons_append]
    have hrb := readByte_spec h1
    have hread := readInt32_spec (by omega) (by omega) (by omega) hrb.2
    refine ⟨?_, ?_⟩
    · rw [decodeLiteral, hrb.1]
      show (readInt32 data (pos + 1) >>= fun x =>
        Except.ok (Node.literal 0x12 "int32" (LitValue.intV x.1), x.2)) = _
      rw [hread.1, bind_ok_ex, hlen]
    · rw [hlen]
      exact hread.2
  -- 0x13 int64
  · cases v <;> simp [wfLit] at hwf
    case intV n =>
    obtain ⟨hvt, hlo, hhi⟩ := hwf
    subst hvt
    have henc : encodeExpr (.literal 0x13 "int64" (.intV n)) = 0x13 :: int64be n := rfl
    have hlen : (encodeExpr (.literal 0x13 "int64" (.intV n))).length = 9 := by
      rw [henc, List.length_cons, int64be_length]
    have h1 : data.drop pos = 0x13 :: (int64be n ++ tl) := by rw [h, henc, List.cons_append]
    have hrb := readByte_spec h1
    have hread := readInt64_spec (by omega) (by omega) (by omega) hrb.2
    refine ⟨?_, ?_⟩
    · rw [decodeLiteral, hrb.1]
      show (readInt64 data (pos + 1) >>= fun x =>
        Except.ok (Node.literal 0x13 "int64" (LitValue.intV x.1), x.2)) = _
      rw [hread.1, bind_ok_ex, hlen]
    · rw [hlen]
      exact hread.2
  -- 0x14 uint8
  · cases v <;> simp [wfLit] at hwf
    case natV n =>
    obtain ⟨hvt, hn⟩ := hwf
    subst hvt
    have henc0 : encodeExpr (.literal 0x14 "uint8" (.natV n)) = [0x14, n % 256] := rfl
    have henc : encodeExpr (.literal 0x14 "uint8" (.natV n)) = [0x14, n] := by
      rw [henc0, Nat.mod_eq_of_lt hn]
    have hlen : (encodeExpr (.literal 0x14 "uint8" (.natV n))).length = 2 := by
      rw [henc]; rfl
    have h1 : data.drop pos = 0x14 :: (n :: tl) := by
      rw [h, henc, List.cons_append, List.cons_append, List.nil_append]
    have hrb := readByte_spec h1
    have hrb2 := readByte_spec hrb.2
    refine ⟨?_, ?_⟩
    · rw [decodeLiteral, hrb.1]
      show (readByte data (pos + 1) >>= fun x =>
        Except.ok (Node.literal 0x14 "uint8" (LitValue.natV x.1), x.2)) = _
      rw [hrb2.1, bind_ok_ex, hlen]
    · rw [hlen]
      exact hrb2.2
  -- 0x15 uint16
  · cases v <;> simp [wfLit] at hwf
    case natV n =>
    obtain ⟨hvt, hn⟩ := hwf
    subst hvt
    have henc : encodeExpr (.literal 0x15 "uint16" (.natV n)) = 0x15 :: be16 n := rfl
    have hlen : (encodeExpr (.literal 0x15 "uint16" (.natV n))).length = 3 := by
      rw [henc, List.length_cons, be16_length]
    have h1 : data.drop pos = 0x15 :: (be16 n ++ tl) := by rw [h, henc, List.cons_append]
    have hrb := readByte_spec h1
    have hread := readUint16_spec hn (by omega) hrb.2
    refine ⟨?_, ?_⟩
    · rw [decodeLiteral, hrb.1]
      show (readUint16 data (pos + 1) >>= fun x =>
        Except.ok (Node.literal 0x15 "uint16" (LitValue.natV x.1), x.2)) = _
      rw [hread.1, bind_ok_ex, hlen]
    · rw [hlen]
      exact hread.2
  -- 0x16 uint32
  · cases v <;> simp [wfLit] at hwf
    case natV n =>
    obtain ⟨hvt, hn⟩ := hwf
    subst hvt
    have henc : encodeExpr (.literal 0x16 "uint32" (.natV n)) = 0x16 :: be32 n := rfl
    have hlen : (encodeExpr (.literal 0x16 "uint32" (.natV n))).length = 5 := by
      rw [henc, List.length_cons, be32_length]
    have h1 : data.drop pos = 0x16 :: (be32 n ++ tl) := by rw [h, henc, List.cons_append]
    have hrb := readByte_spec h1
    have hread := readUint32_spec hn (by omega) hrb.2
    refine ⟨?_, ?_⟩
    · rw [decodeLiteral, hrb.1]
      show (readUint32 data (pos + 1) >>= fun x =>
        Except.ok (Node.literal 0x16 "uint32" (LitValue.natV x.1), x.2)) = _
      rw [hread.1, bind_ok_ex, hlen]
    · rw [hlen]
      exact hread.2
  -- 0x17 uint64
  · cases v <;> simp [wfLit] at hwf
    case natV n =>
    obtain ⟨hvt, hn⟩ := hwf
    subst hvt
    have henc : encodeExpr (.literal 0x17 "uint64" (.natV n)) = 0x17 :: be64 n := rfl
    have hlen : (encodeExpr (.literal 0x17 "uint64" (.natV n))).length = 9 := by
      rw [henc, List.length_cons, be64_length]
    have h1 : data.drop pos = 0x17 :: (be64 n ++ tl) := by rw [h, henc, List.cons_append]
    have hrb := readByte_spec h1
    have hread := readUint64_spec hn (by omega) hrb.2
    refine ⟨?_, ?_⟩
    · rw [decodeLiteral, hrb.1]
      show (readUint64 data (pos + 1) >>= fun x =>
        Except.ok (Node.literal 0x17 "uint64" (LitValue.natV x.1), x.2)) = _
      rw [hread.1, bind_ok_ex, hlen]
    · rw [hlen]
      exact hread.2
  -- 0x18 float16
  · cases v <;> simp [wfLit] at hwf
    case f16V b =>
    obtain ⟨⟨hvt, hb⟩, hnan⟩ := hwf
    subst hvt
    have henc : encodeExpr (.literal 0x18 "float16" (.f16V b)) = 0x18 :: be16 b := rfl
    have hlen : (encodeExpr (.literal 0x18 "float16" (.f16V b))).length = 3 := by
      rw [henc, List.length_cons, be16_length]
    have h1 : data.drop pos = 0x18 :: (be16 b ++ tl) := by rw [h, henc, List.cons_append]
    have hrb := readByte_spec h1
    have hread := readF16_spec hb (by omega) hrb.2
    refine ⟨?_, ?_⟩
    · rw [decodeLiteral, hrb.1]
      show (readF16 data (pos + 1) >>= fun x =>
        Except.ok (Node.literal 0x18 "float16" (LitValue.f16V x.1), x.2)) = _
      rw [hread.1, bind_ok_ex, hlen]
    · rw [hlen]
      exact hread.2
  -- 0x19 float32
  · cases v <;> simp [wfLit] at hwf
    case f32V b =>
    obtain ⟨⟨hvt, hb⟩, hnan⟩ := hwf
    subst hvt
    have henc : encodeExpr (.literal 0x19 "float32" (.f32V b)) = 0x19 :: be32 b := rfl
    have hlen : (encodeExpr (.literal 0x19 "float32" (.f32V b))).length = 5 := by
      rw [henc, List.length_cons, be32_length]
    have h1 : data.drop pos = 0x19 :: (be32 b ++ tl) := by rw [h, henc, List.cons_append]
    have hrb := readByte_spec h1
    have hread := readF32_spec hb (by omega) hrb.2
    refine ⟨?_, ?_⟩
    · rw [decodeLiteral, hrb.1]
      show (readF32 data (pos + 1) >>= fun x =>
        Except.ok (Node.literal 0x19 "float32" (LitValue.f32V x.1), x.2)) = _
      rw [hread.1, bind_ok_ex, hlen]
    · rw [hlen]
      exact hread.2
  -- 0x1A float64
  · cases v <;> simp [wfLit] at hwf
    case f64V b =>
    obtain ⟨⟨hvt, hb⟩, hnan⟩ := hwf
    subst hvt
    have henc : encodeExpr (.literal 0x1A "float64" (.f64V b)) = 0x1A :: be64 b := rfl
    have hlen : (encodeExpr (.literal 0x1A "float64" (.f64V b))).length = 9 := by
      rw [henc, List.length_cons, be64_length]
    have h1 : data.drop pos = 0x1A :: (be64 b ++ tl) := by rw [h, henc, List.cons_append]
    have hrb := readByte_spec h1
    have hread := readF64_spec hb (by omega) hrb.2
    refine ⟨?_, ?_⟩
    · rw [decodeLiteral, hrb.1]
      show (readF64 data (pos + 1) >>= fun x =>
        Except.ok (Node.literal 0x1A "float64" (LitValue.f64V x.1), x.2)) = _
      rw [hread.1, bind_ok_ex, hlen]
    · rw [hlen]
      exact hread.2
  -- 0x1B bool
  · cases v <;> simp [wfLit] at hwf
    case boolV b =>
    subst hwf
    cases b
    · have henc : encodeExpr (.literal 0x1B "bool" (.boolV false)) = [0x1B, 0] := rfl
      have hlen : (encodeExpr (.literal 0x1B "bool" (.boolV false))).length = 2 := rfl
      have h1 : data.drop pos = 0x1B :: (0 :: tl) := by
        rw [h, henc, List.cons_append, List.cons_append, List.nil_append]
      have hrb := readByte_spec h1
      have hrb2 := readByte_spec hrb.2
      refine ⟨?_, ?_⟩
      · rw [decodeLiteral, hrb.1]
        show (readByte data (pos + 1) >>= fun x =>
          Except.ok (Node.literal 0x1B "bool" (LitValue.boolV (x.1 != 0)), x.2)) = _
        rw [hrb2.1, bind_ok_ex, hlen]
        rfl
      · rw [hlen]
        exact hrb2.2
    · have henc : encodeExpr (.literal 0x1B "bool" (.boolV true)) = [0x1B, 1] := rfl
      have hlen : (encodeExpr (.literal 0x1B "bool" (.boolV true))).length = 2 := rfl
      have h1 : data.drop pos = 0x1B :: (1 :: tl) := by
        rw [h, henc, List.cons_append, List.cons_append, List.nil_append]
      have hrb := readByte_spec h1
      have hrb2 := readByte_spec hrb.2
      refine ⟨?_, ?_⟩
      · rw [decodeLiteral, hrb.1]
        show (readByte data (pos + 1) >>= fun x =>
          Except.ok (Node.literal 0x1B "bool" (LitValue.boolV (x.1 != 0)), x.2)) = _
        rw [hrb2.1, bind_ok_ex, hlen]
        rfl
      · rw [hlen]
        exact hrb2.2
  -- 0x1C string
  · cases v <;> simp [wfLit] at hwf
    case strV s =>
    obtain ⟨⟨hvt, hslen⟩, hutf⟩ := hwf
    subst hvt
    have henc : encodeExpr (.literal 0x1C "string" (.strV s)) =
        0x1C :: (be16 s.length ++ s) := rfl
    have hlen : (encodeExpr (.literal 0x1C "string" (.strV s))).length =
        3 + s.length := by
      rw [henc, List.length_cons, List.length_append, be16_length]
      omega
    have h1 : data.drop pos = 0x1C :: ((be16 s.length ++ s) ++ tl) := by
      rw [h, henc, List.cons_append]
    have hrb := readByte_spec h1
    have hread := readString_spec hslen hutf (by omega) hrb.2
    refine ⟨?_, ?_⟩
    · rw [decodeLiteral, hrb.1]
      show (readString data (pos + 1) >>= fun x =>
        Except.ok (Node.literal 0x1C "string" (LitValue.strV x.1), x.2)) = _
      rw [hread.1, bind_ok_ex, hlen]
      show Except.ok (Node.literal 0x1C "string" (LitValue.strV s),
        pos + 1 + 2 + s.length) = _
      rw [(by omega : pos + 1 + 2 + s.length = pos + (3 + s.length))]
    · rw [hlen]
      have h2 := hread.2
      rw [(by omega : pos + 1 + 2 + s.length = pos + (3 + s.length))] at h2
      exact h2
  -- 0x1D bytes
  · cases v <;> simp [wfLit] at hwf
    case bytesV bs =>
    obtain ⟨hvt, hblen⟩ := hwf
    subst hvt
    have henc : encodeExpr (.literal 0x1D "bytes" (.bytesV bs)) =
        0x1D :: (be16 bs.length ++ bs) := rfl
    have hlen : (encodeExpr (.literal 0x1D "bytes" (.bytesV bs))).length =
        3 + bs.length := by
      rw [henc, List.length_cons, List.length_append, be16_length]
      omega
    have h1 : data.drop pos = 0x1D :: (be16 bs.length ++ (bs ++ tl)) := by
      rw [h, henc, List.cons_append, List.append_assoc]
    have hrb := readByte_spec h1
    have hu16 := readUint16_spec hblen (by omega) hrb.2
    have hdl : pos + 1 + 2 ≤ data.length := by
      have hl2 := congrArg List.length h1
      simp [be16_length] at hl2
      omega
    have hbs := @readBytesN_spec data bs tl (pos + 1 + 2) hdl hu16.2
    refine ⟨?_, ?_⟩
    · rw [decodeLiteral, hrb.1]
      show (readUint16 data (pos + 1) >>= fun x =>
        readBytesN data x.2 x.1 >>= fun y =>
        Except.ok (Node.literal 0x1D "bytes" (LitValue.bytesV y.1), y.2)) = _
      rw [hu16.1, bind_ok_ex]
      show (readBytesN data (pos + 1 + 2) bs.length >>= fun y =>
        Except.ok (Node.literal 0x1D "bytes" (LitValue.bytesV y.1), y.2)) = _
      rw [hbs.1, bind_ok_ex, hlen]
      show Except.ok (Node.literal 0x1D "bytes" (LitValue.bytesV bs),
        pos + 1 + 2 + bs.length) = _
      rw [(by omega : pos + 1 + 2 + bs.length = pos + (3 + bs.length))]
    · rw [hlen]
      have h2 := hbs.2
      rw [(by omega : pos + 1 + 2 + bs.length = pos + (3 + bs.length))] at h2
      exact h2
  -- 0x1E timestamp
  · cases v <;> simp [wfLit] at hwf
    case intV n =>
    obtain ⟨hvt, hlo, hhi⟩ := hwf
    subst hvt
    have henc : encodeExpr (.literal 0x1E "timestamp" (.intV n)) =
        0x1E :: int64be n := rfl
    have hlen : (encodeExpr (.literal 0x1E "timestamp" (.intV n))).length = 9 := by
      rw [henc, List.length_cons, int64be_length]
    have h1 : data.drop pos = 0x1E :: (int64be n ++ tl) := by rw [h, henc, List.cons_append]
    have hrb := readByte_spec h1
    have hread := readInt64_spec (by omega) (by omega) (by omega) hrb.2
    refine ⟨?_, ?_⟩
    · rw [decodeLiteral, hrb.1]
      show (readInt64 data (pos + 1) >>= fun x =>
        Except.ok (Node.literal 0x1E "timestamp" (LitValue.intV x.1), x.2)) = _
      rw [hread.1, bind_ok_ex, hlen]
    · rw [hlen]
      exact hread.2
  -- 0x1F null
  · cases v <;> simp [wfLit] at hwf
    case nullV =>
    subst hwf
    have henc : encodeExpr (.literal 0x1F "null" .nullV) = [0x1F] := rfl
    have hlen : (encodeExpr (.literal 0x1F "null" .nullV)).length = 1 := rfl
    have h1 : data.drop pos = 0x1F :: tl := by
      rw [h, henc, List.cons_append, List.nil_append]
    have hrb := readByte_spec h1
    refine ⟨?_, ?_⟩
    · rw [decodeLiteral, hrb.1]
      rw [hlen]
      show Except.ok (Node.literal 0x1F "null" LitValue.nullV, pos + 1) = _
      rfl
    · rw [hlen]
      exact hrb.2

theorem plainCodeOk_facts {c : Nat} (h : plainCodeOk c = true) :
    c < 256 ∧ ¬(0x80 ≤ c ∧ c ≤ 0x8F) ∧ ¬(0x70 ≤ c ∧ c ≤ 0x7F) ∧
    ¬(0x60 ≤ c ∧ c ≤ 0x6F) ∧ ¬(c = 0x90 ∨ c = 0x9A) ∧
    ¬(0x10 ≤ c ∧ c ≤ 0x1F) ∧ c ≠ 0x20 ∧ c ≠ 0x23 ∧ c ≠ 0x25 ∧
    ¬(c = 0xF0 ∨ c = 0xF1 ∨ c = 0xF2) ∧ c ≠ 0x98 ∧ c ≠ 0xFE ∧ c ≠ 0xFD := by
  simp [plainCodeOk] at h
  omega

set_option maxHeartbeats 4000000 in
set_option maxRecDepth 4000 in
theorem decodeExpr_enc (data : List Nat) : ∀ (N : Nat), IHyp data N := by
  intro N
  induction N with
  | zero =>
    intro e hsz
    exfalso
    cases e <;> simp at hsz <;> omega
  | succ N ih =>
    intro e hsz hwf fuel pos rest hpos hdrop hfuel
    have hcons := hdrop
    rw [encodeExpr_cons e, List.cons_append] at hcons
    have hposlt : pos < data.length := pos_lt_of_drop_cons hcons
    have hhead : data.getD pos 0 = headByte e := getD_of_drop hcons
    have hlen1 := encodeExpr_length_pos e
    obtain ⟨f, rfl⟩ : ∃ f, fuel = f + 1 := ⟨fuel - 1, by omega⟩
    rw [decodeExpression, if_pos hposlt]
    simp only [hhead]
    cases e with
    | literal c vt v =>
      simp only [wfExpr] at hwf
      obtain ⟨hc1, hc2⟩ := wfLit_code hwf
      simp only [headByte]
      rw [if_neg (by omega), if_neg (by omega), if_neg (by omega),
        if_neg (by omega), if_pos (by omega)]
      have hspec := decodeLiteral_spec hwf hpos hdrop
      rw [hspec.1]
      simp only [bind_ok_ex]
    | structN fields =>
      simp only [wfExpr, Bool.and_eq_true, beq_iff_eq] at hwf
      obtain ⟨hded, hwfF⟩ := hwf
      have hnodup : (fields.map Prod.fst).Nodup := List.dedup_eq_self.mp hded
      have hszf : sizeOf fields ≤ N := by simp at hsz; omega
      have hL : (encodeExpr (Node.structN fields)).length =
          (encodeFields fields).length + 2 := by
        simp [encodeExpr] <;> omega
      rw [hL] at hfuel
      simp only [headByte]
      rw [if_neg (by decide), if_neg (by decide), if_neg (by decide),
        if_neg (by decide), if_neg (by decide), if_pos (by decide)]
      obtain ⟨f1, rfl⟩ : ∃ f1, f = f1 + 1 := ⟨f - 1, by omega⟩
      rw [decodeStruct]
      have hdropS : data.drop pos =
          0x20 :: (encodeFields fields ++ (0x21 :: rest)) := by
        rw [hdrop]
        simp [encodeExpr]
      have hrb := readByte_spec hdropS
      rw [hrb.1]
      simp only [bind_ok_ex]
      have hprops : ∀ kv ∈ fields, kv.1 < 65536 ∧
          ∃ ev, kv.2 = some ev ∧ sizeOf ev ≤ N ∧ wfExpr ev = true := by
        intro kv hkv
        obtain ⟨k, v2⟩ := kv
        obtain ⟨hk, ev, hev, hwfe⟩ := wfFields_props hwfF (k, v2) hkv
        obtain rfl : v2 = some ev := hev
        refine ⟨hk, ev, rfl, ?_, hwfe⟩
        have := sizeOf_mem_fields hkv
        omega
      have hloop := structLoop_enc ih fields hprops hnodup f1 (pos + 1) [] rest
        (fun kv _ => rfl) (by omega) hrb.2 (by omega)
      rw [hloop]
      simp only [bind_ok_ex, List.nil_append]
      have hsplit := drop_split (by omega) hrb.2
      have hlt2 : pos + 1 + (encodeFields fields).length < data.length :=
        pos_lt_of_drop_cons hsplit.2
      rw [if_pos hlt2, hL,
        (by omega : pos + 1 + (encodeFields fields).length + 1 =
          pos + ((encodeFields fields).length + 2))]
    | listN count elements =>
      simp only [wfExpr, Bool.and_eq_true, beq_iff_eq, decide_eq_true_eq] at hwf
      obtain ⟨⟨hcnt, hlt65⟩, hwfE⟩ := hwf
      subst hcnt
      have hszE : sizeOf elements ≤ N := by simp at hsz; omega
      have hL : (encodeExpr (Node.listN elements.length elements)).length =
          (encodeElems elements).length + 4 := by
        simp [encodeExpr, be16_length] <;> omega
      rw [hL] at hfuel
      simp only [headByte]
      rw [if_neg (by decide), if_neg (by decide), if_neg (by decide),
        if_neg (by decide), if_neg (by decide), if_neg (by decide), if_pos (by decide)]
      obtain ⟨f1, rfl⟩ : ∃ f1, f = f1 + 1 := ⟨f - 1, by omega⟩
      rw [decodeList]
      have hdropL : data.drop pos =
          0x23 :: (be16 elements.length ++
            (encodeElems elements ++ (0x24 :: rest))) := by
        rw [hdrop]
        simp [encodeExpr]
      have hrb := readByte_spec hdropL
      rw [hrb.1]
      simp only [bind_ok_ex]
      have hu16 := readUint16_spec hlt65 (by omega) hrb.2
      rw [hu16.1]
      simp only [bind_ok_ex]
      have hdl : pos + 1 + 2 ≤ data.length := by
        have hl2 := congrArg List.length hdropL
        simp [be16_length] at hl2
        omega
      have hprops : ∀ x ∈ elements, ∃ ex, x = some ex ∧
          sizeOf ex ≤ N ∧ wfExpr ex = true := by
        intro x hx
        obtain ⟨ex, rfl, hwfx⟩ := wfElems_props hwfE x hx
        exact ⟨ex, rfl, by have := sizeOf_mem_elems hx; omega, hwfx⟩
      have hloop := listLoop_enc ih elements hprops f1 (pos + 1 + 2) []
        (0x24 :: rest) hdl hu16.2 (by omega)
      rw [hloop]
      simp only [bind_ok_ex, List.nil_append]
      have hsplit := drop_split hdl hu16.2
      have hlt2 := pos_lt_of_drop_cons hsplit.2
      have hgd := getD_of_drop hsplit.2
      rw [if_pos ⟨hlt2, hgd⟩, hL,
        (by omega : pos + 1 + 2 + (encodeElems elements).length + 1 =
          pos + ((encodeElems elements).length + 4))]
    | mapN count pairs =>
      simp only [wfExpr, Bool.and_eq_true, beq_iff_eq, decide_eq_true_eq] at hwf
      obtain ⟨⟨hcnt, hlt65⟩, hwfP⟩ := hwf
      subst hcnt
      have hszP : sizeOf pairs ≤ N := by simp at hsz; omega
      have hL : (encodeExpr (Node.mapN pairs.length pairs)).length =
          (encodePairs pairs).length + 4 := by
        simp [encodeExpr, be16_length] <;> omega
      rw [hL] at hfuel
      simp only [headByte]
      rw [if_neg (by decide), if_neg (by decide), if_neg (by decide),
        if_neg (by decide), if_neg (by decide), if_neg (by decide),
        if_neg (by decide), if_pos (by decide)]
      obtain ⟨f1, rfl⟩ : ∃ f1, f = f1 + 1 := ⟨f - 1, by omega⟩
      rw [decodeMap]
      have hdropM : data.drop pos =
          0x25 :: (be16 pairs.length ++
            (encodePairs pairs ++ (0x26 :: rest))) := by
        rw [hdrop]
        simp [encodeExpr]
      have hrb := readByte_spec hdropM
      rw [hrb.1]
      simp only [bind_ok_ex]
      have hu16 := readUint16_spec hlt65 (by omega) hrb.2
      rw [hu16.1]
      simp only [bind_ok_ex]
      have hdl : pos + 1 + 2 ≤ data.length := by
        have hl2 := congrArg List.length hdropM
        simp [be16_length] at hl2
        omega
      have hprops : ∀ x ∈ pairs, ∃ ek ev, x = (some ek, some ev) ∧
          sizeOf ek ≤ N ∧ wfExpr ek = true ∧ sizeOf ev ≤ N ∧ wfExpr ev = true := by
        intro x hx
        obtain ⟨ek, ev, rfl, hk, hv⟩ := wfPairs_props hwfP x hx
        have hsz2 := sizeOf_mem_pairs hx
        exact ⟨ek, ev, rfl, by omega, hk, by omega, hv⟩
      have hloop := mapLoop_enc ih pairs hprops f1 (pos + 1 + 2) []
        (0x26 :: rest) hdl hu16.2 (by omega)
      rw [hloop]
      simp only [bind_ok_ex, List.nil_append]
      have hsplit := drop_split hdl hu16.2
      have hlt2 := pos_lt_of_drop_cons hsplit.2
      have hgd := getD_of_drop hsplit.2
      rw [if_pos ⟨hlt2, hgd⟩, hL,
        (by omega : pos + 1 + 2 + (encodePairs pairs).length + 1 =
          pos + ((encodePairs pairs).length + 4))]
    | pragmatic act inner =>
      simp only [wfExpr, Bool.and_eq_true, decide_eq_true_eq] at hwf
      obtain ⟨hact, hinner⟩ := hwf
      cases inner with
      | none => simp [wfInner] at hinner
      | some ie =>
      have hwfie : wfExpr ie = true := hinner
      have hszie : sizeOf ie ≤ N := by simp at hsz; omega
      have hfacts := pragAct_facts hact
      have hL : (encodeExpr (Node.pragmatic act (some ie))).length =
          (encodeExpr ie).length + 1 := by
        simp [encodeExpr, encodeOpt] <;> omega
      rw [hL] at hfuel
      simp only [headByte]
      rw [if_pos ⟨hfacts.1, hfacts.2.1⟩]
      obtain ⟨f1, rfl⟩ : ∃ f1, f = f1 + 1 :=
        ⟨f - 1, by have := encodeExpr_length_pos ie; omega⟩
      rw [decodePragmatic]
      have hdropP : data.drop pos =
          pragmaticCodeOf act :: (encodeExpr ie ++ rest) := by
        rw [hdrop]
        simp [encodeExpr, encodeOpt]
      have hrb := readByte_spec hdropP
      rw [hrb.1]
      simp only [bind_ok_ex]
      have hIH := ih ie hszie hwfie f1 (pos + 1) rest (by omega) hrb.2
        (by have := encodeExpr_length_pos ie; omega)
      rw [hIH]
      simp only [bind_ok_ex]
      rw [hfacts.2.2, hL,
        (by omega : pos + 1 + (encodeExpr ie).length =
          pos + ((encodeExpr ie).length + 1))]
    | modal m inner extra =>
      simp only [wfExpr, Bool.and_eq_true, decide_eq_true_eq] at hwf
      obtain ⟨⟨hm, hinner⟩, hextra⟩ := hwf
      cases inner with
      | none => simp [wfInner] at hinner
      | some ie =>
      have hwfie : wfExpr ie = true := hinner
      have hszie : sizeOf ie ≤ N := by simp at hsz; omega
      have hfacts := modality_facts hm
      simp only [headByte]
      rw [if_neg (by omega), if_pos ⟨hfacts.1, hfacts.2.1⟩]
      cases extra with
      | none =>
        simp only [Bool.and_eq_true, Bool.not_eq_true', beq_eq_false_iff_ne,
          ne_eq] at hextra
        obtain ⟨h7D, h7C⟩ := hextra
        have hL : (encodeExpr (Node.modal m (some ie) none)).length =
            (encodeExpr ie).length + 1 := by
          simp [encodeExpr, encodeOpt] <;> omega
        rw [hL] at hfuel
        obtain ⟨f1, rfl⟩ : ∃ f1, f = f1 + 1 :=
          ⟨f - 1, by have := encodeExpr_length_pos ie; omega⟩
        rw [decodeModal]
        have hdropM2 : data.drop pos =
            modalityCodeOf m :: (encodeExpr ie ++ rest) := by
          rw [hdrop]
          simp [encodeExpr, encodeOpt]
        have hrb := readByte_spec hdropM2
        rw [hrb.1]
        simp only [bind_ok_ex]
        rw [if_neg h7D, if_neg h7C]
        have hIH := ih ie hszie hwfie f1 (pos + 1) rest (by omega) hrb.2
          (by have := encodeExpr_length_pos ie; omega)
        rw [hIH]
        simp only [bind_ok_ex]
        rw [hfacts.2.2, hL,
          (by omega : pos + 1 + (encodeExpr ie).length =
            pos + ((encodeExpr ie).length + 1))]
      | some ex =>
        cases ex with
        | horizonBits b =>
          simp only [Bool.and_eq_true, beq_iff_eq, decide_eq_true_eq] at hextra
          obtain ⟨⟨h7D, hb⟩, -⟩ := hextra
          have hL : (encodeExpr (Node.modal m (some ie)
              (some (.horizonBits b)))).length =
              (encodeExpr ie).length + 3 := by
            simp [encodeExpr, encodeOpt, be16_length] <;> omega
          rw [hL] at hfuel
          obtain ⟨f1, rfl⟩ : ∃ f1, f = f1 + 1 :=
            ⟨f - 1, by have := encodeExpr_length_pos ie; omega⟩
          rw [decodeModal]
          have hdropM2 : data.drop pos =
              modalityCodeOf m :: (be16 b ++ (encodeExpr ie ++ rest)) := by
            rw [hdrop]
            simp [encodeExpr, encodeOpt]
          have hrb := readByte_spec hdropM2
          rw [hrb.1]
          simp only [bind_ok_ex]
          rw [if_pos h7D]
          have hrf := readF16_spec hb (by omega) hrb.2
          rw [hrf.1]
          simp only [bind_ok_ex]
          have hdl : pos + 1 + 2 ≤ data.length := by
            have hl2 := congrArg List.length hdropM2
            have := encodeExpr_length_pos ie
            simp [be16_length] at hl2
            omega
          have hIH := ih ie hszie hwfie f1 (pos + 1 + 2) rest hdl hrf.2
            (by have := encodeExpr_length_pos ie; omega)
          rw [hIH]
          simp only [bind_ok_ex]
          rw [hfacts.2.2, hL,
            (by omega : pos + 1 + 2 + (encodeExpr ie).length =
              pos + ((encodeExpr ie).length + 3))]
        | reporter u =>
          simp only [Bool.and_eq_true, beq_iff_eq] at hextra
          obtain ⟨h7C, hulen⟩ := hextra
          have hL : (encodeExpr (Node.modal m (some ie)
              (some (.reporter u)))).length =
              (encodeExpr ie).length + 17 := by
            simp [encodeExpr, encodeOpt, hulen] <;> omega
          rw [hL] at hfuel
          obtain ⟨f1, rfl⟩ : ∃ f1, f = f1 + 1 :=
            ⟨f - 1, by have := encodeExpr_length_pos ie; omega⟩
          rw [decodeModal]
          have hdropM2 : data.drop pos =
              modalityCodeOf m :: (u ++ (encodeExpr ie ++ rest)) := by
            rw [hdrop]
            simp [encodeExpr, encodeOpt]
          have hrb := readByte_spec hdropM2
          rw [hrb.1]
          simp only [bind_ok_ex]
          rw [if_neg (by omega), if_pos h7C]
          have hbytes := @readBytesN_spec data u (encodeExpr ie ++ rest)
            (pos + 1) (by omega) hrb.2
          rw [hulen] at hbytes
          rw [hbytes.1]
          simp only [bind_ok_ex]
          have hdl : pos + 1 + 16 ≤ data.length := by
            have hl2 := congrArg List.length hdropM2
            have := encodeExpr_length_pos ie
            simp [hulen] at hl2
            omega
          have hIH := ih ie hszie hwfie f1 (pos + 1 + 16) rest hdl hbytes.2
            (by have := encodeExpr_length_pos ie; omega)
          rw [hIH]
          simp only [bind_ok_ex]
          rw [hfacts.2.2, hL,
            (by omega : pos + 1 + 16 + (encodeExpr ie).length =
              pos + ((encodeExpr ie).length + 17))]
    | temporal m inner =>
      simp only [wfExpr, Bool.and_eq_true, decide_eq_true_eq] at hwf
      obtain ⟨hm, hinner⟩ := hwf
      cases inner with
      | none => simp [wfInner] at hinner
      | some ie =>
      have hwfie : wfExpr ie = true := hinner
      have hszie : sizeOf ie ≤ N := by simp at hsz; omega
      have hfacts := temporal_facts hm
      have hL : (encodeExpr (Node.temporal m (some ie))).length =
          (encodeExpr ie).length + 1 := by
        simp [encodeExpr, encodeOpt] <;> omega
      rw [hL] at hfuel
      simp only [headByte]
      rw [if_neg (by omega), if_neg (by omega), if_pos ⟨hfacts.1, by omega⟩]
      obtain ⟨f1, rfl⟩ : ∃ f1, f = f1 + 1 :=
        ⟨f - 1, by have := encodeExpr_length_pos ie; omega⟩
      rw [decodeTemporal]
      have hdropT : data.drop pos =
          temporalCodeOf m :: (encodeExpr ie ++ rest) := by
        rw [hdrop]
        simp [encodeExpr, encodeOpt]
      have hrb := readByte_spec hdropT
      rw [hrb.1]
      simp only [bind_ok_ex]
      have hIH := ih ie hszie hwfie f1 (pos + 1) rest (by omega) hrb.2
        (by have := encodeExpr_length_pos ie; omega)
      rw [hIH]
      simp only [bind_ok_ex]
      rw [hfacts.2.2, hL,
        (by omega : pos + 1 + (encodeExpr ie).length =
          pos + ((encodeExpr ie).length + 1))]
    | domainRef lvl dc =>
      simp only [wfExpr, Bool.and_eq_true, decide_eq_true_eq] at hwf
      obtain ⟨⟨hl1, hl3⟩, hdc⟩ := hwf
      simp only [headByte]
      obtain ⟨d1, d2, d3, d4, d5, d6, d7, d8, d9⟩ :
          ¬(0x80 ≤ 0xEF + lvl ∧ 0xEF + lvl ≤ 0x8F) ∧
          ¬(0x70 ≤ 0xEF + lvl ∧ 0xEF + lvl ≤ 0x7F) ∧
          ¬(0x60 ≤ 0xEF + lvl ∧ 0xEF + lvl ≤ 0x6F) ∧
          ¬(0xEF + lvl = 0x90 ∨ 0xEF + lvl = 0x9A) ∧
          ¬(0x10 ≤ 0xEF + lvl ∧ 0xEF + lvl ≤ 0x1F) ∧
          ¬(0xEF + lvl = 0x20) ∧ ¬(0xEF + lvl = 0x23) ∧
          ¬(0xEF + lvl = 0x25) ∧
          (0xEF + lvl = 0xF0 ∨ 0xEF + lvl = 0xF1 ∨ 0xEF + lvl = 0xF2) := by
        omega
      rw [if_neg d1, if_neg d2, if_neg d3, if_neg d4, if_neg d5, if_neg d6,
        if_neg d7, if_neg d8, if_pos d9]
      have hL : (encodeExpr (Node.domainRef lvl dc)).length = 3 := by
        simp [encodeExpr, be16_length] <;> omega
      have hdropD : data.drop pos = (0xEF + lvl) :: (be16 dc ++ rest) := by
        rw [hdrop]
        simp [encodeExpr]
      have hrb := readByte_spec hdropD
      rw [decodeDomainRef, hrb.1]
      simp only [bind_ok_ex]
      have hu16 := readUint16_spec hdc (by omega) hrb.2
      rw [hu16.1]
      simp only [bind_ok_ex]
      rw [hL]
      interval_cases lvl <;> norm_num
    | contextRef idx =>
      simp only [wfExpr, decide_eq_true_eq] at hwf
      simp only [headByte]
      rw [if_neg (by decide), if_neg (by decide), if_neg (by decide),
        if_neg (by decide), if_neg (by decide), if_neg (by decide),
        if_neg (by decide), if_neg (by decide), if_neg (by decide), if_pos (by decide)]
      have hL : (encodeExpr (Node.contextRef idx)).length =
          (encode_varint idx).length + 1 := by
        simp [encodeExpr] <;> omega
      have hdropC : data.drop pos = 0x98 :: (encode_varint idx ++ rest) := by
        rw [hdrop]
        simp [encodeExpr]
      have hrb := readByte_spec hdropC
      rw [hrb.1]
      simp only [bind_ok_ex]
      have hv := readVarint_spec hwf (by omega) hrb.2
      rw [hv.1]
      simp only [bind_ok_ex]
      rw [hL,
        (by omega : pos + 1 + (encode_varint idx).length =
          pos + ((encode_varint idx).length + 1))]
    | annotated c payload => simp [wfExpr] at hwf
    | annotationNode c => simp [wfExpr] at hwf
    | codeN c mn =>
      simp only [wfExpr, Bool.and_eq_true, beq_iff_eq] at hwf
      obtain ⟨hok, hmn⟩ := hwf
      subst hmn
      obtain ⟨hlt, h1, h2, h3, h4, h5, h6, h7, h8, h9, h10, h11, h12⟩ :=
        plainCodeOk_facts hok
      simp only [headByte]
      rw [if_neg h1, if_neg h2, if_neg h3, if_neg h4, if_neg h5, if_neg h6,
        if_neg h7, if_neg h8, if_neg h9, if_neg h10, if_neg h11, if_neg h12]
      have hdropK : data.drop pos = c :: rest := by
        rw [hdrop]
        simp [encodeExpr]
      have hrb := readByte_spec hdropK
      rw [hrb.1]
      simp only [bind_ok_ex]
      rfl

theorem getElem?_of_drop_cons {data : List Nat} {pos b : Nat} {tl : List Nat}
    (h : data.drop pos = b :: tl) : data[pos]? = some b := by
  have h1 := @getElem?_of_drop data [b] tl pos 0 (by simpa using h) (by simp)
  simpa using h1

theorem wfBody_props : ∀ {body : List Node}, wfBody body = true →
    ∀ e ∈ body, wfExpr e = true := by
  intro body
  induction body with
  | nil => intro _ e he; simp at he
  | cons x xs ihx =>
    intro h e he
    simp only [wfBody, Bool.and_eq_true] at h
    rcases List.mem_cons.mp he with rfl | he1
    · exact h.1
    · exact ihx h.2 e he1

/-- `_decode_meta_header` inverts the meta bytes `start_utterance` wrote,
provided the byte that follows them is not an unconsumed 0x92–0x9F
annotation byte (which the loop would swallow). -/
theorem decodeMetaHeader_enc {data rest : List Nat} {fuel pos : Nat}
    {m : MetaHeaderNode} (hwf : wfMeta m = true)
    (hfuel : 3 ≤ fuel) (hpos : pos ≤ data.length)
    (hdrop : data.drop pos = encodeMeta m ++ rest)
    (hstop : ∀ b, data[pos + (encodeMeta m).length]? = some b →
      ¬(0x92 ≤ b ∧ b ≤ 0x9F)) :
    decodeMetaHeader fuel data pos = .ok (m, pos + (encodeMeta m).length) ∧
    data.drop (pos + (encodeMeta m).length) = rest := by
  obtain ⟨conf, pri, ts, src, dst, seq, tr, ttl, top, ver⟩ := m
  simp only [wfMeta, Bool.and_eq_true, Bool.not_eq_true',
    decide_eq_true_eq, Option.isNone_iff_eq_none] at hwf
  obtain ⟨⟨⟨⟨⟨⟨⟨⟨⟨⟨hconf, hnan⟩, hpri⟩, hts1, hts2⟩, hsrc⟩, hdst⟩, hseq⟩,
    htr⟩, httl⟩, htop⟩, hver⟩ := hwf
  subst hsrc; subst htr; subst httl; subst htop; subst hver
  cases dst with
  | none =>
    cases seq with
    | none =>
      have hd0 : data.drop pos = 0x90 :: (be16 conf ++ (0x91 :: (pri ::
          (0x94 :: (int64be ts ++ rest))))) := by
        rw [hdrop]
        simp [encodeMeta, Nat.mod_eq_of_lt hpri]
      have hL : (encodeMeta ⟨conf, pri, ts, none, none, none, none, none,
          none, none⟩).length = 14 := by
        simp [encodeMeta, be16_length, int64be_length] <;> omega
      have hposlt := pos_lt_of_drop_cons hd0
      have hdl : pos + 14 ≤ data.length := by
        have hl2 := congrArg List.length hd0
        simp [be16_length, int64be_length] at hl2
        omega
      have hr1 := readByte_spec hd0
      have hr2 := readF16_spec hconf (by omega) hr1.2
      have hr3 := readByte_spec hr2.2
      have hr4 := readByte_spec hr3.2
      have hr5 := readByte_spec hr4.2
      have hr6 := readInt64_spec hts1 hts2 (by omega) hr5.2
      refine ⟨?_, ?_⟩
      · rw [decodeMetaHeader, hr1.1]
        simp only [bind_ok_ex]
        rw [if_neg (by decide), hr2.1]
        simp only [bind_ok_ex]
        rw [hr3.1]
        simp only [bind_ok_ex]
        rw [if_neg (by decide), hr4.1]
        simp only [bind_ok_ex]
        rw [hr5.1]
        simp only [bind_ok_ex]
        rw [if_neg (by decide), hr6.1]
        simp only [bind_ok_ex]
        obtain ⟨f1, rfl⟩ : ∃ f1, fuel = f1 + 1 := ⟨fuel - 1, by omega⟩
        rw [decodeMetaLoop]
        cases hb : data[pos + 1 + 2 + 1 + 1 + 1 + 8]? with
        | none =>
          simp only [hb]
          rw [hL, (by omega : pos + (14 : Nat) = pos + 1 + 2 + 1 + 1 + 1 + 8)]
        | some b =>
          simp only [hb]
          have hnb : ¬(0x92 ≤ b ∧ b ≤ 0x9F) := by
            refine hstop b ?_
            rw [hL, (by omega : pos + (14 : Nat) = pos + 1 + 2 + 1 + 1 + 1 + 8)]
            exact hb
          rw [if_neg hnb, hL,
            (by omega : pos + (14 : Nat) = pos + 1 + 2 + 1 + 1 + 1 + 8)]
      · rw [hL, (by omega : pos + (14 : Nat) = pos + 1 + 2 + 1 + 1 + 1 + 8)]
        exact hr6.2
    | some sq =>
      simp only [decide_eq_true_eq] at hseq
      have hd0 : data.drop pos = 0x90 :: (be16 conf ++ (0x91 :: (pri ::
          (0x94 :: (int64be ts ++ (0x95 :: (be32 sq ++ rest))))))) := by
        rw [hdrop]
        simp [encodeMeta, Nat.mod_eq_of_lt hpri]
      have hL : (encodeMeta ⟨conf, pri, ts, none, none, some sq, none, none,
          none, none⟩).length = 19 := by
        simp [encodeMeta, be16_length, int64be_length, be32_length] <;> omega
      have hposlt := pos_lt_of_drop_cons hd0
      have hdl : pos + 19 ≤ data.length := by
        have hl2 := congrArg List.length hd0
        simp [be16_length, int64be_length, be32_length] at hl2
        omega
      have hr1 := readByte_spec hd0
      have hr2 := readF16_spec hconf (by omega) hr1.2
      have hr3 := readByte_spec hr2.2
      have hr4 := readByte_spec hr3.2
      have hr5 := readByte_spec hr4.2
      have hr6 := readInt64_spec hts1 hts2 (by omega) hr5.2
      have hr7 := readByte_spec hr6.2
      have hr8 := readUint32_spec hseq (by omega) hr7.2
      refine ⟨?_, ?_⟩
      · rw [decodeMetaHeader, hr1.1]
        simp only [bind_ok_ex]
        rw [if_neg (by decide), hr2.1]
        simp only [bind_ok_ex]
        rw [hr3.1]
        simp only [bind_ok_ex]
        rw [if_neg (by decide), hr4.1]
        simp only [bind_ok_ex]
        rw [hr5.1]
        simp only [bind_ok_ex]
        rw [if_neg (by decide), hr6.1]
        simp only [bind_ok_ex]
        have hb95 : data[pos + 1 + 2 + 1 + 1 + 1 + 8]? = some 0x95 :=
          getElem?_of_drop_cons hr6.2
        obtain ⟨f1, rfl⟩ : ∃ f1, fuel = f1 + 1 := ⟨fuel - 1, by omega⟩
        rw [decodeMetaLoop]
        simp only [hb95]
        rw [if_pos (by decide), if_neg (by decide), if_neg (by decide),
          if_pos (by decide), hr8.1]
        simp only [bind_ok_ex]
        obtain ⟨f2, rfl⟩ : ∃ f2, f1 = f2 + 1 := ⟨f1 - 1, by omega⟩
        rw [decodeMetaLoop]
        cases hb : data[pos + 1 + 2 + 1 + 1 + 1 + 8 + 1 + 4]? with
        | none =>
          simp only [hb]
          rw [hL, (by omega : pos + (19 : Nat) =
            pos + 1 + 2 + 1 + 1 + 1 + 8 + 1 + 4)]
        | some b =>
          simp only [hb]
          have hnb : ¬(0x92 ≤ b ∧ b ≤ 0x9F) := by
            refine hstop b ?_
            rw [hL, (by omega : pos + (19 : Nat) =
              pos + 1 + 2 + 1 + 1 + 1 + 8 + 1 + 4)]
            exact hb
          rw [if_neg hnb, hL, (by omega : pos + (19 : Nat) =
            pos + 1 + 2 + 1 + 1 + 1 + 8 + 1 + 4)]
      · rw [hL, (by omega : pos + (19 : Nat) =
          pos + 1 + 2 + 1 + 1 + 1 + 8 + 1 + 4)]
        exact hr8.2
  | some u =>
    simp only [beq_iff_eq] at hdst
    cases seq with
    | none =>
      have hd0 : data.drop pos = 0x90 :: (be16 conf ++ (0x91 :: (pri ::
          (0x94 :: (int64be ts ++ (0x93 :: (u ++ rest))))))) := by
        rw [hdrop]
        simp [encodeMeta, Nat.mod_eq_of_lt hpri]
      have hL : (encodeMeta ⟨conf, pri, ts, none, some u, none, none, none,
          none, none⟩).length = 31 := by
        simp [encodeMeta, be16_length, int64be_length, hdst] <;> omega
      have hposlt := pos_lt_of_drop_cons hd0
      have hdl : pos + 31 ≤ data.length := by
        have hl2 := congrArg List.length hd0
        simp [be16_length, int64be_length, hdst] at hl2
        omega
      have hr1 := readByte_spec hd0
      have hr2 := readF16_spec hconf (by omega) hr1.2
      have hr3 := readByte_spec hr2.2
      have hr4 := readByte_spec hr3.2
      have hr5 := readByte_spec hr4.2
      have hr6 := readInt64_spec hts1 hts2 (by omega) hr5.2
      have hr7 := readByte_spec hr6.2
      have hr8 := @readBytesN_spec data u rest
        (pos + 1 + 2 + 1 + 1 + 1 + 8 + 1) (by omega) hr7.2
      rw [hdst] at hr8
      refine ⟨?_, ?_⟩
      · rw [decodeMetaHeader, hr1.1]
        simp only [bind_ok_ex]
        rw [if_neg (by decide), hr2.1]
        simp only [bind_ok_ex]
        rw [hr3.1]
        simp only [bind_ok_ex]
        rw [if_neg (by decide), hr4.1]
        simp only [bind_ok_ex]
        rw [hr5.1]
        simp only [bind_ok_ex]
        rw [if_neg (by decide), hr6.1]
        simp only [bind_ok_ex]
        have hb93 : data[pos + 1 + 2 + 1 + 1 + 1 + 8]? = some 0x93 :=
          getElem?_of_drop_cons hr6.2
        obtain ⟨f1, rfl⟩ : ∃ f1, fuel = f1 + 1 := ⟨fuel - 1, by omega⟩
        rw [decodeMetaLoop]
        simp only [hb93]
        rw [if_pos (by decide), if_neg (by decide), if_pos (by decide), hr8.1]
        simp only [bind_ok_ex]
        obtain ⟨f2, rfl⟩ : ∃ f2, f1 = f2 + 1 := ⟨f1 - 1, by omega⟩
        rw [decodeMetaLoop]
        cases hb : data[pos + 1 + 2 + 1 + 1 + 1 + 8 + 1 + 16]? with
        | none =>
          simp only [hb]
          rw [hL, (by omega : pos + (31 : Nat) =
            pos + 1 + 2 + 1 + 1 + 1 + 8 + 1 + 16)]
        | some b =>
          simp only [hb]
          have hnb : ¬(0x92 ≤ b ∧ b ≤ 0x9F) := by
            refine hstop b ?_
            rw [hL, (by omega : pos + (31 : Nat) =
              pos + 1 + 2 + 1 + 1 + 1 + 8 + 1 + 16)]
            exact hb
          rw [if_neg hnb, hL, (by omega : pos + (31 : Nat) =
            pos + 1 + 2 + 1 + 1 + 1 + 8 + 1 + 16)]
      · rw [hL, (by omega : pos + (31 : Nat) =
          pos + 1 + 2 + 1 + 1 + 1 + 8 + 1 + 16)]
        exact hr8.2
    | some sq =>
      simp only [decide_eq_true_eq] at hseq
      have hd0 : data.drop pos = 0x90 :: (be16 conf ++ (0x91 :: (pri ::
          (0x94 :: (int64be ts ++ (0x93 :: (u ++
            (0x95 :: (be32 sq ++ rest))))))))) := by
        rw [hdrop]
        simp [encodeMeta, Nat.mod_eq_of_lt hpri]
      have hL : (encodeMeta ⟨conf, pri, ts, none, some u, some sq, none, none,
          none, none⟩).length = 36 := by
        simp [encodeMeta, be16_length, int64be_length, be32_length, hdst] <;> omega
      have hposlt := pos_lt_of_drop_cons hd0
      have hdl : pos + 36 ≤ data.length := by
        have hl2 := congrArg List.length hd0
        simp [be16_length, int64be_length, be32_length, hdst] at hl2
        omega
      have hr1 := readByte_spec hd0
      have hr2 := readF16_spec hconf (by omega) hr1.2
      have hr3 := readByte_spec hr2.2
      have hr4 := readByte_spec hr3.2
      have hr5 := readByte_spec hr4.2
      have hr6 := readInt64_spec hts1 hts2 (by omega) hr5.2
      have hr7 := readByte_spec hr6.2
      have hr8 := @readBytesN_spec data u (0x95 :: (be32 sq ++ rest))
        (pos + 1 + 2 + 1 + 1 + 1 + 8 + 1) (by omega) hr7.2
      rw [hdst] at hr8
      have hr9 := readByte_spec hr8.2
      have hr10 := readUint32_spec hseq (by omega) hr9.2
      refine ⟨?_, ?_⟩
      · rw [decodeMetaHeader, hr1.1]
        simp only [bind_ok_ex]
        rw [if_neg (by decide), hr2.1]
        simp only [bind_ok_ex]
        rw [hr3.1]
        simp only [bind_ok_ex]
        rw [if_neg (by decide), hr4.1]
        simp only [bind_ok_ex]
        rw [hr5.1]
        simp only [bind_ok_ex]
        rw [if_neg (by decide), hr6.1]
        simp only [bind_ok_ex]
        have hb93 : data[pos + 1 + 2 + 1 + 1 + 1 + 8]? = some 0x93 :=
          getElem?_of_drop_cons hr6.2
        obtain ⟨f1, rfl⟩ : ∃ f1, fuel = f1 + 1 := ⟨fuel - 1, by omega⟩
        rw [decodeMetaLoop]
        simp only [hb93]
        rw [if_pos (by decide), if_neg (by decide), if_pos (by decide), hr8.1]
        simp only [bind_ok_ex]
        have hb95 : data[pos + 1 + 2 + 1 + 1 + 1 + 8 + 1 + 16]? = some 0x95 :=
          getElem?_of_drop_cons hr8.2
        obtain ⟨f2, rfl⟩ : ∃ f2, f1 = f2 + 1 := ⟨f1 - 1, by omega⟩
        rw [decodeMetaLoop]
        simp only [hb95]
        rw [if_pos (by decide), if_neg (by decide), if_neg (by decide),
          if_pos (by decide), hr10.1]
        simp only [bind_ok_ex]
        obtain ⟨f3, rfl⟩ : ∃ f3, f2 = f3 + 1 := ⟨f2 - 1, by omega⟩
        rw [decodeMetaLoop]
        cases hb : data[pos + 1 + 2 + 1 + 1 + 1 + 8 + 1 + 16 + 1 + 4]? with
        | none =>
          simp only [hb]
          rw [hL, (by omega : pos + (36 : Nat) =
            pos + 1 + 2 + 1 + 1 + 1 + 8 + 1 + 16 + 1 + 4)]
        | some b =>
          simp only [hb]
          have hnb : ¬(0x92 ≤ b ∧ b ≤ 0x9F) := by
            refine hstop b ?_
            rw [hL, (by omega : pos + (36 : Nat) =
              pos + 1 + 2 + 1 + 1 + 1 + 8 + 1 + 16 + 1 + 4)]
            exact hb
          rw [if_neg hnb, hL, (by omega : pos + (36 : Nat) =
            pos + 1 + 2 + 1 + 1 + 1 + 8 + 1 + 16 + 1 + 4)]
      · rw [hL, (by omega : pos + (36 : Nat) =
          pos + 1 + 2 + 1 + 1 + 1 + 8 + 1 + 16 + 1 + 4)]
        exact hr10.2

theorem bodyLoop_enc {data : List Nat} {N : Nat} (IH : IHyp data N) :
    ∀ (body : List Node), (∀ e ∈ body, sizeOf e ≤ N ∧ wfExpr e = true) →
    ∀ (fuel pos : Nat) (acc : List Node) (rest : List Nat),
      pos ≤ data.length →
      data.drop pos = encodeBody body ++ (0x01 :: rest) →
      3 * (encodeBody body).length + 1 ≤ fuel →
      decodeBodyLoop fuel data pos acc =
        .ok (acc ++ body, pos + (encodeBody body).length + 1) := by
  intro body
  induction body with
  | nil =>
    intro _ fuel pos acc rest hpos hdrop hfuel
    obtain ⟨f, rfl⟩ : ∃ f, fuel = f + 1 := ⟨fuel - 1, by omega⟩
    rw [decodeBodyLoop]
    have hb : data[pos]? = some 0x01 :=
      getElem?_of_drop_cons (by simpa [encodeBody] using hdrop)
    simp only [hb]
    rw [if_pos (by decide)]
    simp [encodeBody]
  | cons e es ihe =>
    intro hprops fuel pos acc rest hpos hdrop hfuel
    obtain ⟨f, rfl⟩ : ∃ f, fuel = f + 1 := ⟨fuel - 1, by omega⟩
    have hdrop2 : data.drop pos =
        encodeExpr e ++ (encodeBody es ++ (0x01 :: rest)) := by
      rw [hdrop]
      simp [encodeBody]
    have hcons := hdrop2
    rw [encodeExpr_cons e, List.cons_append] at hcons
    have hb : data[pos]? = some (headByte e) := getElem?_of_drop_cons hcons
    have hwfe := (hprops e (by simp)).2
    have hsze := (hprops e (by simp)).1
    have hEpos := encodeExpr_length_pos e
    have hne : headByte e ≠ 0x01 := by
      have hx := headByte_excludes hwfe
      simp at hx
      exact hx.1
    have hEB : (encodeBody (e :: es)).length =
        (encodeExpr e).length + (encodeBody es).length := by
      simp [encodeBody]
    rw [hEB] at hfuel
    rw [decodeBodyLoop]
    simp only [hb]
    rw [if_neg hne]
    have hIH1 := IH e hsze hwfe f pos (encodeBody es ++ (0x01 :: rest)) hpos
      hdrop2 (by omega)
    rw [hIH1]
    simp only [bind_ok_ex]
    have hsplit := drop_split hpos hdrop2
    have hrec := ihe (fun x hx => hprops x (by simp [hx])) f
      (pos + (encodeExpr e).length) (acc ++ [e]) rest hsplit.1 hsplit.2
      (by omega)
    rw [hrec, hEB, List.append_assoc, List.singleton_append,
      (by omega : pos + (encodeExpr e).length + (encodeBody es).length + 1 =
        pos + ((encodeExpr e).length + (encodeBody es).length) + 1)]

theorem bodyLoop_end {data : List Nat} {N : Nat} (IH : IHyp data N) :
    ∀ (body : List Node), (∀ e ∈ body, sizeOf e ≤ N ∧ wfExpr e = true) →
    ∀ (fuel pos : Nat) (acc : List Node),
      pos ≤ data.length →
      data.drop pos = encodeBody body →
      3 * (encodeBody body).length + 1 ≤ fuel →
      decodeBodyLoop fuel data pos acc =
        .ok (acc ++ body, pos + (encodeBody body).length) := by
  intro body
  induction body with
  | nil =>
    intro _ fuel pos acc hpos hdrop hfuel
    obtain ⟨f, rfl⟩ : ∃ f, fuel = f + 1 := ⟨fuel - 1, by omega⟩
    rw [decodeBodyLoop]
    have hb : data[pos]? = none := by
      rw [List.getElem?_eq_none]
      have := congrArg List.length hdrop
      simp [encodeBody] at this
      omega
    simp only [hb]
    simp [encodeBody]
  | cons e es ihe =>
    intro hprops fuel pos acc hpos hdrop hfuel
    obtain ⟨f, rfl⟩ : ∃ f, fuel = f + 1 := ⟨fuel - 1, by omega⟩
    have hdrop2 : data.drop pos = encodeExpr e ++ encodeBody es := by
      rw [hdrop]
      simp [encodeBody]
    have hcons := hdrop2
    rw [encodeExpr_cons e, List.cons_append] at hcons
    have hb : data[pos]? = some (headByte e) := getElem?_of_drop_cons hcons
    have hwfe := (hprops e (by simp)).2
    have hsze := (hprops e (by simp)).1
    have hEpos := encodeExpr_length_pos e
    have hne : headByte e ≠ 0x01 := by
      have hx := headByte_excludes hwfe
      simp at hx
      exact hx.1
    have hEB : (encodeBody (e :: es)).length =
        (encodeExpr e).length + (encodeBody es).length := by
      simp [encodeBody]
    rw [hEB] at hfuel
    rw [decodeBodyLoop]
    simp only [hb]
    rw [if_neg hne]
    have hIH1 := IH e hsze hwfe f pos (encodeBody es) hpos hdrop2 (by omega)
    rw [hIH1]
    simp only [bind_ok_ex]
    have hsplit := drop_split hpos hdrop2
    have hrec := ihe (fun x hx => hprops x (by simp [hx])) f
      (pos + (encodeExpr e).length) (acc ++ [e]) hsplit.1 hsplit.2
      (by omega)
    rw [hrec, hEB, List.append_assoc, List.singleton_append,
      (by omega : pos + (encodeExpr e).length + (encodeBody es).length =
        pos + ((encodeExpr e).length + (encodeBody es).length))]

/-- The scenario-1 utterance as a tree: meta(confidence bits 0x3C00,
priority 3, timestamp 0), body `ASSERT (int32 42)`. -/
def uttScenario1 : UtteranceNode :=
  ⟨⟨0x3C00, 3, 0, none, none, none, none, none, none, none⟩,
   [.pragmatic "ASSERT" (some (.literal 0x12 "int32" (.intV 42)))]⟩

set_option maxHeartbeats 1000000 in
/-- C1 (amended): for every well-formed utterance the encoder can produce
*without inline CONFIDENCE/LABEL annotations* (`wfUtterance` — see
`c1_annotation_drops_inner` for why annotated bodies cannot round-trip),
`decode_utterance` inverts the encoding exactly: the same meta header and
the same body expressions in the same order. -/
theorem c1_roundtrip (u : UtteranceNode) (hwf : wfUtterance u = true) :
    decode_utterance (encodeUtterance u) = .ok u := by
  obtain ⟨meta, body⟩ := u
  simp only [wfUtterance, Bool.and_eq_true] at hwf
  obtain ⟨⟨hmeta, hbody⟩, hfirst⟩ := hwf
  have hd0 : (encodeUtterance ⟨meta, body⟩).drop 0 =
      0x00 :: (encodeMeta meta ++ (encodeBody body ++ (0x01 :: []))) := by
    rw [List.drop_zero]
    simp [encodeUtterance]
  have hrb := readByte_spec hd0
  have hdropMeta : (encodeUtterance ⟨meta, body⟩).drop 1 =
      encodeMeta meta ++ (encodeBody body ++ (0x01 :: [])) := by
    have h2 := hrb.2
    rwa [Nat.zero_add] at h2
  have hposlt := pos_lt_of_drop_cons hd0
  have hsplit := drop_split (by omega) hdropMeta
  have hlentot := congrArg List.length hd0
  simp at hlentot
  have hstop : ∀ b,
      (encodeUtterance ⟨meta, body⟩)[1 + (encodeMeta meta).length]? = some b →
      ¬(0x92 ≤ b ∧ b ≤ 0x9F) := by
    intro b hb
    cases body with
    | nil =>
      have hds : (encodeUtterance ⟨meta, ([] : List Node)⟩).drop
          (1 + (encodeMeta meta).length) = 0x01 :: [] := by
        simpa [encodeBody] using hsplit.2
      have h01 := getElem?_of_drop_cons hds
      rw [h01] at hb
      obtain rfl : b = 0x01 := by
        injection hb with h
        exact h.symm
      decide
    | cons e es =>
      simp only [Bool.not_eq_true', decide_eq_false_iff_not] at hfirst
      have hcons2 := hsplit.2
      rw [(by simp [encodeBody] : encodeBody (e :: es) ++ (0x01 :: ([] : List Nat)) =
        encodeExpr e ++ (encodeBody es ++ (0x01 :: []))),
        encodeExpr_cons e, List.cons_append] at hcons2
      have hbE := getElem?_of_drop_cons hcons2
      rw [hbE] at hb
      obtain rfl : b = headByte e := by
        injection hb with h
        exact h.symm
      exact hfirst
  have hM := @decodeMetaHeader_enc (encodeUtterance ⟨meta, body⟩)
    (encodeBody body ++ (0x01 :: []))
    (3 * (encodeUtterance ⟨meta, body⟩).length + 16) 1 meta
    hmeta (by omega) (by omega) hdropMeta hstop
  have hN := decodeExpr_enc (encodeUtterance ⟨meta, body⟩) (sizeOf body)
  have hbodyprops : ∀ e ∈ body, sizeOf e ≤ sizeOf body ∧ wfExpr e = true :=
    fun e he => ⟨le_of_lt (List.sizeOf_lt_of_mem he), wfBody_props hbody e he⟩
  have hBL := bodyLoop_enc hN body hbodyprops
    (3 * (encodeUtterance ⟨meta, body⟩).length + 16)
    (1 + (encodeMeta meta).length) [] [] hsplit.1 hsplit.2 (by omega)
  simp only [decode_utterance]
  rw [hrb.1]
  simp only [bind_ok_ex]
  rw [if_neg (by decide), hM.1]
  simp only [bind_ok_ex]
  rw [hBL]
  simp only [bind_ok_ex, List.nil_append]

/-- C1 witness: the amended round trip at the scenario-1 utterance. -/
theorem c1_roundtrip_witness :
    wfUtterance uttScenario1 = true ∧
    decode_utterance (encodeUtterance uttScenario1) = .ok uttScenario1 :=
  ⟨by decide, c1_roundtrip uttScenario1 (by decide)⟩

set_option maxHeartbeats 1000000 in
/-- C10: when the final END_UTTERANCE byte is missing — the stream ends
right after the body — `decode_utterance` raises no error at all: the body
loop's end-of-data branch returns normally, the utterance comes back with
every body expression decoded, and nothing reports the missing terminator
to the caller. -/
theorem c10_missing_end (u : UtteranceNode) (hwf : wfUtterance u = true) :
    decode_utterance (encodeUtteranceNoEnd u) = .ok u := by
  obtain ⟨meta, body⟩ := u
  simp only [wfUtterance, Bool.and_eq_true] at hwf
  obtain ⟨⟨hmeta, hbody⟩, hfirst⟩ := hwf
  have hd0 : (encodeUtteranceNoEnd ⟨meta, body⟩).drop 0 =
      0x00 :: (encodeMeta meta ++ encodeBody body) := by
    rw [List.drop_zero]
    simp [encodeUtteranceNoEnd]
  have hrb := readByte_spec hd0
  have hdropMeta : (encodeUtteranceNoEnd ⟨meta, body⟩).drop 1 =
      encodeMeta meta ++ encodeBody body := by
    have h2 := hrb.2
    rwa [Nat.zero_add] at h2
  have hposlt := pos_lt_of_drop_cons hd0
  have hsplit := drop_split (by omega) hdropMeta
  have hlentot := congrArg List.length hd0
  simp at hlentot
  have hstop : ∀ b,
      (encodeUtteranceNoEnd ⟨meta, body⟩)[1 + (encodeMeta meta).length]? = some b →
      ¬(0x92 ≤ b ∧ b ≤ 0x9F) := by
    intro b hb
    cases body with
    | nil =>
      have hlen0 : (encodeUtteranceNoEnd ⟨meta, ([] : List Node)⟩).length ≤
          1 + (encodeMeta meta).length := by
        have h3 := congrArg List.length hsplit.2
        simp [encodeBody] at h3
        omega
      have hnone := List.getElem?_eq_none hlen0
      rw [hnone] at hb
      exact absurd hb (by simp)
    | cons e es =>
      simp only [Bool.not_eq_true', decide_eq_false_iff_not] at hfirst
      have hcons2 := hsplit.2
      rw [(by simp [encodeBody] : encodeBody (e :: es) =
        encodeExpr e ++ encodeBody es),
        encodeExpr_cons e, List.cons_append] at hcons2
      have hbE := getElem?_of_drop_cons hcons2
      rw [hbE] at hb
      obtain rfl : b = headByte e := by
        injection hb with h
        exact h.symm
      exact hfirst
  have hM := @decodeMetaHeader_enc (encodeUtteranceNoEnd ⟨meta, body⟩)
    (encodeBody body)
    (3 * (encodeUtteranceNoEnd ⟨meta, body⟩).length + 16) 1 meta
    hmeta (by omega) (by omega) hdropMeta hstop
  have hN := decodeExpr_enc (encodeUtteranceNoEnd ⟨meta, body⟩) (sizeOf body)
  have hbodyprops : ∀ e ∈ body, sizeOf e ≤ sizeOf body ∧ wfExpr e = true :=
    fun e he => ⟨le_of_lt (List.sizeOf_lt_of_mem he), wfBody_props hbody e he⟩
  have hBL := bodyLoop_end hN body hbodyprops
    (3 * (encodeUtteranceNoEnd ⟨meta, body⟩).length + 16)
    (1 + (encodeMeta meta).length) [] hsplit.1 hsplit.2 (by omega)
  simp only [decode_utterance]
  rw [hrb.1]
  simp only [bind_ok_ex]
  rw [if_neg (by decide), hM.1]
  simp only [bind_ok_ex]
  rw [hBL]
  simp only [bind_ok_ex, List.nil_append]

/-- C10 witness: decoding the scenario-1 bytes without their final
END_UTTERANCE byte still returns the full utterance. -/
theorem c10_missing_end_witness :
    wfUtterance uttScenario1 = true ∧
    decode_utterance (encodeUtteranceNoEnd uttScenario1) = .ok uttScenario1 :=
  ⟨by decide, c10_missing_end uttScenario1 (by decide)⟩

/-- C8 (amended): a list whose declared count exceeds the elements present
before the stream ends decodes without any error to
`ListNode(count, elements present)` — the `for` loop stops at end-of-data —
but the node records nothing else: `ListNode` has only `count` and
`elements` fields (see `Node.listN` and `c8_truncated_list_no_flag`), so no
`incomplete` flag exists to be set. -/
theorem c8_truncated_list (n : Nat) (elems : List (Option Node))
    (hn : elems.length < n) (hn65 : n < 65536)
    (helems : ∀ x ∈ elems, ∃ ex, x = some ex ∧ wfExpr ex = true) :
    decodeExpression (3 * (encodeElems elems).length + 16)
        (0x23 :: (be16 n ++ encodeElems elems)) 0 =
      .ok (some (.listN n elems), 3 + (encodeElems elems).length) := by
  have hlen : (0x23 :: (be16 n ++ encodeElems elems)).length =
      3 + (encodeElems elems).length := by
    simp [be16_length]
    omega
  obtain ⟨f, hf⟩ : ∃ f, 3 * (encodeElems elems).length + 16 = f + 1 :=
    ⟨3 * (encodeElems elems).length + 15, by omega⟩
  rw [hf, decodeExpression, if_pos (by rw [hlen]; omega)]
  have hgd : (0x23 :: (be16 n ++ encodeElems elems)).getD 0 0 = 0x23 := rfl
  simp only [hgd]
  rw [if_neg (by decide), if_neg (by decide), if_neg (by decide),
    if_neg (by decide), if_neg (by decide), if_neg (by decide),
    if_pos (by decide)]
  obtain ⟨f1, hf1⟩ : ∃ f1, f = f1 + 1 := ⟨f - 1, by omega⟩
  rw [hf1, decodeList]
  have hd0 : (0x23 :: (be16 n ++ encodeElems elems)).drop 0 =
      0x23 :: (be16 n ++ encodeElems elems) := rfl
  have hrb := readByte_spec hd0
  rw [hrb.1]
  simp only [bind_ok_ex]
  have hu16 := readUint16_spec hn65 (by rw [hlen]; omega) hrb.2
  rw [hu16.1]
  simp only [bind_ok_ex]
  have hN := decodeExpr_enc (0x23 :: (be16 n ++ encodeElems elems))
    (sizeOf elems)
  have hprops : ∀ x ∈ elems, ∃ ex, x = some ex ∧
      sizeOf ex ≤ sizeOf elems ∧ wfExpr ex = true := by
    intro x hx
    obtain ⟨ex, rfl, hwfx⟩ := helems x hx
    exact ⟨ex, rfl, le_of_lt (sizeOf_mem_elems hx), hwfx⟩
  have htrunc := listLoop_trunc hN elems hprops f1 (0 + 1 + 2) [] n
    (by rw [hlen]; omega) hu16.2 hn (by omega)
  rw [htrunc]
  simp only [bind_ok_ex, List.nil_append]
  rw [if_neg (fun h => absurd h.1 (by rw [hlen] at h ⊢; omega)),
    (by omega : 0 + 1 + 2 + (encodeElems elems).length =
      3 + (encodeElems elems).length)]

/-- C8 witness: the amended statement at the counterexample's stream —
count 2 declared, one uint8 element present. -/
theorem c8_truncated_list_witness :
    ([some (Node.literal 0x14 "uint8" (.natV 5))] : List (Option Node)).length < 2 ∧
    decodeExpression
        (3 * (encodeElems [some (.literal 0x14 "uint8" (.natV 5))]).length + 16)
        (0x23 :: (be16 2 ++ encodeElems [some (.literal 0x14 "uint8" (.natV 5))])) 0 =
      .ok (some (.listN 2 [some (.literal 0x14 "uint8" (.natV 5))]),
        3 + (encodeElems [some (.literal 0x14 "uint8" (.natV 5))]).length) :=
  ⟨by decide,
   c8_truncated_list 2 [some (.literal 0x14 "uint8" (.natV 5))] (by decide)
     (by decide)
     (by
       intro x hx
       rw [List.mem_singleton] at hx
       subst hx
       exact ⟨_, rfl, by decide⟩)⟩

end AILL
